import Mathlib

/-!
Design overlay: embedding of `design-overlay.c`.

The overlay source turns a settings record into a validated configuration
(`design_overlay_update`) and, on every frame, into an ordered list of line
segments (`design_overlay_video_render`).  This file embeds that code and
proves properties of it.

Conventions of the embedding:

* C `float` is IEEE-754 binary32.  A value is NaN, an infinity, or a finite
  value carried by its exact rational value; every arithmetic operation
  computes the exact rational result and rounds it to the nearest binary32
  value, ties to even (`F32.round`).  The two zeros are identified: no
  division of the program has a zero divisor, so the sign of a zero is never
  observable in a draw call.
* C `double` values only occur as inputs read from the settings record and are
  converted to `float` at once.
* `uint32_t` is `ℕ`, `int` is `ℤ`; conversions from the 64-bit integers of the
  settings record wrap modulo `2^32`.
* A draw call `draw_simple_line` is recorded as a `DrawCmd`; a render function
  returns the list of draw calls it makes, in order.
-/

namespace DesignOverlay

/-! ## Binary32 arithmetic -/

/-- Round a rational to the nearest integer, ties to the even neighbour. -/
def rne (r : ℚ) : ℤ :=
  let f := ⌊r⌋
  if r - f < 1 / 2 then f
  else if 1 / 2 < r - f then f + 1
  else if f % 2 = 0 then f else f + 1

/-- Loop computing the position of the highest set bit, with explicit fuel. -/
def log2Aux : ℕ → ℕ → ℕ
  | 0, _ => 0
  | fuel + 1, n => if n < 2 then 0 else log2Aux fuel (n / 2) + 1

/-- Floor of the binary logarithm of a natural number (`0` for `0`). -/
def ilog2 (n : ℕ) : ℕ := log2Aux n n

/-- Binary exponent of a nonzero rational `q`: the `e` with `2^e ≤ |q| < 2^(e+1)`. -/
def binExp (q : ℚ) : ℤ :=
  let e0 : ℤ := (ilog2 q.num.natAbs : ℤ) - (ilog2 q.den : ℤ)
  if |q| < 2 ^ e0 then e0 - 1 else e0

/-- Exponent of the unit in the last place of binary32 at `q`
(24-bit significand, smallest normal exponent `-126`). -/
def ulpExp (q : ℚ) : ℤ := max (binExp q) (-126) - 23

/-- Nearest binary32-representable rational with unbounded exponent range above. -/
def roundQ (q : ℚ) : ℚ := (rne (q / 2 ^ ulpExp q) : ℚ) * 2 ^ ulpExp q

/-- Values of the C type `float` (binary32), the two zeros identified. -/
inductive F32 where
  | nan : F32
  | pinf : F32
  | ninf : F32
  | fin (q : ℚ) : F32
deriving DecidableEq

/-- Values of the C type `double`; the finite ones are carried by a rational. -/
inductive Dbl where
  | nan : Dbl
  | pinf : Dbl
  | ninf : Dbl
  | fin (q : ℚ) : Dbl
deriving DecidableEq

namespace F32

/-- Round an exact result to binary32: nearest-even, overflow to an infinity. -/
def round (q : ℚ) : F32 :=
  let r := roundQ q
  if 2 ^ 128 ≤ r then pinf else if r ≤ -(2 ^ 128) then ninf else fin r

/-- Conversion `(float)n` of an integer. -/
def ofInt (n : ℤ) : F32 := round n

/-- Conversion `(float)n` of an unsigned integer. -/
def ofNat (n : ℕ) : F32 := round n

/-- Unary minus. -/
def neg : F32 → F32
  | nan => nan
  | pinf => ninf
  | ninf => pinf
  | fin q => fin (-q)

/-- Binary32 addition. -/
def add : F32 → F32 → F32
  | nan, _ => nan
  | _, nan => nan
  | pinf, ninf => nan
  | ninf, pinf => nan
  | pinf, _ => pinf
  | _, pinf => pinf
  | ninf, _ => ninf
  | _, ninf => ninf
  | fin a, fin b => round (a + b)

/-- Binary32 subtraction. -/
def sub (a b : F32) : F32 := add a (neg b)

/-- An infinity times a finite value. -/
def infTimes (negative : Bool) (q : ℚ) : F32 :=
  if q = 0 then nan
  else if 0 < q then (if negative then ninf else pinf)
  else (if negative then pinf else ninf)

/-- Binary32 multiplication. -/
def mul : F32 → F32 → F32
  | nan, _ => nan
  | _, nan => nan
  | pinf, pinf => pinf
  | pinf, ninf => ninf
  | ninf, pinf => ninf
  | ninf, ninf => pinf
  | pinf, fin q => infTimes false q
  | ninf, fin q => infTimes true q
  | fin q, pinf => infTimes false q
  | fin q, ninf => infTimes true q
  | fin a, fin b => round (a * b)

/-- Binary32 division (a zero divisor is read as `+0`). -/
def div : F32 → F32 → F32
  | nan, _ => nan
  | _, nan => nan
  | pinf, pinf => nan
  | pinf, ninf => nan
  | ninf, pinf => nan
  | ninf, ninf => nan
  | pinf, fin q => if 0 ≤ q then pinf else ninf
  | ninf, fin q => if 0 ≤ q then ninf else pinf
  | fin _, pinf => fin 0
  | fin _, ninf => fin 0
  | fin a, fin b =>
    if b = 0 then (if a = 0 then nan else if 0 < a then pinf else ninf)
    else round (a / b)

/-- The C function `floorf`. -/
def floorf : F32 → F32
  | fin q => fin (⌊q⌋ : ℤ)
  | x => x

/-- Strict order on non-NaN values (false when an operand is NaN). -/
def lt : F32 → F32 → Bool
  | nan, _ => false
  | _, nan => false
  | ninf, ninf => false
  | ninf, _ => true
  | _, ninf => false
  | pinf, _ => false
  | fin _, pinf => true
  | fin a, fin b => decide (a < b)

/-- The C function `fmaxf`: a NaN operand is ignored. -/
def fmaxf : F32 → F32 → F32
  | nan, y => y
  | x, nan => x
  | x, y => if lt x y then y else x

/-- The C function `fminf`: a NaN operand is ignored. -/
def fminf : F32 → F32 → F32
  | nan, y => y
  | x, nan => x
  | x, y => if lt y x then y else x

instance : Add F32 := ⟨add⟩
instance : Sub F32 := ⟨sub⟩
instance : Mul F32 := ⟨mul⟩
instance : Div F32 := ⟨div⟩

end F32

/-- A decimal `float` literal of the source, such as `0.9f`. -/
def f32 (q : ℚ) : F32 := F32.round q

/-- Conversion `(float)d` of a `double`. -/
def Dbl.toF32 : Dbl → F32
  | Dbl.nan => F32.nan
  | Dbl.pinf => F32.pinf
  | Dbl.ninf => F32.ninf
  | Dbl.fin q => F32.round q

/-- Conversion `(uint32_t)v` of a 64-bit integer. -/
def toUInt32 (v : ℤ) : ℕ := (v % 4294967296).toNat

/-- Conversion `(int)v` of a 64-bit or unsigned 32-bit integer (two's complement wrap). -/
def toInt32 (v : ℤ) : ℤ := (v + 2147483648) % 4294967296 - 2147483648

/-! ## Settings record and overlay state -/

/-- A value stored under a key of the host's settings record. -/
inductive Value where
  | bool (b : Bool) : Value
  | int (v : ℤ) : Value
  | double (d : Dbl) : Value
deriving DecidableEq

/-- The host's settings record `obs_data_t`: a flat mapping from keys to values. -/
abbrev obs_data_t := String → Option Value

/-- Modelled from the spec: the host getter `obs_data_get_bool` is not part of the
source file; an absent key (or a value of another kind) reads as `false`. -/
def obs_data_get_bool (settings : obs_data_t) (name : String) : Bool :=
  match settings name with
  | some (Value.bool b) => b
  | _ => false

/-- Modelled from the spec: the host getter `obs_data_get_int` (a 64-bit integer) is
not part of the source file; an absent key (or a value of another kind) reads as `0`. -/
def obs_data_get_int (settings : obs_data_t) (name : String) : ℤ :=
  match settings name with
  | some (Value.int v) => v
  | _ => 0

/-- Modelled from the spec: the host getter `obs_data_get_double` is not part of the
source file; an absent key (or a value of another kind) reads as `0.0`. -/
def obs_data_get_double (settings : obs_data_t) (name : String) : Dbl :=
  match settings name with
  | some (Value.double d) => d
  | _ => Dbl.fin 0

/-- The overlay state `struct design_overlay_data`. -/
@[ext]
structure design_overlay_data where
  source : ℕ
  enabled : Bool
  show_material_grid : Bool
  show_bootstrap_grid : Bool
  show_safe_zones : Bool
  show_crosshair : Bool
  show_rule_of_thirds : Bool
  show_center_guides : Bool
  show_branding : Bool
  grid_opacity : F32
  safe_zone_opacity : F32
  crosshair_opacity : F32
  grid_color : ℕ
  safe_zone_color : ℕ
  crosshair_color : ℕ
  canvas_width : ℕ
  canvas_height : ℕ
  material_grid_size : ℤ
  bootstrap_columns : ℤ
  bootstrap_gutter : F32
  safe_zone_type : ℤ
  custom_safe_zone_percent : F32
  needs_redraw : Bool
  last_render_time : ℕ
deriving DecidableEq

def COLOR_GRID_BLUE : ℕ := 0xFF0096FF
def COLOR_BOOTSTRAP_PINK : ℕ := 0xFFFF0096
def COLOR_SAFE_ORANGE : ℕ := 0xFFFF6B35
def COLOR_SAFE_GREEN : ℕ := 0xFF4CAF50
def COLOR_CROSSHAIR_YELLOW : ℕ := 0xFFFFFF00
def COLOR_BRAND_BLUE : ℕ := 0xFF00D4FF

/-- The callback `design_overlay_update` on a non-null state: every field is read from
the settings record, then the canvas, grid size and column count are validated.  The
local names stand for the fields of `ctx` that the validation reassigns. -/
def design_overlay_update (ctx : design_overlay_data) (settings : obs_data_t) :
    design_overlay_data :=
  -- Configuration
  let canvas_width := toUInt32 (obs_data_get_int settings "canvas_width")
  let canvas_height := toUInt32 (obs_data_get_int settings "canvas_height")
  let material_grid_size := toInt32 (obs_data_get_int settings "material_grid_size")
  let bootstrap_columns := toInt32 (obs_data_get_int settings "bootstrap_columns")
  -- Validation
  let canvas_width := if canvas_width < 100 then 1920 else canvas_width
  let canvas_height := if canvas_height < 100 then 1080 else canvas_height
  let canvas_width := if canvas_width > 7680 then 7680 else canvas_width
  let canvas_height := if canvas_height > 4320 then 4320 else canvas_height
  let material_grid_size := if material_grid_size < 4 then 8 else material_grid_size
  let material_grid_size := if material_grid_size > 128 then 128 else material_grid_size
  let bootstrap_columns := if bootstrap_columns < 1 then 12 else bootstrap_columns
  let bootstrap_columns := if bootstrap_columns > 24 then 24 else bootstrap_columns
  { source := ctx.source
    -- Basic flags
    enabled := obs_data_get_bool settings "enabled"
    show_material_grid := obs_data_get_bool settings "show_material_grid"
    show_bootstrap_grid := obs_data_get_bool settings "show_bootstrap_grid"
    show_safe_zones := obs_data_get_bool settings "show_safe_zones"
    show_crosshair := obs_data_get_bool settings "show_crosshair"
    show_rule_of_thirds := obs_data_get_bool settings "show_rule_of_thirds"
    show_center_guides := obs_data_get_bool settings "show_center_guides"
    show_branding := obs_data_get_bool settings "show_branding"
    -- Opacity settings
    grid_opacity := (obs_data_get_double settings "grid_opacity").toF32 / f32 100
    safe_zone_opacity := (obs_data_get_double settings "safe_zone_opacity").toF32 / f32 100
    crosshair_opacity := (obs_data_get_double settings "crosshair_opacity").toF32 / f32 100
    -- Colors
    grid_color := toUInt32 (obs_data_get_int settings "grid_color")
    safe_zone_color := toUInt32 (obs_data_get_int settings "safe_zone_color")
    crosshair_color := toUInt32 (obs_data_get_int settings "crosshair_color")
    -- Configuration, validated
    canvas_width := canvas_width
    canvas_height := canvas_height
    material_grid_size := material_grid_size
    bootstrap_columns := bootstrap_columns
    bootstrap_gutter := (obs_data_get_double settings "bootstrap_gutter").toF32
    safe_zone_type := toInt32 (obs_data_get_int settings "safe_zone_type")
    custom_safe_zone_percent :=
      (obs_data_get_double settings "custom_safe_zone_percent").toF32 / f32 100
    needs_redraw := true
    last_render_time := ctx.last_render_time }

/-- The settings record without any key. -/
def emptySettings : obs_data_t := fun _ => none

/-- The settings record `settings` with `value` stored under `key`. -/
def setValue (settings : obs_data_t) (key : String) (value : Value) : obs_data_t :=
  fun k => if k = key then some value else settings k

/-- The state right after `bzalloc` in `design_overlay_create` (all fields zero),
with `needs_redraw` set. -/
def zeroState : design_overlay_data where
  source := 0
  enabled := false
  show_material_grid := false
  show_bootstrap_grid := false
  show_safe_zones := false
  show_crosshair := false
  show_rule_of_thirds := false
  show_center_guides := false
  show_branding := false
  grid_opacity := F32.fin 0
  safe_zone_opacity := F32.fin 0
  crosshair_opacity := F32.fin 0
  grid_color := 0
  safe_zone_color := 0
  crosshair_color := 0
  canvas_width := 0
  canvas_height := 0
  material_grid_size := 0
  bootstrap_columns := 0
  bootstrap_gutter := F32.fin 0
  safe_zone_type := 0
  custom_safe_zone_percent := F32.fin 0
  needs_redraw := true
  last_render_time := 0

/-! ## Drawing -/

/-- The colour vector handed to the host by `gs_effect_set_vec4`. -/
structure vec4 where
  x : F32
  y : F32
  z : F32
  w : F32
deriving DecidableEq

/-- The function `set_shader_color`: the vector it hands to the host, `none` when the
colour parameter is missing. -/
def set_shader_color (color_param : Bool) (color : ℕ) (opacity : F32) : Option vec4 :=
  if !color_param then none
  else
    let a := F32.ofNat ((color >>> 24) &&& 0xFF) / f32 255
    let r := F32.ofNat ((color >>> 16) &&& 0xFF) / f32 255
    let g := F32.ofNat ((color >>> 8) &&& 0xFF) / f32 255
    let b := F32.ofNat (color &&& 0xFF) / f32 255
    let a := a * opacity
    let a := F32.fmaxf (f32 0) (F32.fminf (f32 1) a)
    some ⟨r, g, b, a⟩

/-- One executed call of `draw_simple_line`: the end points, the colour and the opacity
it was called with. -/
structure DrawCmd where
  x1 : F32
  y1 : F32
  x2 : F32
  y2 : F32
  color : ℕ
  opacity : F32
deriving DecidableEq

/-- The function `draw_simple_line`: nothing is drawn without the effect or the colour
parameter; otherwise the shader colour is set and one line is submitted. -/
def draw_simple_line (x1 y1 x2 y2 : F32) (color : ℕ) (opacity : F32)
    (effect color_param : Bool) : List DrawCmd :=
  if !effect || !color_param then []
  else [⟨x1, y1, x2, y2, color, opacity⟩]

/-- The values taken by the loop variable of `for (int x = 0; x <= limit; x += size)`
from `x` on, in order.  Both loops of `render_material_grid` have this shape and are only
reached with `0 < size`. -/
def grid_steps (limit size x : ℤ) : List ℤ :=
  if x ≤ limit ∧ 0 < size then x :: grid_steps limit size (x + size) else []
termination_by (limit + 1 - x).toNat
decreasing_by omega

/-- The function `render_material_grid`. -/
def render_material_grid (ctx : design_overlay_data) (effect color_param : Bool) :
    List DrawCmd :=
  let size := ctx.material_grid_size
  if size ≤ 0 then []
  else
    -- Vertical lines
    (grid_steps (toInt32 ctx.canvas_width) size 0).flatMap (fun x =>
      draw_simple_line (F32.ofInt x) (f32 0) (F32.ofInt x) (F32.ofNat ctx.canvas_height)
        ctx.grid_color ctx.grid_opacity effect color_param)
    -- Horizontal lines
    ++ (grid_steps (toInt32 ctx.canvas_height) size 0).flatMap (fun y =>
      draw_simple_line (f32 0) (F32.ofInt y) (F32.ofNat ctx.canvas_width) (F32.ofInt y)
        ctx.grid_color ctx.grid_opacity effect color_param)

/-- The values taken by the loop variable of `for (int i = 1; i < cols; i++)` from `i`
on, in order. -/
def column_steps (cols i : ℤ) : List ℤ :=
  if i < cols then i :: column_steps cols (i + 1) else []
termination_by (cols - i).toNat
decreasing_by omega

/-- The function `render_bootstrap_grid`. -/
def render_bootstrap_grid (ctx : design_overlay_data) (effect color_param : Bool) :
    List DrawCmd :=
  let cols := ctx.bootstrap_columns
  let gutter := ctx.bootstrap_gutter
  if cols ≤ 0 then []
  else
    let container_w := F32.floorf (F32.ofNat ctx.canvas_width * f32 (9 / 10))
    let col_w := F32.floorf ((container_w - (F32.ofInt (cols - 1) * gutter)) / F32.ofInt cols)
    let start_x := F32.floorf ((F32.ofNat ctx.canvas_width - container_w) / f32 2)
    let color := COLOR_BOOTSTRAP_PINK
    let opacity := ctx.grid_opacity
    -- Container boundaries (outer lines)
    draw_simple_line start_x (f32 0) start_x (F32.ofNat ctx.canvas_height)
        color (opacity * f32 (1 / 2)) effect color_param
      ++ draw_simple_line (start_x + container_w) (f32 0) (start_x + container_w)
          (F32.ofNat ctx.canvas_height) color (opacity * f32 (1 / 2)) effect color_param
      -- Column dividers
      ++ (column_steps cols 1).flatMap (fun i =>
          let x := start_x + (F32.ofInt i * (col_w + gutter))
          draw_simple_line x (f32 0) x (F32.ofNat ctx.canvas_height) color opacity
            effect color_param)

/-- The `switch (ctx->safe_zone_type)` of `render_safe_zones`: the selected percent and
colour, before clamping. -/
def safe_zone_select (ctx : design_overlay_data) : F32 × ℕ :=
  if ctx.safe_zone_type = 0 then (f32 (8 / 10), COLOR_SAFE_ORANGE)
  else if ctx.safe_zone_type = 1 then (f32 (9 / 10), COLOR_SAFE_GREEN)
  else if ctx.safe_zone_type = 2 then (f32 (93 / 100), COLOR_SAFE_ORANGE)
  else if ctx.safe_zone_type = 3 then (ctx.custom_safe_zone_percent, ctx.safe_zone_color)
  else (f32 (9 / 10), COLOR_SAFE_GREEN)

/-- The value of `percent` in `render_safe_zones` after
`percent = fmaxf(0.1f, fminf(0.99f, percent))`. -/
def safe_zone_percent (ctx : design_overlay_data) : F32 :=
  F32.fmaxf (f32 (1 / 10)) (F32.fminf (f32 (99 / 100)) (safe_zone_select ctx).1)

/-- The function `render_safe_zones`. -/
def render_safe_zones (ctx : design_overlay_data) (effect color_param : Bool) :
    List DrawCmd :=
  let color := (safe_zone_select ctx).2
  let percent := safe_zone_percent ctx
  let safe_w := F32.floorf (F32.ofNat ctx.canvas_width * percent)
  let safe_h := F32.floorf (F32.ofNat ctx.canvas_height * percent)
  let margin_x := F32.floorf ((F32.ofNat ctx.canvas_width - safe_w) / f32 2)
  let margin_y := F32.floorf ((F32.ofNat ctx.canvas_height - safe_h) / f32 2)
  let opacity := ctx.safe_zone_opacity
  let marker_size := f32 20
  -- Main safe zone rectangle: top, right, bottom, left
  draw_simple_line margin_x margin_y (margin_x + safe_w) margin_y
      color opacity effect color_param
    ++ draw_simple_line (margin_x + safe_w) margin_y (margin_x + safe_w) (margin_y + safe_h)
        color opacity effect color_param
    ++ draw_simple_line (margin_x + safe_w) (margin_y + safe_h) margin_x (margin_y + safe_h)
        color opacity effect color_param
    ++ draw_simple_line margin_x (margin_y + safe_h) margin_x margin_y
        color opacity effect color_param
    -- Top-left
    ++ draw_simple_line (margin_x - marker_size) margin_y (margin_x + marker_size) margin_y
        color opacity effect color_param
    ++ draw_simple_line margin_x (margin_y - marker_size) margin_x (margin_y + marker_size)
        color opacity effect color_param
    -- Top-right
    ++ draw_simple_line (margin_x + safe_w - marker_size) margin_y
        (margin_x + safe_w + marker_size) margin_y color opacity effect color_param
    ++ draw_simple_line (margin_x + safe_w) (margin_y - marker_size)
        (margin_x + safe_w) (margin_y + marker_size) color opacity effect color_param
    -- Bottom-right
    ++ draw_simple_line (margin_x + safe_w - marker_size) (margin_y + safe_h)
        (margin_x + safe_w + marker_size) (margin_y + safe_h) color opacity effect color_param
    ++ draw_simple_line (margin_x + safe_w) (margin_y + safe_h - marker_size)
        (margin_x + safe_w) (margin_y + safe_h + marker_size) color opacity effect color_param
    -- Bottom-left
    ++ draw_simple_line (margin_x - marker_size) (margin_y + safe_h)
        (margin_x + marker_size) (margin_y + safe_h) color opacity effect color_param
    ++ draw_simple_line margin_x (margin_y + safe_h - marker_size)
        margin_x (margin_y + safe_h + marker_size) color opacity effect color_param

/-- The function `render_rule_of_thirds`; the two nested loops over `i` and `j` run
over `0, 1`. -/
def render_rule_of_thirds (ctx : design_overlay_data) (effect color_param : Bool) :
    List DrawCmd :=
  let color := COLOR_CROSSHAIR_YELLOW
  let opacity := ctx.crosshair_opacity * f32 (6 / 10)
  let third_x1 := F32.floorf (F32.ofNat ctx.canvas_width / f32 3)
  let third_x2 := F32.floorf (F32.ofNat ctx.canvas_width * f32 2 / f32 3)
  let third_y1 := F32.floorf (F32.ofNat ctx.canvas_height / f32 3)
  let third_y2 := F32.floorf (F32.ofNat ctx.canvas_height * f32 2 / f32 3)
  let dot_size := f32 4
  -- Vertical lines
  draw_simple_line third_x1 (f32 0) third_x1 (F32.ofNat ctx.canvas_height)
      color opacity effect color_param
    ++ draw_simple_line third_x2 (f32 0) third_x2 (F32.ofNat ctx.canvas_height)
        color opacity effect color_param
    -- Horizontal lines
    ++ draw_simple_line (f32 0) third_y1 (F32.ofNat ctx.canvas_width) third_y1
        color opacity effect color_param
    ++ draw_simple_line (f32 0) third_y2 (F32.ofNat ctx.canvas_width) third_y2
        color opacity effect color_param
    -- Four intersection points
    ++ ([0, 1] : List ℤ).flatMap (fun i =>
        ([0, 1] : List ℤ).flatMap (fun j =>
          let x := if i = 0 then third_x1 else third_x2
          let y := if j = 0 then third_y1 else third_y2
          draw_simple_line (x - dot_size) y (x + dot_size) y color opacity effect color_param
            ++ draw_simple_line x (y - dot_size) x (y + dot_size)
                color opacity effect color_param))

/-- The function `render_crosshair`. -/
def render_crosshair (ctx : design_overlay_data) (effect color_param : Bool) :
    List DrawCmd :=
  let cx := F32.floorf (F32.ofNat ctx.canvas_width / f32 2)
  let cy := F32.floorf (F32.ofNat ctx.canvas_height / f32 2)
  let size := f32 40
  let color := COLOR_CROSSHAIR_YELLOW
  let opacity := ctx.crosshair_opacity
  let dot_size := f32 3
  let tick_size := f32 8
  let tick_offset := size + f32 5
  -- Main crosshair lines
  draw_simple_line (cx - size) cy (cx + size) cy color opacity effect color_param
    ++ draw_simple_line cx (cy - size) cx (cy + size) color opacity effect color_param
    -- Center dot
    ++ draw_simple_line (cx - dot_size) cy (cx + dot_size) cy color opacity effect color_param
    ++ draw_simple_line cx (cy - dot_size) cx (cy + dot_size) color opacity effect color_param
    -- Horizontal ticks
    ++ draw_simple_line (cx - tick_offset) (cy - tick_size) (cx - tick_offset) (cy + tick_size)
        color (opacity * f32 (7 / 10)) effect color_param
    ++ draw_simple_line (cx + tick_offset) (cy - tick_size) (cx + tick_offset) (cy + tick_size)
        color (opacity * f32 (7 / 10)) effect color_param
    -- Vertical ticks
    ++ draw_simple_line (cx - tick_size) (cy - tick_offset) (cx + tick_size) (cy - tick_offset)
        color (opacity * f32 (7 / 10)) effect color_param
    ++ draw_simple_line (cx - tick_size) (cy + tick_offset) (cx + tick_size) (cy + tick_offset)
        color (opacity * f32 (7 / 10)) effect color_param

/-- The function `render_center_guides`. -/
def render_center_guides (ctx : design_overlay_data) (effect color_param : Bool) :
    List DrawCmd :=
  let cx := F32.floorf (F32.ofNat ctx.canvas_width / f32 2)
  let cy := F32.floorf (F32.ofNat ctx.canvas_height / f32 2)
  let color := 0xFF888888
  let opacity := ctx.crosshair_opacity * f32 (4 / 10)
  draw_simple_line cx (f32 0) cx (F32.ofNat ctx.canvas_height) color opacity effect color_param
    ++ draw_simple_line (f32 0) cy (F32.ofNat ctx.canvas_width) cy
        color opacity effect color_param

/-- The function `render_branding`. -/
def render_branding (ctx : design_overlay_data) (effect color_param : Bool) :
    List DrawCmd :=
  if !ctx.show_branding then []
  else
    let margin := f32 20
    let x := F32.ofNat ctx.canvas_width - margin - f32 60
    let y := F32.ofNat ctx.canvas_height - margin - f32 10
    let color := COLOR_BRAND_BLUE
    let opacity := f32 (7 / 10)
    let char_width := f32 8
    let char_height := f32 12
    -- "d"
    draw_simple_line x y x (y + char_height) color opacity effect color_param
      ++ draw_simple_line x y (x + char_width) y color opacity effect color_param
      ++ draw_simple_line (x + char_width) y (x + char_width) (y + char_height)
          color opacity effect color_param
      ++ draw_simple_line x (y + char_height) (x + char_width) (y + char_height)
          color opacity effect color_param
      -- dot
      ++ draw_simple_line (x + char_width * f32 (3 / 2)) (y + char_height * f32 (8 / 10))
          (x + char_width * f32 (3 / 2) + F32.ofInt 2) (y + char_height * f32 (8 / 10))
          color opacity effect color_param

/-- What the host makes available to a render call: the solid effect of
`obs_get_base_effect`, its `color` parameter and its `Solid` technique. -/
structure Host where
  solid_effect : Bool
  color_param : Bool
  tech : Bool
deriving DecidableEq

/-- The callback `design_overlay_video_render` on a non-null state: the state after the
call and the draw calls made, in order.  The blend state and technique passes opened and
closed around the layers belong to the host and are not recorded. -/
def design_overlay_video_render (host : Host) (ctx : design_overlay_data) :
    design_overlay_data × List DrawCmd :=
  if !ctx.enabled then (ctx, [])
  else if !host.solid_effect then (ctx, [])
  else if !host.color_param then (ctx, [])
  else if !host.tech then (ctx, [])
  else
    let solid_effect := host.solid_effect
    let color_param := host.color_param
    let cmds :=
      (if ctx.show_center_guides then render_center_guides ctx solid_effect color_param else [])
      ++ (if ctx.show_rule_of_thirds then render_rule_of_thirds ctx solid_effect color_param
          else [])
      ++ (if ctx.show_material_grid then render_material_grid ctx solid_effect color_param
          else [])
      ++ (if ctx.show_bootstrap_grid then render_bootstrap_grid ctx solid_effect color_param
          else [])
      ++ (if ctx.show_safe_zones then render_safe_zones ctx solid_effect color_param else [])
      ++ (if ctx.show_crosshair then render_crosshair ctx solid_effect color_param else [])
      ++ (if ctx.show_branding then render_branding ctx solid_effect color_param else [])
    ({ ctx with needs_redraw := false }, cmds)

/-- The callback `design_overlay_video_tick`; `now` is the host's
`obs_get_video_frame_time()`. -/
def design_overlay_video_tick (ctx : design_overlay_data) (now : ℕ) : design_overlay_data :=
  { ctx with last_render_time := now }

/-- The callback `design_overlay_get_width`; `none` is the null state. -/
def design_overlay_get_width (data : Option design_overlay_data) : ℕ :=
  match data with
  | some ctx => ctx.canvas_width
  | none => 1920

/-- The callback `design_overlay_get_height`; `none` is the null state. -/
def design_overlay_get_height (data : Option design_overlay_data) : ℕ :=
  match data with
  | some ctx => ctx.canvas_height
  | none => 1080

/-! ## The rules of the specification, stated in its own words -/

/-- The canvas rule of the specification: the default below `100`, else the input
capped. -/
def spec_canvas (w dflt cap : ℤ) : ℤ := if w < 100 then dflt else min w cap

/-- The grid-size rule of the specification: `8` below `4`, `128` above `128`, else the
input. -/
def spec_grid_size (g : ℤ) : ℤ := if g < 4 then 8 else if g > 128 then 128 else g

/-- The layers of a frame in the order of the specification, each with its toggle. -/
def spec_layers (ctx : design_overlay_data) : List (Bool × List DrawCmd) :=
  [ (ctx.show_center_guides, render_center_guides ctx true true),
    (ctx.show_rule_of_thirds, render_rule_of_thirds ctx true true),
    (ctx.show_material_grid, render_material_grid ctx true true),
    (ctx.show_bootstrap_grid, render_bootstrap_grid ctx true true),
    (ctx.show_safe_zones, render_safe_zones ctx true true),
    (ctx.show_crosshair, render_crosshair ctx true true),
    (ctx.show_branding, render_branding ctx true true) ]

/-- A frame as the specification describes it: the segments of the layers whose toggle
is set, in layer order. -/
def spec_frame (ctx : design_overlay_data) : List DrawCmd :=
  (spec_layers ctx).flatMap (fun layer => if layer.1 then layer.2 else [])

/-- A vertical grid line at `x`, from `(x, 0)` to `(x, H)`, in the grid colour and
opacity. -/
def spec_vertical_line (ctx : design_overlay_data) (x : ℕ) : DrawCmd :=
  ⟨F32.fin x, F32.fin 0, F32.fin x, F32.fin ctx.canvas_height,
    ctx.grid_color, ctx.grid_opacity⟩

/-- A horizontal grid line at `y`, from `(0, y)` to `(W, y)`, in the grid colour and
opacity. -/
def spec_horizontal_line (ctx : design_overlay_data) (y : ℕ) : DrawCmd :=
  ⟨F32.fin 0, F32.fin y, F32.fin ctx.canvas_width, F32.fin y,
    ctx.grid_color, ctx.grid_opacity⟩

/-- The vertical lines of the material grid as the specification lists them: one at
`x = k * s` for `k = 0 .. floor(W / s)`. -/
def spec_grid_vertical (ctx : design_overlay_data) : List DrawCmd :=
  (List.range (ctx.canvas_width / ctx.material_grid_size.toNat + 1)).map
    (fun k => spec_vertical_line ctx (k * ctx.material_grid_size.toNat))

/-- The horizontal lines of the material grid as the specification lists them: one at
`y = k * s` for `k = 0 .. floor(H / s)`. -/
def spec_grid_horizontal (ctx : design_overlay_data) : List DrawCmd :=
  (List.range (ctx.canvas_height / ctx.material_grid_size.toNat + 1)).map
    (fun k => spec_horizontal_line ctx (k * ctx.material_grid_size.toNat))

/-- An integer pixel coordinate as a binary32 value. -/
def pix (n : ℤ) : F32 := F32.fin (n : ℚ)

/-- A segment between integer pixel positions. -/
def seg (x1 y1 x2 y2 : ℤ) (color : ℕ) (opacity : F32) : DrawCmd :=
  ⟨pix x1, pix y1, pix x2, pix y2, color, opacity⟩

/-- The rule-of-thirds layer as the specification lists it: full-height lines at
`floor(W/3)` and `floor(2W/3)`, full-width lines at `floor(H/3)` and `floor(2H/3)`, and a
cross of half-length 4 at each intersection, in yellow at tools opacity times `0.6f`. -/
def spec_thirds (ctx : design_overlay_data) : List DrawCmd :=
  let W : ℤ := ctx.canvas_width
  let H : ℤ := ctx.canvas_height
  let x1 := W / 3
  let x2 := 2 * W / 3
  let y1 := H / 3
  let y2 := 2 * H / 3
  let c := COLOR_CROSSHAIR_YELLOW
  let o := ctx.crosshair_opacity * f32 (6 / 10)
  [ seg x1 0 x1 H c o, seg x2 0 x2 H c o,
    seg 0 y1 W y1 c o, seg 0 y2 W y2 c o,
    seg (x1 - 4) y1 (x1 + 4) y1 c o, seg x1 (y1 - 4) x1 (y1 + 4) c o,
    seg (x1 - 4) y2 (x1 + 4) y2 c o, seg x1 (y2 - 4) x1 (y2 + 4) c o,
    seg (x2 - 4) y1 (x2 + 4) y1 c o, seg x2 (y1 - 4) x2 (y1 + 4) c o,
    seg (x2 - 4) y2 (x2 + 4) y2 c o, seg x2 (y2 - 4) x2 (y2 + 4) c o ]

/-- The integer value of the code's `floorf((float)n * percent)` for the clamped safe-zone
percent, the product being a binary32 product (`0` should that value not be finite). -/
def safe_extent (ctx : design_overlay_data) (n : ℕ) : ℤ :=
  match F32.floorf (F32.ofNat n * safe_zone_percent ctx) with
  | F32.fin q => ⌊q⌋
  | _ => 0

/-- The draw calls of `render_safe_zones` written with integer pixel positions: the four
edges of the safe rectangle, then two ticks of half-length 20 at each of its corners.  The
width and height are the values the code computes (`safe_extent`), not an exact floor. -/
def safe_zone_segments (ctx : design_overlay_data) : List DrawCmd :=
  let W : ℤ := ctx.canvas_width
  let H : ℤ := ctx.canvas_height
  let sw := safe_extent ctx ctx.canvas_width
  let sh := safe_extent ctx ctx.canvas_height
  let mx := (W - sw) / 2
  let my := (H - sh) / 2
  let c := (safe_zone_select ctx).2
  let o := ctx.safe_zone_opacity
  [ seg mx my (mx + sw) my c o, seg (mx + sw) my (mx + sw) (my + sh) c o,
    seg (mx + sw) (my + sh) mx (my + sh) c o, seg mx (my + sh) mx my c o,
    seg (mx - 20) my (mx + 20) my c o, seg mx (my - 20) mx (my + 20) c o,
    seg (mx + sw - 20) my (mx + sw + 20) my c o,
    seg (mx + sw) (my - 20) (mx + sw) (my + 20) c o,
    seg (mx + sw - 20) (my + sh) (mx + sw + 20) (my + sh) c o,
    seg (mx + sw) (my + sh - 20) (mx + sw) (my + sh + 20) c o,
    seg (mx - 20) (my + sh) (mx + 20) (my + sh) c o,
    seg mx (my + sh - 20) mx (my + sh + 20) c o ]

/-- A stored fraction re-expressed on the 0-100 scale, as the `double` written to a
settings record.  The product of a binary32 value with `100` is exact in `double`; were
it computed in `float` instead, the value read back by `(float)` would be the same. -/
def F32.percent : F32 → Dbl
  | F32.nan => Dbl.nan
  | F32.pinf => Dbl.pinf
  | F32.ninf => Dbl.ninf
  | F32.fin q => Dbl.fin (100 * q)

/-- Conversion `(double)x` of a `float`, which is exact. -/
def F32.toDbl : F32 → Dbl
  | F32.nan => Dbl.nan
  | F32.pinf => Dbl.pinf
  | F32.ninf => Dbl.ninf
  | F32.fin q => Dbl.fin q

/-- The configuration written back as a settings record: toggles, colours and integer
fields as they are stored, the gutter as it is stored, the three opacities and the custom
percent re-expressed on the 0-100 scale. -/
def settings_of (c : design_overlay_data) : obs_data_t := fun key =>
  if key = "enabled" then some (Value.bool c.enabled)
  else if key = "show_material_grid" then some (Value.bool c.show_material_grid)
  else if key = "show_bootstrap_grid" then some (Value.bool c.show_bootstrap_grid)
  else if key = "show_safe_zones" then some (Value.bool c.show_safe_zones)
  else if key = "show_crosshair" then some (Value.bool c.show_crosshair)
  else if key = "show_rule_of_thirds" then some (Value.bool c.show_rule_of_thirds)
  else if key = "show_center_guides" then some (Value.bool c.show_center_guides)
  else if key = "show_branding" then some (Value.bool c.show_branding)
  else if key = "grid_opacity" then some (Value.double c.grid_opacity.percent)
  else if key = "safe_zone_opacity" then some (Value.double c.safe_zone_opacity.percent)
  else if key = "crosshair_opacity" then some (Value.double c.crosshair_opacity.percent)
  else if key = "grid_color" then some (Value.int c.grid_color)
  else if key = "safe_zone_color" then some (Value.int c.safe_zone_color)
  else if key = "crosshair_color" then some (Value.int c.crosshair_color)
  else if key = "canvas_width" then some (Value.int c.canvas_width)
  else if key = "canvas_height" then some (Value.int c.canvas_height)
  else if key = "material_grid_size" then some (Value.int c.material_grid_size)
  else if key = "bootstrap_columns" then some (Value.int c.bootstrap_columns)
  else if key = "bootstrap_gutter" then some (Value.double c.bootstrap_gutter.toDbl)
  else if key = "safe_zone_type" then some (Value.int c.safe_zone_type)
  else if key = "custom_safe_zone_percent" then
    some (Value.double c.custom_safe_zone_percent.percent)
  else none

/-- Whether a stored fraction, re-expressed on the 0-100 scale, is still finite when it
is read back as a `float` (a value that is not finite stays as it is). -/
def percent_survives (o : F32) : Bool :=
  match o, (F32.percent o).toF32 with
  | F32.fin _, F32.fin _ => true
  | F32.fin _, _ => false
  | _, _ => true

/-- No opacity and no custom percent of the configuration overflows binary32 when it is
re-expressed on the 0-100 scale. -/
def Reexpressible (c : design_overlay_data) : Prop :=
  percent_survives c.grid_opacity = true ∧
  percent_survives c.safe_zone_opacity = true ∧
  percent_survives c.crosshair_opacity = true ∧
  percent_survives c.custom_safe_zone_percent = true

/-- A settings record whose grid opacity is the largest finite `float`. -/
def overflowSettings : obs_data_t :=
  setValue emptySettings "grid_opacity" (Value.double (Dbl.fin (2 ^ 128 - 2 ^ 104)))

/-- The default settings of `design_overlay_get_defaults`. -/
def defaultSettings : obs_data_t := fun key =>
  if key = "enabled" then some (Value.bool true)
  else if key = "show_material_grid" then some (Value.bool true)
  else if key = "show_bootstrap_grid" then some (Value.bool false)
  else if key = "show_safe_zones" then some (Value.bool true)
  else if key = "show_crosshair" then some (Value.bool true)
  else if key = "show_rule_of_thirds" then some (Value.bool false)
  else if key = "show_center_guides" then some (Value.bool false)
  else if key = "show_branding" then some (Value.bool true)
  else if key = "grid_opacity" then some (Value.double (Dbl.fin 30))
  else if key = "safe_zone_opacity" then some (Value.double (Dbl.fin 70))
  else if key = "crosshair_opacity" then some (Value.double (Dbl.fin 90))
  else if key = "grid_color" then some (Value.int COLOR_GRID_BLUE)
  else if key = "safe_zone_color" then some (Value.int COLOR_SAFE_ORANGE)
  else if key = "crosshair_color" then some (Value.int COLOR_CROSSHAIR_YELLOW)
  else if key = "canvas_width" then some (Value.int 1920)
  else if key = "canvas_height" then some (Value.int 1080)
  else if key = "material_grid_size" then some (Value.int 8)
  else if key = "bootstrap_columns" then some (Value.int 12)
  else if key = "bootstrap_gutter" then some (Value.double (Dbl.fin 30))
  else if key = "safe_zone_type" then some (Value.int 1)
  else if key = "custom_safe_zone_percent" then some (Value.double (Dbl.fin 85))
  else none

/-- A host on which the solid effect, its colour parameter and its technique exist. -/
def readyHost : Host := ⟨true, true, true⟩

/-- The bounds that `design_overlay_update` establishes on the integer fields. -/
def Validated (ctx : design_overlay_data) : Prop :=
  (100 ≤ ctx.canvas_width ∧ ctx.canvas_width ≤ 7680) ∧
  (100 ≤ ctx.canvas_height ∧ ctx.canvas_height ≤ 4320) ∧
  (4 ≤ ctx.material_grid_size ∧ ctx.material_grid_size ≤ 128) ∧
  (1 ≤ ctx.bootstrap_columns ∧ ctx.bootstrap_columns ≤ 24)

/-- A state with `enabled` cleared and all seven layer toggles set. -/
def disabledAllLayers : design_overlay_data :=
  { zeroState with
    show_material_grid := true, show_bootstrap_grid := true, show_safe_zones := true,
    show_crosshair := true, show_rule_of_thirds := true, show_center_guides := true,
    show_branding := true, canvas_width := 1920, canvas_height := 1080,
    material_grid_size := 8, bootstrap_columns := 12 }

/-- An enabled state with all seven layer toggles set. -/
def enabledAllLayers : design_overlay_data :=
  { disabledAllLayers with enabled := true }

/-- The scenario of the specification: canvas 1920x1080, material grid size 8, only the
material grid enabled, default grid colour and opacity. -/
def materialOnly : design_overlay_data :=
  { zeroState with
    enabled := true, show_material_grid := true,
    grid_opacity := F32.fin (5033165 / 16777216), grid_color := COLOR_GRID_BLUE,
    canvas_width := 1920, canvas_height := 1080,
    material_grid_size := 8, bootstrap_columns := 12 }

/-- The scenario of the specification: canvas 900x600, only rule of thirds enabled. -/
def thirdsOnly : design_overlay_data :=
  { zeroState with
    enabled := true, show_rule_of_thirds := true,
    crosshair_opacity := F32.fin (15099494 / 16777216),
    canvas_width := 900, canvas_height := 600,
    material_grid_size := 8, bootstrap_columns := 12 }

/-- The scenario of the specification: canvas 1000x1000, safe-zone type Mobile, only safe
zones enabled. -/
def mobileSafeZone : design_overlay_data :=
  { zeroState with
    enabled := true, show_safe_zones := true,
    safe_zone_opacity := F32.fin (11744051 / 16777216),
    canvas_width := 1000, canvas_height := 1000,
    material_grid_size := 8, bootstrap_columns := 12, safe_zone_type := 0 }

/-- The column-count rule of the specification: `12` below `1`, `24` above `24`, else the
input. -/
def spec_columns (n : ℤ) : ℤ := if n < 1 then 12 else if n > 24 then 24 else n

/-- A host whose solid effect lacks the `Solid` technique. -/
def noTechniqueHost : Host := ⟨true, true, false⟩

/-- The densest material grid on the default canvas: 1920x1080, cell size 4, only the
material grid enabled. -/
def denseGrid : design_overlay_data :=
  { materialOnly with material_grid_size := 4 }

/-- A settings record whose grid opacity is 200 percent. -/
def doubleOpacitySettings : obs_data_t :=
  setValue emptySettings "grid_opacity" (Value.double (Dbl.fin 200))

/-- The draw calls of `render_bootstrap_grid` with the container and the margin as
integers: the two boundary lines of the container at half the grid opacity, then the
`n - 1` dividers at full grid opacity, all full-height and pink.  The column width and the
divider positions `margin + i * (colW + gutter)` are the binary32 values the code computes,
every operation rounded, not the exact values of these expressions. -/
def bootstrap_segments (ctx : design_overlay_data) : List DrawCmd :=
  let W : ℤ := ctx.canvas_width
  let H : ℤ := ctx.canvas_height
  let n := ctx.bootstrap_columns
  let g := ctx.bootstrap_gutter
  let container := 9 * W / 10
  let margin := (W - container) / 2
  let colW := F32.floorf ((pix container - pix (n - 1) * g) / pix n)
  [ seg margin 0 margin H COLOR_BOOTSTRAP_PINK (ctx.grid_opacity * f32 (1 / 2)),
    seg (margin + container) 0 (margin + container) H COLOR_BOOTSTRAP_PINK
      (ctx.grid_opacity * f32 (1 / 2)) ]
  ++ (List.range (n - 1).toNat).map (fun (i : ℕ) =>
      (⟨pix margin + pix ((i : ℤ) + 1) * (colW + g), pix 0,
        pix margin + pix ((i : ℤ) + 1) * (colW + g), pix H,
        COLOR_BOOTSTRAP_PINK, ctx.grid_opacity⟩ : DrawCmd))

/-- The default alignment grid: canvas 1920x1080, 12 columns, gutter 30, only the alignment
grid enabled. -/
def bootstrapOnly : design_overlay_data :=
  { zeroState with
    enabled := true, show_bootstrap_grid := true,
    grid_opacity := F32.fin (5033165 / 16777216),
    canvas_width := 1920, canvas_height := 1080,
    material_grid_size := 8, bootstrap_columns := 12, bootstrap_gutter := F32.fin 30 }

/-- The local `container_w` of `render_bootstrap_grid`. -/
def container_w (ctx : design_overlay_data) : F32 :=
  F32.floorf (F32.ofNat ctx.canvas_width * f32 (9 / 10))

/-- The local `col_w` of `render_bootstrap_grid`. -/
def col_w (ctx : design_overlay_data) : F32 :=
  F32.floorf ((container_w ctx - (F32.ofInt (ctx.bootstrap_columns - 1) * ctx.bootstrap_gutter))
    / F32.ofInt ctx.bootstrap_columns)

/-- The local `start_x` of `render_bootstrap_grid`. -/
def start_x (ctx : design_overlay_data) : F32 :=
  F32.floorf ((F32.ofNat ctx.canvas_width - container_w ctx) / f32 2)

/-- The columns of the alignment grid fit the container to within `tol` pixels, read on
the exact values of the binary32 quantities: with `n` columns of width `colW` and gutter
`g`, `n*colW + (n-1)*g <= container + tol`, the right edge `margin + n*colW + (n-1)*g` of
the last column is at most `tol` beyond the right boundary `margin + container`, and falls
short of it by less than `n + tol`.  It does not hold when one of the quantities is not
finite. -/
def columns_fit_within (tol : ℚ) (ctx : design_overlay_data) : Prop :=
  match container_w ctx, col_w ctx, ctx.bootstrap_gutter, start_x ctx with
  | F32.fin container, F32.fin colW, F32.fin g, F32.fin margin =>
    let n : ℚ := ctx.bootstrap_columns
    n * colW + (n - 1) * g ≤ container + tol ∧
    margin + n * colW + (n - 1) * g ≤ margin + container + tol ∧
    (margin + container) - (margin + n * colW + (n - 1) * g) < n + tol
  | _, _, _, _ => False

/-- The columns of the alignment grid fit the container: `n*colW + (n-1)*g <= container`,
the right edge of the last column is at most the right boundary `margin + container`, and
falls short of it by less than `n`. -/
def columns_fit (ctx : design_overlay_data) : Prop := columns_fit_within 0 ctx

/-- A settings record with two columns and a gutter of `-(16000 - 1/1024)` pixels; the
canvas is left to its default width `1920`. -/
def fractionalGutterSettings : obs_data_t :=
  setValue (setValue emptySettings "bootstrap_columns" (Value.int 2))
    "bootstrap_gutter" (Value.double (Dbl.fin (-16383999 / 1024)))

/-- The local `safe_w` of `render_safe_zones`. -/
def safe_w (ctx : design_overlay_data) : F32 :=
  F32.floorf (F32.ofNat ctx.canvas_width * safe_zone_percent ctx)

/-- The local `safe_h` of `render_safe_zones`. -/
def safe_h (ctx : design_overlay_data) : F32 :=
  F32.floorf (F32.ofNat ctx.canvas_height * safe_zone_percent ctx)

/-- The local `margin_x` of `render_safe_zones`. -/
def margin_x (ctx : design_overlay_data) : F32 :=
  F32.floorf ((F32.ofNat ctx.canvas_width - safe_w ctx) / f32 2)

/-- The local `margin_y` of `render_safe_zones`. -/
def margin_y (ctx : design_overlay_data) : F32 :=
  F32.floorf ((F32.ofNat ctx.canvas_height - safe_h ctx) / f32 2)

/-- The safe rectangle of the specification: the rectangle with top-left corner
`(margin_x, margin_y)`, width `safe_w` and height `safe_h` lies inside the canvas `W x H`
and is centred to within one pixel. -/
def safe_rectangle_centred (W H sw sh mx my : ℤ) : Prop :=
  (0 ≤ mx ∧ mx + sw ≤ W) ∧ (0 ≤ my ∧ my + sh ≤ H) ∧
  (W - sw - mx = mx ∨ W - sw - mx = mx + 1) ∧
  (H - sh - my = my ∨ H - sh - my = my + 1)

/-- The configuration `c` with the safe-zone type and the custom percent replaced. -/
def with_safe_zone (c : design_overlay_data) (zone : ℤ) (percent : F32) :
    design_overlay_data :=
  { c with safe_zone_type := zone, custom_safe_zone_percent := percent }

/-- A settings record with every toggle set, canvas 7680x4320, material grid size 4 and
24 columns. -/
def fullSettings : obs_data_t := fun key =>
  if key = "enabled" then some (Value.bool true)
  else if key = "show_material_grid" then some (Value.bool true)
  else if key = "show_bootstrap_grid" then some (Value.bool true)
  else if key = "show_safe_zones" then some (Value.bool true)
  else if key = "show_crosshair" then some (Value.bool true)
  else if key = "show_rule_of_thirds" then some (Value.bool true)
  else if key = "show_center_guides" then some (Value.bool true)
  else if key = "show_branding" then some (Value.bool true)
  else if key = "canvas_width" then some (Value.int 7680)
  else if key = "canvas_height" then some (Value.int 4320)
  else if key = "material_grid_size" then some (Value.int 4)
  else if key = "bootstrap_columns" then some (Value.int 24)
  else none

/-- The number of draw calls of a frame as the specification counts them: the sum over the
enabled layers of 2 (center guides), 12 (rule of thirds), `floor(W/s) + 1 + floor(H/s) + 1`
(material grid), `n + 1` (alignment grid), 12 (safe zones), 8 (crosshair) and 5
(branding). -/
def spec_frame_count (ctx : design_overlay_data) : ℕ :=
  (if ctx.show_center_guides then 2 else 0)
  + (if ctx.show_rule_of_thirds then 12 else 0)
  + (if ctx.show_material_grid then
      (ctx.canvas_width / ctx.material_grid_size.toNat + 1)
        + (ctx.canvas_height / ctx.material_grid_size.toNat + 1)
    else 0)
  + (if ctx.show_bootstrap_grid then ctx.bootstrap_columns.toNat + 1 else 0)
  + (if ctx.show_safe_zones then 12 else 0)
  + (if ctx.show_crosshair then 8 else 0)
  + (if ctx.show_branding then 5 else 0)

/-- The rational value of the effective percent of `render_safe_zones`, the clamped
`percent` (`0` should it not be finite). -/
def effective_percent (ctx : design_overlay_data) : ℚ :=
  match safe_zone_percent ctx with
  | F32.fin q => q
  | _ => 0

/-- The extent of the safe rectangle as the specification writes it: `floor(p * n)` in
exact arithmetic. -/
def spec_extent (p : ℚ) (n : ℕ) : ℤ := ⌊p * (n : ℚ)⌋

/-- The extent of the safe rectangle with the product rounded to binary32 before the
floor is taken: `floor(rnd(n * p))`. -/
def rounded_extent (p : ℚ) (n : ℕ) : ℤ := ⌊roundQ ((n : ℚ) * p)⌋

/-- The safe-zone layer as the specification lists it, for a safe rectangle of width `sw`
and height `sh`: the four edges of the rectangle whose top-left corner is
`(floor((W - sw)/2), floor((H - sh)/2))`, then two ticks of half-length 20 centred on each
of its corners, in the selected colour at safe-zone opacity. -/
def spec_safe_rectangle (ctx : design_overlay_data) (sw sh : ℤ) : List DrawCmd :=
  let W : ℤ := ctx.canvas_width
  let H : ℤ := ctx.canvas_height
  let mx := (W - sw) / 2
  let my := (H - sh) / 2
  let c := (safe_zone_select ctx).2
  let o := ctx.safe_zone_opacity
  [ seg mx my (mx + sw) my c o, seg (mx + sw) my (mx + sw) (my + sh) c o,
    seg (mx + sw) (my + sh) mx (my + sh) c o, seg mx (my + sh) mx my c o,
    seg (mx - 20) my (mx + 20) my c o, seg mx (my - 20) mx (my + 20) c o,
    seg (mx + sw - 20) my (mx + sw + 20) my c o,
    seg (mx + sw) (my - 20) (mx + sw) (my + 20) c o,
    seg (mx + sw - 20) (my + sh) (mx + sw + 20) (my + sh) c o,
    seg (mx + sw) (my + sh - 20) (mx + sw) (my + sh + 20) c o,
    seg (mx - 20) (my + sh) (mx + 20) (my + sh) c o,
    seg mx (my + sh - 20) mx (my + sh + 20) c o ]

/-- The safe-zone layer of the specification with the exact extents `floor(p * W)` and
`floor(p * H)`, `p` the effective percent. -/
def spec_safe_zones_exact (ctx : design_overlay_data) : List DrawCmd :=
  spec_safe_rectangle ctx (spec_extent (effective_percent ctx) ctx.canvas_width)
    (spec_extent (effective_percent ctx) ctx.canvas_height)

/-- The safe-zone layer of the specification with the extents `floor(rnd(W * p))` and
`floor(rnd(H * p))`, the products rounded to binary32, `p` the effective percent. -/
def spec_safe_zones_rounded (ctx : design_overlay_data) : List DrawCmd :=
  spec_safe_rectangle ctx (rounded_extent (effective_percent ctx) ctx.canvas_width)
    (rounded_extent (effective_percent ctx) ctx.canvas_height)

/-- A settings record with canvas 1280x720, safe-zone type Custom and a custom percent of
65. -/
def customSixtyFiveSettings : obs_data_t :=
  setValue (setValue (setValue (setValue emptySettings "canvas_width" (Value.int 1280))
    "canvas_height" (Value.int 720)) "safe_zone_type" (Value.int 3))
    "custom_safe_zone_percent" (Value.double (Dbl.fin 65))

/-- The column width as the specification writes it: `floor((container - (n-1)*g) / n)` in
exact arithmetic. -/
def spec_col_w (container n : ℤ) (g : ℚ) : ℤ :=
  ⌊((container : ℚ) - ((n : ℚ) - 1) * g) / (n : ℚ)⌋

/-- The alignment-grid layer as the specification lists it for the gutter `g`, every
expression in exact arithmetic: with `container = floor(0.9 * W)`,
`colW = floor((container - (n-1)*g) / n)` and `margin = floor((W - container) / 2)`, the
two boundary lines at `x = margin` and `x = margin + container` at half the grid opacity,
then the `n - 1` dividers at `x = margin + i * (colW + g)` for `i = 1 .. n - 1` at full grid
opacity, all full-height and pink. -/
def spec_bootstrap_exact (ctx : design_overlay_data) (g : ℚ) : List DrawCmd :=
  let W : ℤ := ctx.canvas_width
  let H : ℤ := ctx.canvas_height
  let n := ctx.bootstrap_columns
  let container := 9 * W / 10
  let margin := (W - container) / 2
  let colW := spec_col_w container n g
  [ seg margin 0 margin H COLOR_BOOTSTRAP_PINK (ctx.grid_opacity * f32 (1 / 2)),
    seg (margin + container) 0 (margin + container) H COLOR_BOOTSTRAP_PINK
      (ctx.grid_opacity * f32 (1 / 2)) ]
  ++ (List.range (n - 1).toNat).map (fun (i : ℕ) =>
      (⟨F32.fin ((margin : ℚ) + ((i : ℚ) + 1) * ((colW : ℚ) + g)), pix 0,
        F32.fin ((margin : ℚ) + ((i : ℚ) + 1) * ((colW : ℚ) + g)), pix H,
        COLOR_BOOTSTRAP_PINK, ctx.grid_opacity⟩ : DrawCmd))

/-- A settings record with two columns and a gutter of `30 + 2^-19` pixels; the canvas is
left to its default 1920x1080. -/
def nearThirtyGutterSettings : obs_data_t :=
  setValue (setValue emptySettings "bootstrap_columns" (Value.int 2))
    "bootstrap_gutter" (Value.double (Dbl.fin (15728641 / 524288)))

/-! ## Facts about binary32 rounding -/

theorem log2Aux_eq_log (fuel n : ℕ) (h : n ≤ fuel) : log2Aux fuel n = Nat.log 2 n := by
  induction fuel generalizing n with
  | zero =>
    have h0 : n = 0 := by omega
    subst h0
    simp [log2Aux]
  | succ k ih =>
    unfold log2Aux
    split_ifs with h2
    · exact (Nat.log_of_lt h2).symm
    · have h3 : 2 ≤ n := by omega
      rw [Nat.log_of_one_lt_of_le (by norm_num) h3, ih (n / 2) (by omega)]

theorem ilog2_eq_log (n : ℕ) : ilog2 n = Nat.log 2 n :=
  log2Aux_eq_log n n le_rfl

theorem two_pow_ilog2_le (n : ℕ) (h : n ≠ 0) : 2 ^ ilog2 n ≤ n := by
  rw [ilog2_eq_log]
  exact Nat.pow_log_le_self 2 h

theorem lt_two_pow_ilog2 (n : ℕ) : n < 2 ^ (ilog2 n + 1) := by
  rw [ilog2_eq_log]
  exact Nat.lt_pow_succ_log_self (by norm_num) n

theorem two_zpow_pos (e : ℤ) : (0 : ℚ) < 2 ^ e := zpow_pos (by norm_num) e

/-- The rational `|q|` lies strictly between `2^(e0-1)` and `2^(e0+1)` for the first
estimate `e0` of `binExp`. -/
theorem binExp_estimate (q : ℚ) (hq : q ≠ 0) :
    (2 : ℚ) ^ ((ilog2 q.num.natAbs : ℤ) - (ilog2 q.den : ℤ) - 1) ≤ |q| ∧
    |q| < (2 : ℚ) ^ ((ilog2 q.num.natAbs : ℤ) - (ilog2 q.den : ℤ) + 1) := by
  have hN0 : q.num.natAbs ≠ 0 := by
    simpa [Int.natAbs_eq_zero] using hq
  have hD0 : q.den ≠ 0 := q.den_nz
  have hNl : ((2 : ℚ) ^ ilog2 q.num.natAbs) ≤ (q.num.natAbs : ℚ) := by
    exact_mod_cast two_pow_ilog2_le _ hN0
  have hNu : (q.num.natAbs : ℚ) < (2 : ℚ) ^ (ilog2 q.num.natAbs + 1) := by
    exact_mod_cast lt_two_pow_ilog2 q.num.natAbs
  have hDl : ((2 : ℚ) ^ ilog2 q.den) ≤ (q.den : ℚ) := by
    exact_mod_cast two_pow_ilog2_le _ hD0
  have hDu : (q.den : ℚ) < (2 : ℚ) ^ (ilog2 q.den + 1) := by
    exact_mod_cast lt_two_pow_ilog2 q.den
  have hDpos : (0 : ℚ) < q.den := by exact_mod_cast q.den_pos
  have habs : |q| = (q.num.natAbs : ℚ) / (q.den : ℚ) := by
    have h1 : |q| = |(q.num : ℚ)| / (q.den : ℚ) := by
      conv_lhs => rw [← Rat.num_div_den q]
      rw [abs_div, abs_of_pos hDpos]
    rw [h1, Nat.cast_natAbs, Int.cast_abs]
  have hp1 : (0 : ℚ) < 2 ^ ilog2 q.den := by positivity
  have hp2 : (0 : ℚ) < 2 ^ (ilog2 q.den + 1) := by positivity
  constructor
  · have e1 : (2 : ℚ) ^ ((ilog2 q.num.natAbs : ℤ) - (ilog2 q.den : ℤ) - 1)
        = (2 : ℚ) ^ ilog2 q.num.natAbs / (2 : ℚ) ^ (ilog2 q.den + 1) := by
      rw [show ((ilog2 q.num.natAbs : ℤ) - (ilog2 q.den : ℤ) - 1)
          = (ilog2 q.num.natAbs : ℤ) - ((ilog2 q.den + 1 : ℕ) : ℤ) by push_cast; ring]
      rw [zpow_sub₀ (by norm_num : (2 : ℚ) ≠ 0), zpow_natCast, zpow_natCast]
    rw [e1, habs, div_le_div_iff₀ hp2 hDpos]
    calc (2 : ℚ) ^ ilog2 q.num.natAbs * (q.den : ℚ)
        ≤ (q.num.natAbs : ℚ) * (q.den : ℚ) :=
          mul_le_mul_of_nonneg_right hNl hDpos.le
      _ ≤ (q.num.natAbs : ℚ) * (2 : ℚ) ^ (ilog2 q.den + 1) :=
          mul_le_mul_of_nonneg_left hDu.le (by positivity)
  · have e2 : (2 : ℚ) ^ ((ilog2 q.num.natAbs : ℤ) - (ilog2 q.den : ℤ) + 1)
        = (2 : ℚ) ^ (ilog2 q.num.natAbs + 1) / (2 : ℚ) ^ ilog2 q.den := by
      rw [show ((ilog2 q.num.natAbs : ℤ) - (ilog2 q.den : ℤ) + 1)
          = ((ilog2 q.num.natAbs + 1 : ℕ) : ℤ) - (ilog2 q.den : ℤ) by push_cast; ring]
      rw [zpow_sub₀ (by norm_num : (2 : ℚ) ≠ 0), zpow_natCast, zpow_natCast]
    rw [e2, habs, div_lt_div_iff₀ hDpos hp1]
    calc (q.num.natAbs : ℚ) * (2 : ℚ) ^ ilog2 q.den
        ≤ (q.num.natAbs : ℚ) * (q.den : ℚ) :=
          mul_le_mul_of_nonneg_left hDl (by positivity)
      _ < (2 : ℚ) ^ (ilog2 q.num.natAbs + 1) * (q.den : ℚ) :=
          mul_lt_mul_of_pos_right hNu hDpos

theorem binExp_lower (q : ℚ) (hq : q ≠ 0) : (2 : ℚ) ^ binExp q ≤ |q| := by
  have h := binExp_estimate q hq
  unfold binExp
  simp only
  split_ifs with hlt
  · exact h.1
  · exact not_lt.mp hlt

theorem binExp_upper (q : ℚ) (hq : q ≠ 0) : |q| < (2 : ℚ) ^ (binExp q + 1) := by
  have h := binExp_estimate q hq
  unfold binExp
  simp only
  split_ifs with hlt
  · simpa using hlt
  · exact h.2

theorem binExp_zero : binExp 0 = -1 := by decide!

/-- A bound on `|q|` bounds the binary exponent. -/
theorem binExp_le (q : ℚ) (E : ℤ) (hE : -1 ≤ E) (h : |q| < (2 : ℚ) ^ (E + 1)) :
    binExp q ≤ E := by
  by_cases hq : q = 0
  · subst hq
    rw [binExp_zero]
    exact hE
  · have h1 := binExp_lower q hq
    have h2 : (2 : ℚ) ^ binExp q < (2 : ℚ) ^ (E + 1) := lt_of_le_of_lt h1 h
    have h3 := (zpow_lt_zpow_iff_right₀ (by norm_num : (1 : ℚ) < 2)).mp h2
    omega

theorem le_binExp (q : ℚ) (E : ℤ) (h : (2 : ℚ) ^ E ≤ |q|) : E ≤ binExp q := by
  have hq : q ≠ 0 := by
    intro h0
    subst h0
    have := two_zpow_pos E
    simp at h
    linarith
  have h2 : (2 : ℚ) ^ E < (2 : ℚ) ^ (binExp q + 1) := lt_of_le_of_lt h (binExp_upper q hq)
  have h3 := (zpow_lt_zpow_iff_right₀ (by norm_num : (1 : ℚ) < 2)).mp h2
  omega

theorem ulpExp_le (q : ℚ) (g : ℤ) (hg : -24 ≤ g) (h : |q| < (2 : ℚ) ^ (g + 24)) :
    ulpExp q ≤ g := by
  have hb : binExp q ≤ g + 23 :=
    binExp_le q (g + 23) (by omega) (by rw [show g + 23 + 1 = g + 24 by ring]; exact h)
  unfold ulpExp
  have := max_le hb (show (-126 : ℤ) ≤ g + 23 by omega)
  omega

theorem rne_intCast (k : ℤ) : rne (k : ℚ) = k := by
  simp [rne]

theorem le_rne (r : ℚ) (k : ℤ) (h : (k : ℚ) ≤ r) : k ≤ rne r := by
  have hf : k ≤ ⌊r⌋ := Int.le_floor.mpr h
  unfold rne
  simp only
  split_ifs <;> omega

theorem rne_le (r : ℚ) (k : ℤ) (h : r ≤ (k : ℚ)) : rne r ≤ k := by
  have hf1 : (⌊r⌋ : ℚ) ≤ r := Int.floor_le r
  have hf : ⌊r⌋ ≤ k := by exact_mod_cast hf1.trans h
  unfold rne
  simp only
  split_ifs with h1 h2 h3
  · exact hf
  · have : (⌊r⌋ : ℚ) < k := by linarith
    have : ⌊r⌋ < k := by exact_mod_cast this
    omega
  · exact hf
  · have : (⌊r⌋ : ℚ) < k := by linarith
    have : ⌊r⌋ < k := by exact_mod_cast this
    omega

/-- Rounding does not cross a value `k * 2^g` of the binary32 grid at `q` from below. -/
theorem le_roundQ (q : ℚ) (k g : ℤ) (hg : ulpExp q ≤ g) (h : (k : ℚ) * 2 ^ g ≤ q) :
    (k : ℚ) * 2 ^ g ≤ roundQ q := by
  have hu := two_zpow_pos (ulpExp q)
  obtain ⟨n, hn⟩ : ∃ n : ℕ, g = ulpExp q + n := ⟨(g - ulpExp q).toNat, by omega⟩
  have hk : (k : ℚ) * 2 ^ g = ((k * 2 ^ n : ℤ) : ℚ) * 2 ^ ulpExp q := by
    rw [hn, zpow_add₀ (by norm_num : (2 : ℚ) ≠ 0), zpow_natCast]
    push_cast
    ring
  have h1 : ((k * 2 ^ n : ℤ) : ℚ) ≤ q / 2 ^ ulpExp q := by
    rw [le_div_iff₀ hu, ← hk]
    exact h
  have h2 := le_rne _ _ h1
  have h3 : ((k * 2 ^ n : ℤ) : ℚ) ≤ (rne (q / 2 ^ ulpExp q) : ℚ) := by exact_mod_cast h2
  rw [hk]
  unfold roundQ
  exact mul_le_mul_of_nonneg_right h3 hu.le

/-- Rounding does not cross a value `k * 2^g` of the binary32 grid at `q` from above. -/
theorem roundQ_le (q : ℚ) (k g : ℤ) (hg : ulpExp q ≤ g) (h : q ≤ (k : ℚ) * 2 ^ g) :
    roundQ q ≤ (k : ℚ) * 2 ^ g := by
  have hu := two_zpow_pos (ulpExp q)
  obtain ⟨n, hn⟩ : ∃ n : ℕ, g = ulpExp q + n := ⟨(g - ulpExp q).toNat, by omega⟩
  have hk : (k : ℚ) * 2 ^ g = ((k * 2 ^ n : ℤ) : ℚ) * 2 ^ ulpExp q := by
    rw [hn, zpow_add₀ (by norm_num : (2 : ℚ) ≠ 0), zpow_natCast]
    push_cast
    ring
  have h1 : q / 2 ^ ulpExp q ≤ ((k * 2 ^ n : ℤ) : ℚ) := by
    rw [div_le_iff₀ hu, ← hk]
    exact h
  have h2 := rne_le _ _ h1
  have h3 : (rne (q / 2 ^ ulpExp q) : ℚ) ≤ ((k * 2 ^ n : ℤ) : ℚ) := by exact_mod_cast h2
  rw [hk]
  unfold roundQ
  exact mul_le_mul_of_nonneg_right h3 hu.le

/-- A value of the binary32 grid at `q` is left unchanged by rounding. -/
theorem roundQ_of_grid (q : ℚ) (k g : ℤ) (hg : ulpExp q ≤ g) (h : q = (k : ℚ) * 2 ^ g) :
    roundQ q = q :=
  le_antisymm (by simpa [← h] using roundQ_le q k g hg h.le)
    (by simpa [← h] using le_roundQ q k g hg h.ge)

/-- Rounding below the overflow threshold yields a finite value. -/
theorem round_eq_fin (q : ℚ) (h1 : roundQ q < 2 ^ 128) (h2 : -(2 ^ 128) < roundQ q) :
    F32.round q = F32.fin (roundQ q) := by
  unfold F32.round
  simp only
  rw [if_neg (not_le.mpr h1), if_neg (not_le.mpr h2)]

/-- Integers of magnitude below `2^24` are binary32 values. -/
theorem round_intCast (n : ℤ) (h : |n| < 2 ^ 24) : F32.round (n : ℚ) = F32.fin n := by
  have hq : |(n : ℚ)| < (2 : ℚ) ^ ((0 : ℤ) + 24) := by
    have h1 : ((|n| : ℤ) : ℚ) < 2 ^ 24 := by exact_mod_cast h
    rw [Int.cast_abs] at h1
    rw [show (2 : ℚ) ^ ((0 : ℤ) + 24) = 2 ^ 24 by norm_num]
    exact h1
  have hu : ulpExp (n : ℚ) ≤ 0 := ulpExp_le _ 0 (by norm_num) hq
  have hr : roundQ (n : ℚ) = n := roundQ_of_grid _ n 0 hu (by simp)
  have hb := abs_lt.mp hq
  rw [round_eq_fin _ (by rw [hr]; norm_num at hb ⊢; linarith)
    (by rw [hr]; norm_num at hb ⊢; linarith), hr]

theorem ofInt_eq (n : ℤ) (h : |n| < 2 ^ 24) : F32.ofInt n = F32.fin n :=
  round_intCast n h

theorem ofNat_eq (n : ℕ) (h : n < 2 ^ 24) : F32.ofNat n = F32.fin n := by
  have := round_intCast (n : ℤ) (by rw [abs_of_nonneg (by positivity)]; exact_mod_cast h)
  simpa [F32.ofNat] using this

theorem f32_intCast (n : ℤ) (h : |n| < 2 ^ 24) : f32 (n : ℚ) = F32.fin n :=
  round_intCast n h

/-! ## Dividing by one hundred and multiplying back -/

theorem rne_abs_sub_le (r : ℚ) : |r - rne r| ≤ 1 / 2 := by
  have h1 := Int.floor_le r
  have h2 := Int.lt_floor_add_one r
  unfold rne
  simp only
  split_ifs with a b c
  · rw [abs_le]; constructor <;> linarith
  · rw [abs_le]; push_cast; constructor <;> linarith
  · rw [abs_le]; constructor <;> linarith
  · rw [abs_le]; push_cast; constructor <;> linarith

theorem rne_eq_of_abs_lt (r : ℚ) (m : ℤ) (h : |r - m| < 1 / 2) : rne r = m := by
  have h0 := rne_abs_sub_le r
  rw [abs_lt] at h
  rw [abs_le] at h0
  have h1 : ((rne r : ℤ) : ℚ) - m < 1 := by linarith
  have h2 : (m : ℚ) - rne r < 1 := by linarith
  have h3 : rne r - m < 1 := by exact_mod_cast h1
  have h4 : m - rne r < 1 := by exact_mod_cast h2
  omega

/-- The distance of a rational to its rounding is at most half a unit in the last place. -/
theorem roundQ_abs_sub_le (q : ℚ) : |roundQ q - q| ≤ 2 ^ ulpExp q / 2 := by
  have hu := two_zpow_pos (ulpExp q)
  have h := rne_abs_sub_le (q / 2 ^ ulpExp q)
  unfold roundQ
  have e : (rne (q / 2 ^ ulpExp q) : ℚ) * 2 ^ ulpExp q - q
      = -(q / 2 ^ ulpExp q - rne (q / 2 ^ ulpExp q)) * 2 ^ ulpExp q := by
    field_simp
    ring
  rw [e, abs_mul, abs_neg, abs_of_pos hu]
  calc |q / 2 ^ ulpExp q - ↑(rne (q / 2 ^ ulpExp q))| * 2 ^ ulpExp q
      ≤ 1 / 2 * 2 ^ ulpExp q := mul_le_mul_of_nonneg_right h hu.le
    _ = 2 ^ ulpExp q / 2 := by ring

/-- A grid value closer than half a unit in the last place is the rounding. -/
theorem roundQ_eq_of_near (q : ℚ) (m : ℤ) (h : |q - m * 2 ^ ulpExp q| < 2 ^ ulpExp q / 2) :
    roundQ q = m * 2 ^ ulpExp q := by
  have hu := two_zpow_pos (ulpExp q)
  have h1 : |q / 2 ^ ulpExp q - m| < 1 / 2 := by
    have e : q / 2 ^ ulpExp q - m = (q - m * 2 ^ ulpExp q) / 2 ^ ulpExp q := by
      field_simp
      ring
    rw [e, abs_div, abs_of_pos hu, div_lt_iff₀ hu]
    linarith
  unfold roundQ
  rw [rne_eq_of_abs_lt _ m h1]

theorem binExp_le_of_ne (q : ℚ) (hq : q ≠ 0) (E : ℤ) (h : |q| < (2 : ℚ) ^ (E + 1)) :
    binExp q ≤ E := by
  have h1 := binExp_lower q hq
  have h2 : (2 : ℚ) ^ binExp q < (2 : ℚ) ^ (E + 1) := lt_of_le_of_lt h1 h
  have h3 := (zpow_lt_zpow_iff_right₀ (by norm_num : (1 : ℚ) < 2)).mp h2
  omega

theorem binExp_eq (q : ℚ) (E : ℤ) (h1 : (2 : ℚ) ^ E ≤ |q|) (h2 : |q| < (2 : ℚ) ^ (E + 1)) :
    binExp q = E := by
  have hq : q ≠ 0 := by
    intro h0
    subst h0
    have := two_zpow_pos E
    simp at h1
    linarith
  exact le_antisymm (binExp_le_of_ne q hq E h2) (le_binExp q E h1)


theorem two_zpow_add_nat (e : ℤ) (j : ℕ) : (2 : ℚ) ^ (e + j) = 2 ^ e * 2 ^ j := by
  rw [zpow_add₀ (by norm_num : (2 : ℚ) ≠ 0), zpow_natCast]

theorem ulpExp_ge (q : ℚ) : -149 ≤ ulpExp q := by
  unfold ulpExp
  omega

/-- The unit in the last place of a value in the binade `[2^(e+23), 2^(e+24))`. -/
theorem ulpExp_of_normal (q : ℚ) (e : ℤ) (he : -149 ≤ e) (hq : 0 < q)
    (h1 : (2 : ℚ) ^ e * 2 ^ 23 ≤ q) (h2 : q < (2 : ℚ) ^ e * 2 ^ 24) : ulpExp q = e := by
  have hb : binExp q = e + 23 := by
    apply binExp_eq
    · rw [abs_of_pos hq]
      have := two_zpow_add_nat e 23
      push_cast at this
      rw [this]
      exact h1
    · rw [abs_of_pos hq, show e + 23 + 1 = e + 24 by ring]
      have := two_zpow_add_nat e 24
      push_cast at this
      rw [this]
      exact h2
  unfold ulpExp
  rw [hb]
  omega

/-- The unit in the last place below the smallest normal value. -/
theorem ulpExp_of_subnormal (q : ℚ) (hq : 0 < q) (h2 : q < (2 : ℚ) ^ (-149 : ℤ) * 2 ^ 23) :
    ulpExp q = -149 := by
  have hb : binExp q ≤ -127 := by
    apply binExp_le_of_ne q (ne_of_gt hq)
    rw [abs_of_pos hq]
    have := two_zpow_add_nat (-149) 23
    push_cast at this
    rw [show (-127 : ℤ) + 1 = -126 by norm_num, this]
    exact h2
  unfold ulpExp
  omega

/-- Shape of the rounding of a positive rational: an integer significand `n` times the
unit in the last place, in the normal or in the subnormal range. -/
theorem roundQ_shape (p : ℚ) (hp : 0 < p) :
    ∃ n : ℤ, roundQ p = n * 2 ^ ulpExp p ∧ 0 ≤ n ∧ n ≤ 16777216 ∧
      |(n : ℚ) * 2 ^ ulpExp p - p| ≤ 2 ^ ulpExp p / 2 ∧
      p < 2 ^ ulpExp p * 2 ^ 24 ∧
      ((8388608 ≤ n ∧ 2 ^ ulpExp p * 2 ^ 23 ≤ p) ∨
        (ulpExp p = -149 ∧ n ≤ 8388608 ∧ p < 2 ^ ulpExp p * 2 ^ 23)) := by
  have hu := two_zpow_pos (ulpExp p)
  have hne : p ≠ 0 := ne_of_gt hp
  have hlo := binExp_lower p hne
  have hup := binExp_upper p hne
  rw [abs_of_pos hp] at hlo hup
  have hlt : p < 2 ^ ulpExp p * 2 ^ 24 := by
    have h1 : binExp p + 1 ≤ ulpExp p + 24 := by
      unfold ulpExp
      omega
    have h2 : (2 : ℚ) ^ (binExp p + 1) ≤ 2 ^ (ulpExp p + 24) :=
      zpow_le_zpow_right₀ (by norm_num) h1
    have h3 := two_zpow_add_nat (ulpExp p) 24
    push_cast at h3
    rw [h3] at h2
    linarith
  have hdist := roundQ_abs_sub_le p
  refine ⟨rne (p / 2 ^ ulpExp p), rfl, ?_, ?_, hdist, hlt, ?_⟩
  · apply le_rne
    simp only [Int.cast_zero]
    positivity
  · apply rne_le
    rw [div_le_iff₀ hu]
    push_cast
    linarith
  · by_cases hn : -126 ≤ binExp p
    · left
      have he : ulpExp p + 23 = binExp p := by
        unfold ulpExp
        omega
      have h3 := two_zpow_add_nat (ulpExp p) 23
      push_cast at h3
      rw [he] at h3
      have h4 : 2 ^ ulpExp p * 2 ^ 23 ≤ p := by
        rw [← h3]
        exact hlo
      refine ⟨?_, h4⟩
      apply le_rne
      rw [le_div_iff₀ hu]
      push_cast
      linarith
    · right
      have he : ulpExp p = -149 := by
        unfold ulpExp
        omega
      have h1 : binExp p + 1 ≤ ulpExp p + 23 := by omega
      have h2 : (2 : ℚ) ^ (binExp p + 1) ≤ 2 ^ (ulpExp p + 23) :=
        zpow_le_zpow_right₀ (by norm_num) h1
      have h3 := two_zpow_add_nat (ulpExp p) 23
      push_cast at h3
      rw [h3] at h2
      have h4 : p < 2 ^ ulpExp p * 2 ^ 23 := by linarith
      refine ⟨he, ?_, h4⟩
      apply rne_le
      rw [div_le_iff₀ hu]
      push_cast
      linarith

theorem roundQ_zero : roundQ 0 = 0 := by
  simp [roundQ, rne]


theorem ulpExp_le_of_ne (q : ℚ) (hq : q ≠ 0) (g : ℤ) (hg : -149 ≤ g)
    (h : |q| < (2 : ℚ) ^ g * 2 ^ 24) : ulpExp q ≤ g := by
  have h3 := two_zpow_add_nat g 24
  push_cast at h3
  have hb : binExp q ≤ g + 23 :=
    binExp_le_of_ne q hq (g + 23) (by rw [show g + 23 + 1 = g + 24 by ring, h3]; exact h)
  unfold ulpExp
  omega

/-- A value whose rounding is itself is an integer multiple of its unit in the last
place. -/
theorem float_multiple (y : ℚ) (hy : roundQ y = y) (g : ℤ) (hg : ulpExp y = g) :
    ∃ m : ℤ, y = m * 2 ^ g := by
  refine ⟨rne (y / 2 ^ ulpExp y), ?_⟩
  rw [← hg]
  exact hy.symm

theorem scale_le (a b u : ℚ) (h : a ≤ b) (hu : 0 < u) : a * u ≤ b * u :=
  mul_le_mul_of_nonneg_right h hu.le

/-- One hundred times a power-of-two quotient is a binary32 value. -/
theorem roundtrip_exact (e : ℤ) (he : -149 ≤ e) :
    roundQ (roundQ (100 * ((8388608 : ℤ) * 2 ^ e)) / 100) = (8388608 : ℤ) * 2 ^ e := by
  have hu : 0 < (2 : ℚ) ^ e := two_zpow_pos e
  have e6 := two_zpow_add_nat e 6
  push_cast at e6
  have htpos : 0 < 100 * (((8388608 : ℤ) : ℚ) * 2 ^ e) := by positivity
  have hzpos : 0 < ((8388608 : ℤ) : ℚ) * 2 ^ e := by positivity
  have hut : ulpExp (100 * (((8388608 : ℤ) : ℚ) * 2 ^ e)) = e + 6 := by
    apply ulpExp_of_normal _ _ (by omega) htpos
    · rw [e6]
      push_cast
      linarith
    · rw [e6]
      push_cast
      linarith
  have hw : roundQ (100 * (((8388608 : ℤ) : ℚ) * 2 ^ e))
      = 100 * (((8388608 : ℤ) : ℚ) * 2 ^ e) := by
    apply roundQ_of_grid _ 13107200 (e + 6) (le_of_eq hut)
    rw [e6]
    push_cast
    ring
  have huz : ulpExp (((8388608 : ℤ) : ℚ) * 2 ^ e) = e := by
    apply ulpExp_of_normal _ _ he hzpos
    · push_cast
      linarith
    · push_cast
      linarith
  rw [hw, mul_div_cancel_left₀ _ (by norm_num : (100 : ℚ) ≠ 0)]
  exact roundQ_of_grid _ 8388608 e (le_of_eq huz) rfl

/-- A quotient strictly inside its binade is recovered when one hundred times the
quotient stays below `2^30` units. -/
theorem roundtrip_inside (n e : ℤ) (he : -149 ≤ e) (h1 : 1 ≤ n) (hA : 100 * n < 1073741824)
    (hcase : 8388609 ≤ n ∨ (e = -149 ∧ n ≤ 8388607)) :
    roundQ (roundQ (100 * ((n : ℚ) * 2 ^ e)) / 100) = (n : ℚ) * 2 ^ e := by
  have hu : 0 < (2 : ℚ) ^ e := two_zpow_pos e
  have e6 := two_zpow_add_nat e 6
  push_cast at e6
  have hn1 : (1 : ℚ) ≤ n := by exact_mod_cast h1
  have hnA : (n : ℚ) ≤ 10737418 := by
    have : n ≤ 10737418 := by omega
    exact_mod_cast this
  have s1 := scale_le _ _ _ hn1 hu
  have s2 := scale_le _ _ _ hnA hu
  have htpos : 0 < 100 * ((n : ℚ) * 2 ^ e) := by linarith
  have hut : ulpExp (100 * ((n : ℚ) * 2 ^ e)) ≤ e + 6 := by
    apply ulpExp_le_of_ne _ (ne_of_gt htpos) _ (by omega)
    rw [abs_of_pos htpos, e6]
    linarith
  have hwd := roundQ_abs_sub_le (100 * ((n : ℚ) * 2 ^ e))
  have hpw : (2 : ℚ) ^ ulpExp (100 * ((n : ℚ) * 2 ^ e)) ≤ 2 ^ (e + 6) :=
    zpow_le_zpow_right₀ (by norm_num) hut
  rw [e6] at hpw
  rw [abs_le] at hwd
  obtain ⟨w, hwdef⟩ : ∃ w, roundQ (100 * ((n : ℚ) * 2 ^ e)) = w := ⟨_, rfl⟩
  rw [hwdef] at hwd ⊢
  have hq1 : (n : ℚ) * 2 ^ e - 32 / 100 * 2 ^ e ≤ w / 100 := by linarith
  have hq2 : w / 100 ≤ (n : ℚ) * 2 ^ e + 32 / 100 * 2 ^ e := by linarith
  have hqpos : 0 < w / 100 := by linarith
  have huq : ulpExp (w / 100) = e := by
    rcases hcase with hlo | ⟨he149, hhi⟩
    · have hloq : (8388609 : ℚ) ≤ n := by exact_mod_cast hlo
      have s3 := scale_le _ _ _ hloq hu
      apply ulpExp_of_normal _ _ he hqpos
      · linarith
      · linarith
    · have hhiq : (n : ℚ) ≤ 8388607 := by exact_mod_cast hhi
      have s3 := scale_le _ _ _ hhiq hu
      subst he149
      apply ulpExp_of_subnormal _ hqpos
      linarith
  have := roundQ_eq_of_near (w / 100) n (by
    rw [huq, abs_lt]
    constructor <;> linarith)
  rw [this, huq]

/-- When one hundred times the quotient reaches `2^30` units it rounds back to the
binary32 value that was divided. -/
theorem roundtrip_back (y : ℚ) (hy : roundQ y = y) (hpos : 0 < y) (n e : ℤ) (he : -149 ≤ e)
    (hdist : -(2 ^ e / 2) ≤ (n : ℚ) * 2 ^ e - y / 100 ∧ (n : ℚ) * 2 ^ e - y / 100 ≤ 2 ^ e / 2)
    (hB : 1073741824 ≤ 100 * n) (hn24 : n ≤ 16777216) :
    roundQ (100 * ((n : ℚ) * 2 ^ e)) = y := by
  have hu : 0 < (2 : ℚ) ^ e := two_zpow_pos e
  have e6 := two_zpow_add_nat e 6
  have e7 := two_zpow_add_nat e 7
  push_cast at e6 e7
  have hBq : (1073741824 : ℚ) ≤ 100 * n := by exact_mod_cast hB
  have hn24q : (n : ℚ) ≤ 16777216 := by exact_mod_cast hn24
  have s1 := scale_le _ _ _ hBq hu
  have s2 := scale_le _ _ _ hn24q hu
  have htpos : 0 < 100 * ((n : ℚ) * 2 ^ e) := by linarith
  have hut : ulpExp (100 * ((n : ℚ) * 2 ^ e)) = e + 7 := by
    apply ulpExp_of_normal _ _ (by omega) htpos
    · rw [e7]
      linarith
    · rw [e7]
      linarith
  have hyt1 : 100 * ((n : ℚ) * 2 ^ e) - 50 * 2 ^ e ≤ y := by linarith
  have hyt2 : y ≤ 100 * ((n : ℚ) * 2 ^ e) + 50 * 2 ^ e := by linarith
  have hylo : 2 ^ e * 2 ^ 30 ≤ y := by
    by_contra hcon
    have hcon : y < 2 ^ e * 2 ^ 30 := not_le.mp hcon
    have huy : ulpExp y = e + 6 := by
      apply ulpExp_of_normal _ _ (by omega) hpos
      · rw [e6]
        linarith
      · rw [e6]
        linarith
    obtain ⟨m, hm⟩ := float_multiple y hy (e + 6) huy
    rw [e6] at hm
    have hm1 : (m : ℚ) < 16777216 := by
      by_contra hc
      have hc : (16777216 : ℚ) ≤ m := not_lt.mp hc
      have s3 := scale_le _ _ _ hc hu
      linarith
    have hm2 : m < 16777216 := by exact_mod_cast hm1
    have hm3 : m ≤ 16777215 := by omega
    have hm4 : (m : ℚ) ≤ 16777215 := by exact_mod_cast hm3
    have s4 := scale_le _ _ _ hm4 hu
    linarith
  have huy : ulpExp y = e + 7 := by
    apply ulpExp_of_normal _ _ (by omega) hpos
    · rw [e7]
      linarith
    · rw [e7]
      linarith
  obtain ⟨m, hm⟩ := float_multiple y hy (e + 7) huy
  have := roundQ_eq_of_near (100 * ((n : ℚ) * 2 ^ e)) m (by
    rw [hut, ← hm, e7, abs_lt]
    constructor <;> linarith)
  rw [this, hut, ← hm]

/-- Dividing a binary32 value by one hundred, multiplying the quotient by one hundred and
dividing again gives the first quotient (positive case, exponent unbounded above). -/
theorem roundtrip_pos (y : ℚ) (hy : roundQ y = y) (hpos : 0 < y) :
    roundQ (roundQ (100 * roundQ (y / 100)) / 100) = roundQ (y / 100) := by
  have hP : 0 < y / 100 := by positivity
  obtain ⟨n, hz, hn0, hn24, hdist, hlt, hcase⟩ := roundQ_shape (y / 100) hP
  obtain ⟨e, hedef⟩ : ∃ e, ulpExp (y / 100) = e := ⟨_, rfl⟩
  have he : -149 ≤ e := hedef ▸ ulpExp_ge _
  rw [hedef] at hz hdist hlt hcase
  rw [abs_le] at hdist
  rcases eq_or_lt_of_le hn0 with h0 | h0
  · rw [hz, ← h0]
    simp [roundQ_zero]
  by_cases hA : 100 * n < 1073741824
  · by_cases h23 : n = 8388608
    · rw [hz, h23]
      exact roundtrip_exact e he
    · rw [hz]
      apply roundtrip_inside n e he (by omega) hA
      rcases hcase with ⟨hn23, _⟩ | ⟨he149, hn23, _⟩
      · left
        omega
      · right
        exact ⟨he149, by omega⟩
  · have hw := roundtrip_back y hy hpos n e he hdist (not_lt.mp hA) hn24
    rw [hz, hw]
    exact hz


theorem rne_neg (r : ℚ) : rne (-r) = -rne r := by
  have h1 := Int.floor_le r
  have h2 := Int.lt_floor_add_one r
  rcases lt_trichotomy (r - ⌊r⌋) (1 / 2) with hlt | heq | hgt
  · have hm : rne r = ⌊r⌋ := by
      unfold rne
      simp only
      rw [if_pos hlt]
    rw [hm]
    apply rne_eq_of_abs_lt
    rw [abs_lt]
    push_cast
    constructor <;> linarith
  · have hm : rne r = if ⌊r⌋ % 2 = 0 then ⌊r⌋ else ⌊r⌋ + 1 := by
      unfold rne
      simp only
      rw [if_neg (by linarith), if_neg (by linarith)]
    have hf : ⌊-r⌋ = -⌊r⌋ - 1 := by
      rw [Int.floor_eq_iff]
      push_cast
      constructor <;> linarith
    have hn : rne (-r) = if (-⌊r⌋ - 1) % 2 = 0 then -⌊r⌋ - 1 else -⌊r⌋ - 1 + 1 := by
      unfold rne
      simp only
      rw [hf, if_neg (by push_cast; linarith), if_neg (by push_cast; linarith)]
    rw [hm, hn]
    split_ifs <;> omega
  · have hm : rne r = ⌊r⌋ + 1 := by
      unfold rne
      simp only
      rw [if_neg (by linarith), if_pos hgt]
    rw [hm]
    apply rne_eq_of_abs_lt
    rw [abs_lt]
    push_cast
    constructor <;> linarith

theorem binExp_neg (q : ℚ) : binExp (-q) = binExp q := by
  unfold binExp
  simp only [Rat.neg_num, Rat.neg_den, Int.natAbs_neg, abs_neg]

theorem ulpExp_neg (q : ℚ) : ulpExp (-q) = ulpExp q := by
  unfold ulpExp
  rw [binExp_neg]

theorem roundQ_neg (q : ℚ) : roundQ (-q) = -roundQ q := by
  unfold roundQ
  rw [ulpExp_neg, neg_div, rne_neg]
  push_cast
  ring

theorem roundQ_idem_pos (x : ℚ) (hx : 0 < x) : roundQ (roundQ x) = roundQ x := by
  obtain ⟨n, hz, hn0, hn24, _, _, _⟩ := roundQ_shape x hx
  have hu : 0 < (2 : ℚ) ^ ulpExp x := two_zpow_pos _
  have e1 := two_zpow_add_nat (ulpExp x) 1
  push_cast at e1
  rcases eq_or_lt_of_le hn0 with h0 | h0
  · rw [hz, ← h0]
    simp [roundQ_zero]
  have hn1 : (1 : ℚ) ≤ n := by exact_mod_cast h0
  have s1 := scale_le _ _ _ hn1 hu
  have hzpos : 0 < (n : ℚ) * 2 ^ ulpExp x := by linarith
  rw [hz]
  by_cases h24 : n = 16777216
  · have hut : ulpExp ((n : ℚ) * 2 ^ ulpExp x) ≤ ulpExp x + 1 := by
      apply ulpExp_le_of_ne _ (ne_of_gt hzpos) _ (by have := ulpExp_ge x; omega)
      rw [abs_of_pos hzpos, e1, h24]
      push_cast
      linarith
    apply roundQ_of_grid _ 8388608 (ulpExp x + 1) hut
    rw [e1, h24]
    push_cast
    ring
  · have hlt : (n : ℚ) ≤ 16777215 := by
      have : n ≤ 16777215 := by omega
      exact_mod_cast this
    have s2 := scale_le _ _ _ hlt hu
    have hut : ulpExp ((n : ℚ) * 2 ^ ulpExp x) ≤ ulpExp x := by
      apply ulpExp_le_of_ne _ (ne_of_gt hzpos) _ (ulpExp_ge x)
      rw [abs_of_pos hzpos]
      linarith
    exact roundQ_of_grid _ n (ulpExp x) hut rfl

/-- Rounding a rounded value changes nothing. -/
theorem roundQ_idem (x : ℚ) : roundQ (roundQ x) = roundQ x := by
  rcases lt_trichotomy x 0 with h | h | h
  · have := roundQ_idem_pos (-x) (by linarith)
    rw [roundQ_neg, roundQ_neg] at this
    linarith
  · subst h
    simp [roundQ_zero]
  · exact roundQ_idem_pos x h

/-- Dividing a binary32 value by one hundred, multiplying the quotient by one hundred and
dividing again gives the first quotient (exponent unbounded above). -/
theorem roundtrip (y : ℚ) (hy : roundQ y = y) :
    roundQ (roundQ (100 * roundQ (y / 100)) / 100) = roundQ (y / 100) := by
  rcases lt_trichotomy y 0 with h | h | h
  · have hy2 : roundQ (-y) = -y := by rw [roundQ_neg, hy]
    have := roundtrip_pos (-y) hy2 (by linarith)
    rw [neg_div, roundQ_neg, mul_neg, roundQ_neg, neg_div, roundQ_neg] at this
    linarith
  · subst h
    simp [roundQ_zero]
  · exact roundtrip_pos y hy h

/-! ## Validation of the configuration -/

theorem update_canvas_width (ctx : design_overlay_data) (s : obs_data_t) :
    (design_overlay_update ctx s).canvas_width =
      if toUInt32 (obs_data_get_int s "canvas_width") < 100 then 1920
      else min (toUInt32 (obs_data_get_int s "canvas_width")) 7680 := by
  simp only [design_overlay_update]
  split_ifs <;> omega

theorem update_canvas_height (ctx : design_overlay_data) (s : obs_data_t) :
    (design_overlay_update ctx s).canvas_height =
      if toUInt32 (obs_data_get_int s "canvas_height") < 100 then 1080
      else min (toUInt32 (obs_data_get_int s "canvas_height")) 4320 := by
  simp only [design_overlay_update]
  split_ifs <;> omega

theorem update_material_grid_size (ctx : design_overlay_data) (s : obs_data_t) :
    (design_overlay_update ctx s).material_grid_size =
      spec_grid_size (toInt32 (obs_data_get_int s "material_grid_size")) := by
  simp only [design_overlay_update, spec_grid_size]
  split_ifs <;> omega

theorem update_bootstrap_columns (ctx : design_overlay_data) (s : obs_data_t) :
    (design_overlay_update ctx s).bootstrap_columns =
      if toInt32 (obs_data_get_int s "bootstrap_columns") < 1 then 12
      else min (toInt32 (obs_data_get_int s "bootstrap_columns")) 24 := by
  simp only [design_overlay_update]
  split_ifs <;> omega

theorem update_validated (ctx : design_overlay_data) (s : obs_data_t) :
    Validated (design_overlay_update ctx s) := by
  unfold Validated
  rw [update_canvas_width, update_canvas_height, update_material_grid_size,
    update_bootstrap_columns]
  unfold spec_grid_size
  refine ⟨?_, ?_, ?_, ?_⟩ <;> split_ifs <;> omega

/-- C1, as stated, fails: the width input `-1` is below `100`, yet the stored width is
`7680` and not the default `1920`, because the input is converted to `uint32_t` before
it is compared. -/
theorem canvas_rule_fails_on_negative_width :
    obs_data_get_int (setValue emptySettings "canvas_width" (Value.int (-1))) "canvas_width"
      = -1 ∧
    (design_overlay_update zeroState
      (setValue emptySettings "canvas_width" (Value.int (-1)))).canvas_width = 7680 ∧
    spec_canvas (-1) 1920 7680 = 1920 := by
  decide!

/-- C1, amended: the stored canvas width and height follow the rule of the specification
applied to the input converted to `uint32_t` (the input modulo `2^32`): the default
`1920` (`1080`) below `100`, else the minimum with `7680` (`4320`). -/
theorem update_canvas_rule_uint32 (ctx : design_overlay_data) (s : obs_data_t) :
    ((design_overlay_update ctx s).canvas_width : ℤ) =
      spec_canvas (toUInt32 (obs_data_get_int s "canvas_width")) 1920 7680 ∧
    ((design_overlay_update ctx s).canvas_height : ℤ) =
      spec_canvas (toUInt32 (obs_data_get_int s "canvas_height")) 1080 4320 := by
  rw [update_canvas_width, update_canvas_height]
  unfold spec_canvas
  constructor <;> split_ifs <;> omega

/-- C2, as stated, fails: the grid-size input `4294967301` exceeds `128`, yet the stored
size is `5` and not `128`, because the input is converted to `int` before it is
compared. -/
theorem grid_rule_fails_beyond_int :
    obs_data_get_int
      (setValue emptySettings "material_grid_size" (Value.int 4294967301))
      "material_grid_size" = 4294967301 ∧
    (design_overlay_update zeroState
      (setValue emptySettings "material_grid_size" (Value.int 4294967301))).material_grid_size
      = 5 ∧
    spec_grid_size 4294967301 = 128 := by
  decide!

/-- C2, amended: the stored material grid size lies in `[4,128]`, and it follows the rule
of the specification applied to the input converted to `int` (32-bit two's complement):
`8` below `4`, `128` above `128`, the value itself otherwise. -/
theorem update_grid_rule_int (ctx : design_overlay_data) (s : obs_data_t) :
    (design_overlay_update ctx s).material_grid_size =
      spec_grid_size (toInt32 (obs_data_get_int s "material_grid_size")) ∧
    4 ≤ (design_overlay_update ctx s).material_grid_size ∧
    (design_overlay_update ctx s).material_grid_size ≤ 128 := by
  rw [update_material_grid_size]
  unfold spec_grid_size
  refine ⟨rfl, ?_, ?_⟩ <;> split_ifs <;> omega

/-- C10: after `design_overlay_update` on any settings record the stored canvas width
lies in `[100, 7680]` and the stored canvas height in `[100, 4320]`. -/
theorem update_canvas_bounds (ctx : design_overlay_data) (s : obs_data_t) :
    (100 ≤ (design_overlay_update ctx s).canvas_width ∧
      (design_overlay_update ctx s).canvas_width ≤ 7680) ∧
    (100 ≤ (design_overlay_update ctx s).canvas_height ∧
      (design_overlay_update ctx s).canvas_height ≤ 4320) := by
  rw [update_canvas_width, update_canvas_height]
  constructor <;> split_ifs <;> omega

/-! ## The frame -/

/-- C5: with `enabled` cleared, `design_overlay_video_render` makes no draw call,
whatever the layer toggles, the other fields and the host are. -/
theorem render_disabled (host : Host) (ctx : design_overlay_data)
    (h : ctx.enabled = false) : (design_overlay_video_render host ctx).2 = [] := by
  simp [design_overlay_video_render, h]

theorem render_disabled_witness :
    disabledAllLayers.enabled = false ∧
    (design_overlay_video_render readyHost disabledAllLayers).2 = [] :=
  ⟨rfl, render_disabled readyHost disabledAllLayers rfl⟩

/-- C6: for an enabled configuration, on a host whose solid effect, colour parameter and
technique exist, the draw calls of `design_overlay_video_render` are the segments of
center guides, rule of thirds, material grid, alignment grid, safe zones, crosshair and
branding, concatenated in this order, a layer whose toggle is cleared contributing
nothing; with every toggle set all seven groups appear in that order. -/
theorem render_layer_order (host : Host) (ctx : design_overlay_data)
    (hen : ctx.enabled = true)
    (hhost : host.solid_effect = true ∧ host.color_param = true ∧ host.tech = true) :
    (design_overlay_video_render host ctx).2 = spec_frame ctx ∧
    (design_overlay_video_render host ctx).2 =
      (if ctx.show_center_guides then render_center_guides ctx true true else []) ++
      (if ctx.show_rule_of_thirds then render_rule_of_thirds ctx true true else []) ++
      (if ctx.show_material_grid then render_material_grid ctx true true else []) ++
      (if ctx.show_bootstrap_grid then render_bootstrap_grid ctx true true else []) ++
      (if ctx.show_safe_zones then render_safe_zones ctx true true else []) ++
      (if ctx.show_crosshair then render_crosshair ctx true true else []) ++
      (if ctx.show_branding then render_branding ctx true true else []) ∧
    (ctx.show_center_guides = true → ctx.show_rule_of_thirds = true →
      ctx.show_material_grid = true → ctx.show_bootstrap_grid = true →
      ctx.show_safe_zones = true → ctx.show_crosshair = true → ctx.show_branding = true →
      (design_overlay_video_render host ctx).2 =
        render_center_guides ctx true true ++ render_rule_of_thirds ctx true true ++
        render_material_grid ctx true true ++ render_bootstrap_grid ctx true true ++
        render_safe_zones ctx true true ++ render_crosshair ctx true true ++
        render_branding ctx true true) := by
  obtain ⟨h1, h2, h3⟩ := hhost
  have key : (design_overlay_video_render host ctx).2 =
      (if ctx.show_center_guides then render_center_guides ctx true true else []) ++
      (if ctx.show_rule_of_thirds then render_rule_of_thirds ctx true true else []) ++
      (if ctx.show_material_grid then render_material_grid ctx true true else []) ++
      (if ctx.show_bootstrap_grid then render_bootstrap_grid ctx true true else []) ++
      (if ctx.show_safe_zones then render_safe_zones ctx true true else []) ++
      (if ctx.show_crosshair then render_crosshair ctx true true else []) ++
      (if ctx.show_branding then render_branding ctx true true else []) := by
    simp [design_overlay_video_render, hen, h1, h2, h3]
  refine ⟨?_, key, ?_⟩
  · rw [key]
    simp [spec_frame, spec_layers]
  · intro a b c d e f g
    rw [key]
    simp [a, b, c, d, e, f, g]

theorem render_layer_order_witness :
    enabledAllLayers.enabled = true ∧
    (readyHost.solid_effect = true ∧ readyHost.color_param = true ∧ readyHost.tech = true) ∧
    (design_overlay_video_render readyHost enabledAllLayers).2 = spec_frame enabledAllLayers ∧
    (design_overlay_video_render readyHost enabledAllLayers).2 =
      render_center_guides enabledAllLayers true true ++
      render_rule_of_thirds enabledAllLayers true true ++
      render_material_grid enabledAllLayers true true ++
      render_bootstrap_grid enabledAllLayers true true ++
      render_safe_zones enabledAllLayers true true ++
      render_crosshair enabledAllLayers true true ++
      render_branding enabledAllLayers true true :=
  ⟨rfl, ⟨rfl, rfl, rfl⟩,
    (render_layer_order readyHost enabledAllLayers rfl ⟨rfl, rfl, rfl⟩).1,
    (render_layer_order readyHost enabledAllLayers rfl ⟨rfl, rfl, rfl⟩).2.2
      rfl rfl rfl rfl rfl rfl rfl⟩

/-! ## Safe zones -/

theorem f32_tenth : f32 (1 / 10) = F32.fin (13421773 / 134217728) := by decide!

theorem f32_ninety_nine : f32 (99 / 100) = F32.fin (4152361 / 4194304) := by decide!

/-- Clamping with `fmaxf(lo, fminf(hi, x))` yields a finite value between the bounds,
whatever `x` is (a NaN yields `hi`). -/
theorem clamp_finite (lo hi : ℚ) (h : lo ≤ hi) (x : F32) :
    ∃ q, F32.fmaxf (F32.fin lo) (F32.fminf (F32.fin hi) x) = F32.fin q ∧ lo ≤ q ∧ q ≤ hi := by
  cases x with
  | nan =>
    refine ⟨hi, ?_, h, le_rfl⟩
    simp only [F32.fminf, F32.fmaxf, F32.lt]
    rcases h.lt_or_eq with h1 | h1
    · simp [h1]
    · simp [h1]
  | pinf =>
    refine ⟨hi, ?_, h, le_rfl⟩
    simp only [F32.fminf, F32.fmaxf, F32.lt]
    rcases h.lt_or_eq with h1 | h1
    · simp [h1]
    · simp [h1]
  | ninf =>
    refine ⟨lo, ?_, le_rfl, h⟩
    simp [F32.fminf, F32.fmaxf, F32.lt]
  | fin v =>
    by_cases h1 : v < hi
    · by_cases h2 : lo < v
      · refine ⟨v, ?_, h2.le, h1.le⟩
        simp [F32.fminf, F32.fmaxf, F32.lt, h1, h2]
      · refine ⟨lo, ?_, le_rfl, h⟩
        simp [F32.fminf, F32.fmaxf, F32.lt, h1, h2]
    · refine ⟨hi, ?_, h, le_rfl⟩
      simp only [F32.fminf, F32.fmaxf, F32.lt]
      rcases h.lt_or_eq with h3 | h3
      · simp [h1, h3]
      · simp [h1, h3]

/-- The clamped percent is finite and lies between `0.1f` and `0.99f`. -/
theorem safe_zone_percent_fin (ctx : design_overlay_data) :
    ∃ q : ℚ, safe_zone_percent ctx = F32.fin q ∧
      13421773 / 134217728 ≤ q ∧ q ≤ 4152361 / 4194304 := by
  obtain ⟨q, hq, h1, h2⟩ := clamp_finite (13421773 / 134217728) (4152361 / 4194304)
    (by norm_num) (safe_zone_select ctx).1
  refine ⟨q, ?_, h1, h2⟩
  unfold safe_zone_percent
  rw [f32_tenth, f32_ninety_nine]
  exact hq

/-- C4: for every safe-zone type (also outside `0..3`) and every custom percent (also
NaN or infinite) the clamped percent of `render_safe_zones` is a finite value between the
binary32 constants `0.1f` and `0.99f` of the source; `0.1f` is not below `1/10` and
`0.99f` exceeds `99/100` by less than `10⁻⁸`. -/
theorem safe_zone_percent_bounds (ctx : design_overlay_data) :
    ∃ q : ℚ, safe_zone_percent ctx = F32.fin q ∧
      f32 (1 / 10) = F32.fin (13421773 / 134217728) ∧
      f32 (99 / 100) = F32.fin (4152361 / 4194304) ∧
      13421773 / 134217728 ≤ q ∧ q ≤ 4152361 / 4194304 ∧
      1 / 10 ≤ q ∧ q ≤ 99 / 100 + 1 / 100000000 := by
  obtain ⟨q, hq, h1, h2⟩ := safe_zone_percent_fin ctx
  exact ⟨q, hq, f32_tenth, f32_ninety_nine, h1, h2, le_trans (by norm_num) h1,
    le_trans h2 (by norm_num)⟩

/-! ## Material grid -/

theorem f32_zero : f32 0 = F32.fin 0 := by
  simpa using f32_intCast 0 (by norm_num)

theorem toInt32_natCast (n : ℕ) (h : n ≤ 7680) : toInt32 (n : ℤ) = n := by
  unfold toInt32
  omega

theorem draw_simple_line_ready (x1 y1 x2 y2 : F32) (color : ℕ) (opacity : F32) :
    draw_simple_line x1 y1 x2 y2 color opacity true true
      = [⟨x1, y1, x2, y2, color, opacity⟩] := by
  simp [draw_simple_line]

/-- The loop entered at `x = k * g` with `m` iterations left. -/
theorem grid_steps_eq (limit g : ℕ) (hg : 0 < g) :
    ∀ (m k : ℕ), k + m = limit / g + 1 →
      grid_steps (limit : ℤ) (g : ℤ) ((k * g : ℕ) : ℤ) =
        (List.range m).map (fun j => (((k + j) * g : ℕ) : ℤ)) := by
  intro m
  induction m with
  | zero =>
    intro k hk
    have h1 : limit < k * g := by
      rw [← Nat.div_lt_iff_lt_mul hg]
      omega
    rw [grid_steps, if_neg]
    · simp
    · intro h
      have := h.1
      omega
  | succ m ih =>
    intro k hk
    have h1 : k * g ≤ limit := by
      rw [← Nat.le_div_iff_mul_le hg]
      omega
    rw [grid_steps, if_pos ⟨by exact_mod_cast h1, by exact_mod_cast hg⟩]
    have h2 : ((k * g : ℕ) : ℤ) + (g : ℤ) = (((k + 1) * g : ℕ) : ℤ) := by
      push_cast
      ring
    rw [h2, ih (k + 1) (by omega)]
    rw [List.range_succ_eq_map, List.map_cons, List.map_map]
    congr 1
    apply List.map_congr_left
    intro j _
    simp only [Function.comp, Nat.succ_eq_add_one]
    rw [show k + 1 + j = k + (j + 1) by omega]

theorem vertical_lines_eq (ctx : design_overlay_data) (hH : ctx.canvas_height ≤ 4320)
    (l : List ℕ) (hl : ∀ n ∈ l, n ≤ 7680) :
    (l.map (fun n : ℕ => (n : ℤ))).flatMap (fun x =>
      draw_simple_line (F32.ofInt x) (f32 0) (F32.ofInt x) (F32.ofNat ctx.canvas_height)
        ctx.grid_color ctx.grid_opacity true true) = l.map (spec_vertical_line ctx) := by
  induction l with
  | nil => rfl
  | cons n l ih =>
    have hn : n ≤ 7680 := hl n (List.mem_cons_self _ _)
    rw [List.map_cons, List.flatMap_cons, ih (fun m hm => hl m (List.mem_cons_of_mem _ hm)),
      draw_simple_line_ready, f32_zero, ofNat_eq _ (by norm_num; omega),
      ofInt_eq _ (by rw [abs_of_nonneg (by positivity)]; norm_num; omega)]
    simp [spec_vertical_line]

theorem horizontal_lines_eq (ctx : design_overlay_data) (hW : ctx.canvas_width ≤ 7680)
    (l : List ℕ) (hl : ∀ n ∈ l, n ≤ 7680) :
    (l.map (fun n : ℕ => (n : ℤ))).flatMap (fun y =>
      draw_simple_line (f32 0) (F32.ofInt y) (F32.ofNat ctx.canvas_width) (F32.ofInt y)
        ctx.grid_color ctx.grid_opacity true true) = l.map (spec_horizontal_line ctx) := by
  induction l with
  | nil => rfl
  | cons n l ih =>
    have hn : n ≤ 7680 := hl n (List.mem_cons_self _ _)
    rw [List.map_cons, List.flatMap_cons, ih (fun m hm => hl m (List.mem_cons_of_mem _ hm)),
      draw_simple_line_ready, f32_zero, ofNat_eq _ (by norm_num; omega),
      ofInt_eq _ (by rw [abs_of_nonneg (by positivity)]; norm_num; omega)]
    simp [spec_horizontal_line]

/-- The loop variable of a grid loop over `0 .. limit` runs through the multiples of the
step up to the limit. -/
theorem grid_steps_zero (limit g : ℕ) (hg : 0 < g) :
    grid_steps (limit : ℤ) (g : ℤ) 0 =
      ((List.range (limit / g + 1)).map (fun k => k * g)).map (fun n : ℕ => (n : ℤ)) := by
  have h := grid_steps_eq limit g hg (limit / g + 1) 0 (by omega)
  simp only [Nat.zero_mul, Nat.zero_add, Nat.cast_zero] at h
  rw [h, List.map_map]
  rfl

theorem grid_steps_bound (limit g : ℕ) (hg : 0 < g) (hl : limit ≤ 7680) :
    ∀ n ∈ (List.range (limit / g + 1)).map (fun k => k * g), n ≤ 7680 := by
  intro n hn
  obtain ⟨k, hk, rfl⟩ := List.mem_map.mp hn
  have h1 : k ≤ limit / g := by
    have := List.mem_range.mp hk
    omega
  have h2 : k * g ≤ limit := (Nat.le_div_iff_mul_le hg).mp h1
  omega

/-- On a validated configuration the material grid layer is the list of the
specification. -/
theorem render_material_grid_eq (ctx : design_overlay_data) (hv : Validated ctx) :
    render_material_grid ctx true true = spec_grid_vertical ctx ++ spec_grid_horizontal ctx := by
  obtain ⟨⟨_, hW⟩, ⟨_, hH⟩, ⟨hs1, _⟩, _⟩ := hv
  obtain ⟨g, hcast⟩ : ∃ g : ℕ, ctx.material_grid_size = (g : ℤ) :=
    ⟨ctx.material_grid_size.toNat, by omega⟩
  have hg : 0 < g := by omega
  unfold render_material_grid spec_grid_vertical spec_grid_horizontal
  simp only
  rw [if_neg (by omega), toInt32_natCast _ hW, toInt32_natCast _ (by omega), hcast,
    grid_steps_zero _ _ hg, grid_steps_zero _ _ hg,
    vertical_lines_eq ctx hH _ (grid_steps_bound _ _ hg hW),
    horizontal_lines_eq ctx hW _ (grid_steps_bound _ _ hg (by omega)),
    List.map_map, List.map_map, Int.toNat_ofNat]
  rfl

/-- C7: on a validated configuration with canvas `W x H` and material grid size `s` in
which only the material grid is enabled (host resources present), the frame consists of
`floor(W/s)+1` vertical lines, the `k`-th from `(k*s, 0)` to `(k*s, H)`, followed by
`floor(H/s)+1` horizontal lines, the `k`-th from `(0, k*s)` to `(W, k*s)`, each in the
configured grid colour and grid opacity. -/
theorem material_grid_frame (host : Host) (ctx : design_overlay_data)
    (hv : Validated ctx)
    (hhost : host.solid_effect = true ∧ host.color_param = true ∧ host.tech = true)
    (hen : ctx.enabled = true) (hmg : ctx.show_material_grid = true)
    (hoff : ctx.show_center_guides = false ∧ ctx.show_rule_of_thirds = false ∧
      ctx.show_bootstrap_grid = false ∧ ctx.show_safe_zones = false ∧
      ctx.show_crosshair = false ∧ ctx.show_branding = false) :
    (design_overlay_video_render host ctx).2 =
      (List.range (ctx.canvas_width / ctx.material_grid_size.toNat + 1)).map
        (fun k => (⟨F32.fin ((k * ctx.material_grid_size.toNat : ℕ) : ℚ), F32.fin 0,
          F32.fin ((k * ctx.material_grid_size.toNat : ℕ) : ℚ), F32.fin ctx.canvas_height,
          ctx.grid_color, ctx.grid_opacity⟩ : DrawCmd)) ++
      (List.range (ctx.canvas_height / ctx.material_grid_size.toNat + 1)).map
        (fun k => (⟨F32.fin 0, F32.fin ((k * ctx.material_grid_size.toNat : ℕ) : ℚ),
          F32.fin ctx.canvas_width, F32.fin ((k * ctx.material_grid_size.toNat : ℕ) : ℚ),
          ctx.grid_color, ctx.grid_opacity⟩ : DrawCmd)) ∧
    (design_overlay_video_render host ctx).2 = spec_grid_vertical ctx ++ spec_grid_horizontal ctx ∧
    (spec_grid_vertical ctx).length = ctx.canvas_width / ctx.material_grid_size.toNat + 1 ∧
    (spec_grid_horizontal ctx).length
      = ctx.canvas_height / ctx.material_grid_size.toNat + 1 := by
  obtain ⟨h1, h2, h3⟩ := hhost
  obtain ⟨o1, o2, o3, o4, o5, o6⟩ := hoff
  have key : (design_overlay_video_render host ctx).2
      = spec_grid_vertical ctx ++ spec_grid_horizontal ctx := by
    rw [← render_material_grid_eq ctx hv]
    simp [design_overlay_video_render, hen, h1, h2, h3, hmg, o1, o2, o3, o4, o5, o6]
  refine ⟨?_, key, ?_, ?_⟩
  · rw [key]
    rfl
  · simp [spec_grid_vertical]
  · simp [spec_grid_horizontal]

theorem material_grid_frame_witness :
    Validated materialOnly ∧
    materialOnly.canvas_width = 1920 ∧ materialOnly.canvas_height = 1080 ∧
    materialOnly.material_grid_size = 8 ∧
    (design_overlay_video_render readyHost materialOnly).2
      = spec_grid_vertical materialOnly ++ spec_grid_horizontal materialOnly ∧
    (spec_grid_vertical materialOnly).length = 241 ∧
    (spec_grid_horizontal materialOnly).length = 136 := by
  have hv : Validated materialOnly := by
    unfold Validated materialOnly zeroState
    simp
  have h := material_grid_frame readyHost materialOnly hv ⟨rfl, rfl, rfl⟩ rfl rfl
    ⟨rfl, rfl, rfl, rfl, rfl, rfl⟩
  exact ⟨hv, rfl, rfl, rfl, h.2.1, h.2.2.1, h.2.2.2⟩

/-! ## Integer pixel arithmetic in binary32 -/

theorem add_fin (a b : ℚ) : F32.fin a + F32.fin b = F32.round (a + b) := rfl

theorem sub_fin (a b : ℚ) : F32.fin a - F32.fin b = F32.round (a + -b) := rfl

theorem mul_fin (a b : ℚ) : F32.fin a * F32.fin b = F32.round (a * b) := rfl

theorem div_fin (a b : ℚ) (hb : b ≠ 0) : F32.fin a / F32.fin b = F32.round (a / b) := by
  show F32.div (F32.fin a) (F32.fin b) = _
  simp [F32.div, hb]

theorem round_pix (n : ℤ) (h1 : -16777216 < n) (h2 : n < 16777216) :
    F32.round (n : ℚ) = pix n :=
  round_intCast n (by rw [abs_lt]; constructor <;> norm_num <;> omega)

theorem ofNat_pix (n : ℕ) (h : n < 16777216) : F32.ofNat n = pix n := by
  have := round_pix (n : ℤ) (by omega) (by omega)
  simpa [F32.ofNat] using this

theorem f32_pix (n : ℤ) (h1 : -16777216 < n) (h2 : n < 16777216) : f32 (n : ℚ) = pix n :=
  round_pix n h1 h2

theorem pix_add (a b : ℤ) (h1 : -16777216 < a + b) (h2 : a + b < 16777216) :
    pix a + pix b = pix (a + b) := by
  unfold pix
  rw [add_fin, ← Int.cast_add]
  exact round_pix _ h1 h2

theorem pix_sub (a b : ℤ) (h1 : -16777216 < a - b) (h2 : a - b < 16777216) :
    pix a - pix b = pix (a - b) := by
  unfold pix
  rw [sub_fin, ← Int.cast_neg, ← Int.cast_add, ← sub_eq_add_neg]
  exact round_pix _ h1 h2

theorem pix_mul (a b : ℤ) (h1 : -16777216 < a * b) (h2 : a * b < 16777216) :
    pix a * pix b = pix (a * b) := by
  unfold pix
  rw [mul_fin, ← Int.cast_mul]
  exact round_pix _ h1 h2

/-- A rounded value within three quarters above an integer has that integer as floor. -/
theorem floorf_round (q : ℚ) (n : ℤ) (h0 : 0 ≤ n) (hb : n < 2097152)
    (h1 : (n : ℚ) ≤ q) (h2 : q ≤ (n : ℚ) + 3 / 4) :
    F32.floorf (F32.round q) = pix n := by
  have hnq : (n : ℚ) < 2097152 := by exact_mod_cast hb
  have hn0 : (0 : ℚ) ≤ n := by exact_mod_cast h0
  have habs : |q| < (2 : ℚ) ^ ((-2 : ℤ) + 24) := by
    rw [abs_of_nonneg (by linarith)]
    norm_num
    linarith
  have hu : ulpExp q ≤ -2 := ulpExp_le q (-2) (by norm_num) habs
  have hl : (n : ℚ) ≤ roundQ q := by
    have := le_roundQ q (4 * n) (-2) hu (by
      rw [show (2 : ℚ) ^ (-2 : ℤ) = 1 / 4 by norm_num]
      push_cast
      linarith)
    rw [show (2 : ℚ) ^ (-2 : ℤ) = 1 / 4 by norm_num] at this
    push_cast at this
    linarith
  have hr : roundQ q ≤ (n : ℚ) + 3 / 4 := by
    have := roundQ_le q (4 * n + 3) (-2) hu (by
      rw [show (2 : ℚ) ^ (-2 : ℤ) = 1 / 4 by norm_num]
      push_cast
      linarith)
    rw [show (2 : ℚ) ^ (-2 : ℤ) = 1 / 4 by norm_num] at this
    push_cast at this
    linarith
  rw [round_eq_fin q (by norm_num; linarith) (by norm_num; linarith)]
  unfold F32.floorf pix
  simp only
  congr 2
  rw [Int.floor_eq_iff]
  constructor
  · exact hl
  · linarith

/-- The floor of a binary32 quotient of a pixel count by `2` or `3` is the integer
quotient. -/
theorem floorf_div_pix (a d : ℤ) (h0 : 0 ≤ a) (hb : a < 2097152) (hd : d = 2 ∨ d = 3) :
    F32.floorf (pix a / pix d) = pix (a / d) := by
  have hdpos : 0 < d := by omega
  have hdq : (0 : ℚ) < d := by exact_mod_cast hdpos
  unfold pix
  rw [div_fin _ _ (ne_of_gt hdq)]
  have hmod := Int.emod_add_ediv a d
  have hr0 := Int.emod_nonneg a (ne_of_gt hdpos)
  have hr1 := Int.emod_lt_of_pos a hdpos
  have hq0 : 0 ≤ a / d := Int.ediv_nonneg h0 hdpos.le
  have hq1 : a / d ≤ a := Int.ediv_le_self d h0
  have hmodq : (a : ℚ) = (a % d : ℤ) + d * (a / d : ℤ) := by exact_mod_cast hmod.symm
  have hr0q : (0 : ℚ) ≤ (a % d : ℤ) := by exact_mod_cast hr0
  apply floorf_round _ _ hq0 (by omega)
  · rw [le_div_iff₀ hdq, hmodq]
    nlinarith
  · rw [div_le_iff₀ hdq, hmodq]
    rcases hd with rfl | rfl
    · have : (a % 2 : ℤ) ≤ 1 := by omega
      have : ((a % 2 : ℤ) : ℚ) ≤ 1 := by exact_mod_cast this
      push_cast at *
      linarith
    · have : (a % 3 : ℤ) ≤ 2 := by omega
      have : ((a % 3 : ℤ) : ℚ) ≤ 2 := by exact_mod_cast this
      push_cast at *
      linarith

theorem f32_two : f32 2 = pix 2 := by
  simpa using f32_pix 2 (by norm_num) (by norm_num)

theorem f32_three : f32 3 = pix 3 := by
  simpa using f32_pix 3 (by norm_num) (by norm_num)

theorem f32_four : f32 4 = pix 4 := by
  simpa using f32_pix 4 (by norm_num) (by norm_num)

theorem f32_twenty : f32 20 = pix 20 := by
  simpa using f32_pix 20 (by norm_num) (by norm_num)

theorem f32_zero_pix : f32 0 = pix 0 := by
  simpa using f32_pix 0 (by norm_num) (by norm_num)

/-! ## Rule of thirds -/

/-- On a validated configuration the rule-of-thirds layer is the list of the
specification. -/
theorem rule_of_thirds_spec (ctx : design_overlay_data) (hv : Validated ctx) :
    render_rule_of_thirds ctx true true = spec_thirds ctx := by
  obtain ⟨⟨hW1, hW2⟩, ⟨hH1, hH2⟩, _, _⟩ := hv
  have hW : F32.ofNat ctx.canvas_width = pix (ctx.canvas_width : ℤ) := ofNat_pix _ (by omega)
  have hH : F32.ofNat ctx.canvas_height = pix (ctx.canvas_height : ℤ) := ofNat_pix _ (by omega)
  have hx1 := floorf_div_pix (ctx.canvas_width : ℤ) 3 (by omega) (by omega) (Or.inr rfl)
  have hy1 := floorf_div_pix (ctx.canvas_height : ℤ) 3 (by omega) (by omega) (Or.inr rfl)
  have hWd := pix_mul (ctx.canvas_width : ℤ) 2 (by omega) (by omega)
  have hHd := pix_mul (ctx.canvas_height : ℤ) 2 (by omega) (by omega)
  have hx2 := floorf_div_pix ((ctx.canvas_width : ℤ) * 2) 3 (by omega) (by omega) (Or.inr rfl)
  have hy2 := floorf_div_pix ((ctx.canvas_height : ℤ) * 2) 3 (by omega) (by omega) (Or.inr rfl)
  unfold render_rule_of_thirds spec_thirds
  simp only [draw_simple_line_ready, f32_zero_pix, f32_two, f32_three, f32_four, hW, hH,
    hx1, hy1, hWd, hHd, hx2, hy2]
  simp only [List.flatMap_cons, List.flatMap_nil, List.append_nil, List.singleton_append,
    List.cons_append, List.nil_append, if_true, one_ne_zero, if_false]
  simp (disch := omega) only [pix_add, pix_sub]
  simp only [seg, mul_comm]

/-- C9: on a validated configuration with canvas `W x H`, `render_rule_of_thirds` makes
exactly 12 draw calls in fixed yellow at tools opacity times `0.6f`: full-height lines at
`x = floor(W/3)` and `x = floor(2W/3)`, full-width lines at `y = floor(H/3)` and
`y = floor(2H/3)`, and a cross of half-length 4 at each of the four intersections. -/
theorem render_rule_of_thirds_eq (ctx : design_overlay_data) (hv : Validated ctx) :
    render_rule_of_thirds ctx true true = spec_thirds ctx ∧
    (render_rule_of_thirds ctx true true).length = 12 ∧
    ∀ c ∈ render_rule_of_thirds ctx true true,
      c.color = COLOR_CROSSHAIR_YELLOW ∧ c.opacity = ctx.crosshair_opacity * f32 (6 / 10) := by
  have key := rule_of_thirds_spec ctx hv
  refine ⟨key, ?_, ?_⟩
  · rw [key]
    rfl
  · rw [key]
    intro c hc
    simp only [spec_thirds, List.mem_cons, List.mem_singleton, List.not_mem_nil, or_false] at hc
    rcases hc with h | h | h | h | h | h | h | h | h | h | h | h <;> subst h <;> exact ⟨rfl, rfl⟩

theorem validated_thirdsOnly : Validated thirdsOnly := by
  unfold Validated thirdsOnly zeroState
  simp

theorem render_rule_of_thirds_witness :
    Validated thirdsOnly ∧
    thirdsOnly.canvas_width = 900 ∧ thirdsOnly.canvas_height = 600 ∧
    render_rule_of_thirds thirdsOnly true true =
      [ seg 300 0 300 600 COLOR_CROSSHAIR_YELLOW (thirdsOnly.crosshair_opacity * f32 (6 / 10)),
        seg 600 0 600 600 COLOR_CROSSHAIR_YELLOW (thirdsOnly.crosshair_opacity * f32 (6 / 10)),
        seg 0 200 900 200 COLOR_CROSSHAIR_YELLOW (thirdsOnly.crosshair_opacity * f32 (6 / 10)),
        seg 0 400 900 400 COLOR_CROSSHAIR_YELLOW (thirdsOnly.crosshair_opacity * f32 (6 / 10)),
        seg 296 200 304 200 COLOR_CROSSHAIR_YELLOW (thirdsOnly.crosshair_opacity * f32 (6 / 10)),
        seg 300 196 300 204 COLOR_CROSSHAIR_YELLOW (thirdsOnly.crosshair_opacity * f32 (6 / 10)),
        seg 296 400 304 400 COLOR_CROSSHAIR_YELLOW (thirdsOnly.crosshair_opacity * f32 (6 / 10)),
        seg 300 396 300 404 COLOR_CROSSHAIR_YELLOW (thirdsOnly.crosshair_opacity * f32 (6 / 10)),
        seg 596 200 604 200 COLOR_CROSSHAIR_YELLOW (thirdsOnly.crosshair_opacity * f32 (6 / 10)),
        seg 600 196 600 204 COLOR_CROSSHAIR_YELLOW (thirdsOnly.crosshair_opacity * f32 (6 / 10)),
        seg 596 400 604 400 COLOR_CROSSHAIR_YELLOW (thirdsOnly.crosshair_opacity * f32 (6 / 10)),
        seg 600 396 600 404 COLOR_CROSSHAIR_YELLOW
          (thirdsOnly.crosshair_opacity * f32 (6 / 10)) ] :=
  ⟨validated_thirdsOnly, rfl, rfl,
    (render_rule_of_thirds_eq thirdsOnly validated_thirdsOnly).1.trans (by decide!)⟩

/-! ## Safe-zone rectangle -/

theorem floorf_half_pix (a : ℤ) (h0 : 0 ≤ a) (hb : a < 2097152) :
    F32.floorf (pix a / pix 2) = pix (a / 2) :=
  floorf_div_pix a 2 h0 hb (Or.inl rfl)

/-- The floor of `(float)n * percent` is an integer between `0` and `n`. -/
theorem safe_extent_spec (ctx : design_overlay_data) (n : ℕ) (hn : n ≤ 7680) :
    F32.floorf (pix n * safe_zone_percent ctx) = pix (safe_extent ctx n) ∧
    0 ≤ safe_extent ctx n ∧ safe_extent ctx n ≤ n := by
  obtain ⟨q, hq, h1, h2⟩ := safe_zone_percent_fin ctx
  have hq0 : 0 ≤ q := le_trans (by norm_num) h1
  have hq1 : q ≤ 1 := le_trans h2 (by norm_num)
  have hnq : (n : ℚ) ≤ 7680 := by exact_mod_cast hn
  have hn0 : (0 : ℚ) ≤ n := by positivity
  have hp0 : 0 ≤ (n : ℚ) * q := mul_nonneg hn0 hq0
  have hp1 : (n : ℚ) * q ≤ n := by nlinarith
  have habs : |(n : ℚ) * q| < (2 : ℚ) ^ ((0 : ℤ) + 24) := by
    rw [abs_of_nonneg hp0]
    norm_num
    linarith
  have hu : ulpExp ((n : ℚ) * q) ≤ 0 := ulpExp_le _ 0 (by norm_num) habs
  have hl : 0 ≤ roundQ ((n : ℚ) * q) := by
    have := le_roundQ ((n : ℚ) * q) 0 0 hu (by simpa using hp0)
    simpa using this
  have hr : roundQ ((n : ℚ) * q) ≤ n := by
    have := roundQ_le ((n : ℚ) * q) n 0 hu (by simpa using hp1)
    simpa using this
  have hround : F32.round ((n : ℚ) * q) = F32.fin (roundQ ((n : ℚ) * q)) :=
    round_eq_fin _ (by norm_num; linarith) (by norm_num; linarith)
  have hofnat : F32.ofNat n = pix n := ofNat_pix n (by omega)
  have hval : F32.floorf (pix n * safe_zone_percent ctx)
      = F32.fin ((⌊roundQ ((n : ℚ) * q)⌋ : ℤ) : ℚ) := by
    rw [hq]
    unfold pix
    rw [Int.cast_natCast, mul_fin, hround]
    rfl
  have hext : safe_extent ctx n = ⌊roundQ ((n : ℚ) * q)⌋ := by
    unfold safe_extent
    rw [hofnat, hval]
    simp
  refine ⟨?_, ?_, ?_⟩
  · rw [hval, hext]
    rfl
  · rw [hext]
    exact Int.floor_nonneg.mpr hl
  · rw [hext]
    have : ⌊roundQ ((n : ℚ) * q)⌋ ≤ ⌊(n : ℚ)⌋ := Int.floor_le_floor hr
    simpa using this

/-- On a validated configuration the safe-zone layer is the list `safe_zone_segments`. -/
theorem safe_zones_spec (ctx : design_overlay_data) (hv : Validated ctx) :
    render_safe_zones ctx true true = safe_zone_segments ctx := by
  obtain ⟨⟨hW1, hW2⟩, ⟨hH1, hH2⟩, _, _⟩ := hv
  have hW : F32.ofNat ctx.canvas_width = pix (ctx.canvas_width : ℤ) := ofNat_pix _ (by omega)
  have hH : F32.ofNat ctx.canvas_height = pix (ctx.canvas_height : ℤ) := ofNat_pix _ (by omega)
  obtain ⟨hsw, hsw0, hsw1⟩ := safe_extent_spec ctx ctx.canvas_width hW2
  obtain ⟨hsh, hsh0, hsh1⟩ := safe_extent_spec ctx ctx.canvas_height (by omega)
  unfold render_safe_zones safe_zone_segments
  simp only [draw_simple_line_ready, f32_two, f32_twenty, hW, hH, hsw, hsh]
  simp (disch := omega) only [pix_add, pix_sub, floorf_half_pix]
  simp only [seg, List.singleton_append, List.cons_append, List.nil_append]

theorem validated_mobileSafeZone : Validated mobileSafeZone := by
  unfold Validated mobileSafeZone zeroState
  simp

/-- The effective percent is the value of the clamped `percent`. -/
theorem effective_percent_eq (ctx : design_overlay_data) :
    safe_zone_percent ctx = F32.fin (effective_percent ctx) := by
  obtain ⟨q, hq, _, _⟩ := safe_zone_percent_fin ctx
  unfold effective_percent
  rw [hq]

/-- The extent the code computes is the floor of the rounded product; it is the exact
floor or one more, and lies between `0` and `n`. -/
theorem safe_extent_rounded (ctx : design_overlay_data) (n : ℕ) (hn : n ≤ 7680) :
    safe_extent ctx n = rounded_extent (effective_percent ctx) n ∧
    spec_extent (effective_percent ctx) n ≤ rounded_extent (effective_percent ctx) n ∧
    rounded_extent (effective_percent ctx) n ≤ spec_extent (effective_percent ctx) n + 1 ∧
    0 ≤ rounded_extent (effective_percent ctx) n ∧
    rounded_extent (effective_percent ctx) n ≤ n := by
  obtain ⟨q, hq, h1, h2⟩ := safe_zone_percent_fin ctx
  have hp : effective_percent ctx = q := by
    unfold effective_percent
    rw [hq]
  obtain ⟨hsw, hsw0, hsw1⟩ := safe_extent_spec ctx n hn
  have hq0 : 0 ≤ q := le_trans (by norm_num) h1
  have hq1 : q ≤ 1 := le_trans h2 (by norm_num)
  have hnq : (n : ℚ) ≤ 7680 := by exact_mod_cast hn
  have hn0 : (0 : ℚ) ≤ n := by positivity
  have hp0 : 0 ≤ (n : ℚ) * q := mul_nonneg hn0 hq0
  have hp1 : (n : ℚ) * q ≤ n := by
    have := mul_le_mul_of_nonneg_left hq1 hn0
    linarith
  have habs : |(n : ℚ) * q| < (2 : ℚ) ^ ((0 : ℤ) + 24) := by
    rw [abs_of_nonneg hp0]
    norm_num
    linarith
  have hu : ulpExp ((n : ℚ) * q) ≤ 0 := ulpExp_le _ 0 (by norm_num) habs
  have hround : F32.round ((n : ℚ) * q) = F32.fin (roundQ ((n : ℚ) * q)) := by
    have hl : 0 ≤ roundQ ((n : ℚ) * q) := by
      have := le_roundQ ((n : ℚ) * q) 0 0 hu (by simpa using hp0)
      simpa using this
    have hr : roundQ ((n : ℚ) * q) ≤ n := by
      have := roundQ_le ((n : ℚ) * q) n 0 hu (by simpa using hp1)
      simpa using this
    exact round_eq_fin _ (by norm_num; linarith) (by norm_num; linarith)
  have hext : safe_extent ctx n = ⌊roundQ ((n : ℚ) * q)⌋ := by
    unfold safe_extent
    rw [ofNat_pix n (by omega), hq]
    unfold pix
    rw [Int.cast_natCast, mul_fin, hround]
    simp [F32.floorf]
  have hfl1 : ((⌊q * (n : ℚ)⌋ : ℤ) : ℚ) ≤ (n : ℚ) * q := by
    rw [mul_comm (n : ℚ) q]
    exact Int.floor_le _
  have hfl2 : (n : ℚ) * q ≤ ((⌊q * (n : ℚ)⌋ + 1 : ℤ) : ℚ) := by
    rw [mul_comm (n : ℚ) q]
    push_cast
    exact (Int.lt_floor_add_one _).le
  have hlo : ((⌊q * (n : ℚ)⌋ : ℤ) : ℚ) ≤ roundQ ((n : ℚ) * q) := by
    have := le_roundQ ((n : ℚ) * q) ⌊q * (n : ℚ)⌋ 0 hu (by simpa using hfl1)
    simpa using this
  have hhi : roundQ ((n : ℚ) * q) ≤ ((⌊q * (n : ℚ)⌋ + 1 : ℤ) : ℚ) := by
    have := roundQ_le ((n : ℚ) * q) (⌊q * (n : ℚ)⌋ + 1) 0 hu (by simpa using hfl2)
    simpa using this
  rw [hp]
  unfold rounded_extent spec_extent
  rw [← hext]
  refine ⟨rfl, ?_, ?_, hsw0, hsw1⟩
  · rw [hext]
    exact Int.le_floor.mpr hlo
  · rw [hext]
    have : ⌊roundQ ((n : ℚ) * q)⌋ ≤ ⌊((⌊q * (n : ℚ)⌋ + 1 : ℤ) : ℚ)⌋ := Int.floor_le_floor hhi
    rwa [Int.floor_intCast] at this

/-- On a validated configuration the safe-zone layer is the list of the specification with
the rounded extents. -/
theorem safe_zones_rounded (ctx : design_overlay_data) (hv : Validated ctx) :
    render_safe_zones ctx true true = spec_safe_zones_rounded ctx := by
  rw [safe_zones_spec ctx hv]
  obtain ⟨⟨_, hW2⟩, ⟨_, hH2⟩, _, _⟩ := hv
  unfold spec_safe_zones_rounded
  rw [← (safe_extent_rounded ctx ctx.canvas_width hW2).1,
    ← (safe_extent_rounded ctx ctx.canvas_height (by omega)).1]
  rfl

theorem default_safe_zone_state :
    (design_overlay_update zeroState defaultSettings).canvas_width = 1920 ∧
    (design_overlay_update zeroState defaultSettings).canvas_height = 1080 ∧
    (design_overlay_update zeroState defaultSettings).safe_zone_type = 1 ∧
    safe_zone_percent (design_overlay_update zeroState defaultSettings)
      = F32.fin (7549747 / 8388608) ∧
    safe_w (design_overlay_update zeroState defaultSettings) = pix 1728 ∧
    safe_h (design_overlay_update zeroState defaultSettings) = pix 972 ∧
    spec_extent (7549747 / 8388608) 1920 = 1727 ∧
    spec_extent (7549747 / 8388608) 1080 = 971 := by
  decide!

theorem custom_sixty_five_state :
    (design_overlay_update zeroState customSixtyFiveSettings).canvas_width = 1280 ∧
    (design_overlay_update zeroState customSixtyFiveSettings).canvas_height = 720 ∧
    (design_overlay_update zeroState customSixtyFiveSettings).safe_zone_type = 3 ∧
    (design_overlay_update zeroState customSixtyFiveSettings).custom_safe_zone_percent
      = F32.fin (5452595 / 8388608) ∧
    safe_w (design_overlay_update zeroState customSixtyFiveSettings) = pix 832 ∧
    safe_h (design_overlay_update zeroState customSixtyFiveSettings) = pix 467 ∧
    spec_extent (65 / 100) 1280 = 832 ∧
    spec_extent (65 / 100) 720 = 468 := by
  decide!

/-- C8, as stated, fails.  On the default configuration (1920x1080, type Desktop) the
effective percent is the binary32 value `0.9f = 7549747/8388608`, a little below `9/10`:
`floor(p * W) = 1727` and `floor(p * H) = 971`, but the binary32 products `W * p` and
`H * p` round up to `1728` and `972`, so the code draws a 1728x972 rectangle and its draw
calls are not those of the specification with the exact floors.  Reading `p` as the
configured decimal does not help: on 1280x720 with the custom percent 65 the code draws a
height of `467`, while `floor(0.65 * 720) = 468`. -/
theorem safe_rectangle_not_exact_floor :
    ((design_overlay_update zeroState defaultSettings).canvas_width = 1920 ∧
      (design_overlay_update zeroState defaultSettings).canvas_height = 1080 ∧
      (design_overlay_update zeroState defaultSettings).safe_zone_type = 1 ∧
      effective_percent (design_overlay_update zeroState defaultSettings)
        = 7549747 / 8388608 ∧
      safe_w (design_overlay_update zeroState defaultSettings) = pix 1728 ∧
      safe_h (design_overlay_update zeroState defaultSettings) = pix 972 ∧
      spec_extent (effective_percent (design_overlay_update zeroState defaultSettings)) 1920
        = 1727 ∧
      spec_extent (effective_percent (design_overlay_update zeroState defaultSettings)) 1080
        = 971 ∧
      render_safe_zones (design_overlay_update zeroState defaultSettings) true true
        ≠ spec_safe_zones_exact (design_overlay_update zeroState defaultSettings)) ∧
    ((design_overlay_update zeroState customSixtyFiveSettings).canvas_height = 720 ∧
      (design_overlay_update zeroState customSixtyFiveSettings).safe_zone_type = 3 ∧
      safe_h (design_overlay_update zeroState customSixtyFiveSettings) = pix 467 ∧
      spec_extent (65 / 100) 720 = 468) := by
  obtain ⟨hW, hH, ht, hp, hw, hh, e1, e2⟩ := default_safe_zone_state
  obtain ⟨_, hH2, ht2, _, _, hh2, _, e4⟩ := custom_sixty_five_state
  have hq : effective_percent (design_overlay_update zeroState defaultSettings)
      = 7549747 / 8388608 := by
    unfold effective_percent
    rw [hp]
  refine ⟨⟨hW, hH, ht, hq, hw, hh, ?_, ?_, ?_⟩, hH2, ht2, hh2, e4⟩
  · rw [hq]
    exact e1
  · rw [hq]
    exact e2
  · intro h
    have h1 := congrArg (fun l => l.map DrawCmd.x2) h
    revert h1
    unfold spec_safe_zones_exact
    rw [hq, hW, hH, e1, e2]
    decide!

/-- C8, amended: on a validated configuration with canvas `W x H`, `render_safe_zones`
makes exactly 12 draw calls, all at safe-zone opacity and in the selected colour: the four
edges of the rectangle of width `sw = floor(rnd(W * p))` and height
`sh = floor(rnd(H * p))`, where `p` is the effective percent and `rnd` rounds the product
to the nearest binary32 value, whose top-left corner is
`(floor((W - sw)/2), floor((H - sh)/2))`, followed by eight tick segments of half-length 20
centred on its four corners.  The width `sw` is `floor(p * W)` or `floor(p * W) + 1` and
lies between `0` and `W`; likewise the height. -/
theorem render_safe_zones_rounded (ctx : design_overlay_data) (hv : Validated ctx) :
    render_safe_zones ctx true true = spec_safe_zones_rounded ctx ∧
    (render_safe_zones ctx true true).length = 12 ∧
    (∀ c ∈ render_safe_zones ctx true true,
      c.opacity = ctx.safe_zone_opacity ∧ c.color = (safe_zone_select ctx).2) ∧
    safe_zone_percent ctx = F32.fin (effective_percent ctx) ∧
    safe_w ctx = pix (rounded_extent (effective_percent ctx) ctx.canvas_width) ∧
    safe_h ctx = pix (rounded_extent (effective_percent ctx) ctx.canvas_height) ∧
    (spec_extent (effective_percent ctx) ctx.canvas_width
        ≤ rounded_extent (effective_percent ctx) ctx.canvas_width ∧
      rounded_extent (effective_percent ctx) ctx.canvas_width
        ≤ spec_extent (effective_percent ctx) ctx.canvas_width + 1) ∧
    (spec_extent (effective_percent ctx) ctx.canvas_height
        ≤ rounded_extent (effective_percent ctx) ctx.canvas_height ∧
      rounded_extent (effective_percent ctx) ctx.canvas_height
        ≤ spec_extent (effective_percent ctx) ctx.canvas_height + 1) ∧
    (0 ≤ rounded_extent (effective_percent ctx) ctx.canvas_width ∧
      rounded_extent (effective_percent ctx) ctx.canvas_width ≤ ctx.canvas_width) ∧
    (0 ≤ rounded_extent (effective_percent ctx) ctx.canvas_height ∧
      rounded_extent (effective_percent ctx) ctx.canvas_height ≤ ctx.canvas_height) := by
  have key := safe_zones_rounded ctx hv
  obtain ⟨⟨hW1, hW2⟩, ⟨hH1, hH2⟩, _, _⟩ := hv
  have hW : F32.ofNat ctx.canvas_width = pix (ctx.canvas_width : ℤ) := ofNat_pix _ (by omega)
  have hH : F32.ofNat ctx.canvas_height = pix (ctx.canvas_height : ℤ) := ofNat_pix _ (by omega)
  obtain ⟨hsw, _, _⟩ := safe_extent_spec ctx ctx.canvas_width hW2
  obtain ⟨hsh, _, _⟩ := safe_extent_spec ctx ctx.canvas_height (by omega)
  obtain ⟨a1, a2, a3, a4, a5⟩ := safe_extent_rounded ctx ctx.canvas_width hW2
  obtain ⟨b1, b2, b3, b4, b5⟩ := safe_extent_rounded ctx ctx.canvas_height (by omega)
  refine ⟨key, rfl, ?_, effective_percent_eq ctx, ?_, ?_, ⟨a2, a3⟩, ⟨b2, b3⟩, ⟨a4, a5⟩,
    ⟨b4, b5⟩⟩
  · rw [key]
    intro c hc
    simp only [spec_safe_zones_rounded, spec_safe_rectangle, List.mem_cons,
      List.mem_singleton, List.not_mem_nil, or_false] at hc
    rcases hc with h | h | h | h | h | h | h | h | h | h | h | h <;> subst h <;> exact ⟨rfl, rfl⟩
  · unfold safe_w
    rw [hW, hsw, a1]
  · unfold safe_h
    rw [hH, hsh, b1]

theorem render_safe_zones_rounded_witness :
    Validated mobileSafeZone ∧
    mobileSafeZone.canvas_width = 1000 ∧ mobileSafeZone.canvas_height = 1000 ∧
    mobileSafeZone.safe_zone_type = 0 ∧
    rounded_extent (effective_percent mobileSafeZone) 1000 = 800 ∧
    spec_extent (effective_percent mobileSafeZone) 1000 = 800 ∧
    render_safe_zones mobileSafeZone true true =
      [ seg 100 100 900 100 COLOR_SAFE_ORANGE mobileSafeZone.safe_zone_opacity,
        seg 900 100 900 900 COLOR_SAFE_ORANGE mobileSafeZone.safe_zone_opacity,
        seg 900 900 100 900 COLOR_SAFE_ORANGE mobileSafeZone.safe_zone_opacity,
        seg 100 900 100 100 COLOR_SAFE_ORANGE mobileSafeZone.safe_zone_opacity,
        seg 80 100 120 100 COLOR_SAFE_ORANGE mobileSafeZone.safe_zone_opacity,
        seg 100 80 100 120 COLOR_SAFE_ORANGE mobileSafeZone.safe_zone_opacity,
        seg 880 100 920 100 COLOR_SAFE_ORANGE mobileSafeZone.safe_zone_opacity,
        seg 900 80 900 120 COLOR_SAFE_ORANGE mobileSafeZone.safe_zone_opacity,
        seg 880 900 920 900 COLOR_SAFE_ORANGE mobileSafeZone.safe_zone_opacity,
        seg 900 880 900 920 COLOR_SAFE_ORANGE mobileSafeZone.safe_zone_opacity,
        seg 80 900 120 900 COLOR_SAFE_ORANGE mobileSafeZone.safe_zone_opacity,
        seg 100 880 100 920 COLOR_SAFE_ORANGE mobileSafeZone.safe_zone_opacity ] :=
  ⟨validated_mobileSafeZone, rfl, rfl, rfl, by decide!, by decide!,
    (render_safe_zones_rounded mobileSafeZone validated_mobileSafeZone).1.trans (by decide!)⟩

/-! ## Writing the configuration back and configuring again -/

theorem f32_hundred : f32 100 = F32.fin 100 := by
  simpa [pix] using f32_pix 100 (by norm_num) (by norm_num)

theorem round_cases (x : ℚ) :
    F32.round x = F32.pinf ∨ F32.round x = F32.ninf ∨
      (F32.round x = F32.fin (roundQ x) ∧ roundQ x < 2 ^ 128 ∧ -(2 ^ 128) < roundQ x) := by
  unfold F32.round
  simp only
  split_ifs with h1 h2
  · exact Or.inl rfl
  · exact Or.inr (Or.inl rfl)
  · exact Or.inr (Or.inr ⟨rfl, not_le.mp h1, not_le.mp h2⟩)

theorem pinf_div_fin (q : ℚ) (hq : 0 ≤ q) : F32.pinf / F32.fin q = F32.pinf := by
  show F32.div _ _ = _
  simp [F32.div, hq]

theorem ninf_div_fin (q : ℚ) (hq : 0 ≤ q) : F32.ninf / F32.fin q = F32.ninf := by
  show F32.div _ _ = _
  simp [F32.div, hq]

/-- A rational of magnitude at most `2^127` rounds to a finite value of magnitude at most
`2^127`. -/
theorem round_fin_of_le (q : ℚ) (h1 : q ≤ 2 ^ 127) (h2 : -(2 ^ 127) ≤ q) :
    F32.round q = F32.fin (roundQ q) ∧ roundQ q ≤ 2 ^ 127 ∧ -(2 ^ 127) ≤ roundQ q := by
  have habs : |q| < (2 : ℚ) ^ ((127 : ℤ) + 24) := by
    rw [abs_lt]
    constructor
    · have : (2 : ℚ) ^ ((127 : ℤ) + 24) = 2 ^ 151 := by norm_num
      rw [this]
      linarith [show (2 : ℚ) ^ 127 < 2 ^ 151 by norm_num]
    · have : (2 : ℚ) ^ ((127 : ℤ) + 24) = 2 ^ 151 := by norm_num
      rw [this]
      linarith [show (2 : ℚ) ^ 127 < 2 ^ 151 by norm_num]
  have hu : ulpExp q ≤ 127 := ulpExp_le q 127 (by norm_num) habs
  have e127 : (2 : ℚ) ^ (127 : ℤ) = 2 ^ 127 := by norm_num
  have hr1 : roundQ q ≤ 2 ^ 127 := by
    have := roundQ_le q 1 127 hu (by rw [e127]; push_cast; linarith)
    rw [e127] at this
    push_cast at this
    linarith
  have hr2 : -(2 ^ 127) ≤ roundQ q := by
    have := le_roundQ q (-1) 127 hu (by rw [e127]; push_cast; linarith)
    rw [e127] at this
    push_cast at this
    linarith
  refine ⟨round_eq_fin q ?_ ?_, hr1, hr2⟩
  · linarith [show (2 : ℚ) ^ 127 < 2 ^ 128 by norm_num]
  · linarith [show (2 : ℚ) ^ 127 < 2 ^ 128 by norm_num]

/-- A stored fraction that was obtained by dividing a `float` by `100.0f` is obtained again
from its re-expression on the 0-100 scale, unless the re-expression overflows. -/
theorem percent_roundtrip (d : Dbl) (h : percent_survives (d.toF32 / f32 100) = true) :
    (F32.percent (d.toF32 / f32 100)).toF32 / f32 100 = d.toF32 / f32 100 := by
  rw [f32_hundred] at h ⊢
  cases d with
  | nan => rfl
  | pinf =>
    simp only [Dbl.toF32]
    rw [pinf_div_fin _ (by norm_num)]
    simp only [F32.percent, Dbl.toF32]
    rw [pinf_div_fin _ (by norm_num)]
  | ninf =>
    simp only [Dbl.toF32]
    rw [ninf_div_fin _ (by norm_num)]
    simp only [F32.percent, Dbl.toF32]
    rw [ninf_div_fin _ (by norm_num)]
  | fin x =>
    have hd : (Dbl.fin x).toF32 = F32.round x := rfl
    rw [hd] at h ⊢
    rcases round_cases x with hx | hx | ⟨hx, hb1, hb2⟩
    · rw [hx, pinf_div_fin _ (by norm_num)]
      simp only [F32.percent, Dbl.toF32]
      rw [pinf_div_fin _ (by norm_num)]
    · rw [hx, ninf_div_fin _ (by norm_num)]
      simp only [F32.percent, Dbl.toF32]
      rw [ninf_div_fin _ (by norm_num)]
    · rw [hx, div_fin _ _ (by norm_num)] at h ⊢
      obtain ⟨hz, hz1, hz2⟩ := round_fin_of_le (roundQ x / 100)
        (by linarith [show (2 : ℚ) ^ 128 / 100 ≤ 2 ^ 127 by norm_num])
        (by linarith [show (2 : ℚ) ^ 128 / 100 ≤ 2 ^ 127 by norm_num])
      rw [hz] at h ⊢
      have hperc : (F32.percent (F32.fin (roundQ (roundQ x / 100)))).toF32
          = F32.round (100 * roundQ (roundQ x / 100)) := rfl
      have hrt := roundtrip (roundQ x) (roundQ_idem x)
      rcases round_cases (100 * roundQ (roundQ x / 100)) with hw | hw | ⟨hw, _, _⟩
      · unfold percent_survives at h
        rw [hperc, hw] at h
        simp at h
      · unfold percent_survives at h
        rw [hperc, hw] at h
        simp at h
      · rw [hperc, hw, div_fin _ _ (by norm_num)]
        rw [round_eq_fin _
          (by rw [hrt]; linarith [show (2 : ℚ) ^ 127 < 2 ^ 128 by norm_num])
          (by rw [hrt]; linarith [show (2 : ℚ) ^ 127 < 2 ^ 128 by norm_num]), hrt]

/-- A stored fraction of magnitude at most `2^120` does not overflow when it is
re-expressed on the 0-100 scale. -/
theorem percent_survives_of_le (q : ℚ) (h : |q| ≤ 2 ^ 120) :
    percent_survives (F32.fin q) = true := by
  rw [abs_le] at h
  obtain ⟨hw, _, _⟩ := round_fin_of_le (100 * q)
    (by linarith [show (100 : ℚ) * 2 ^ 120 ≤ 2 ^ 127 by norm_num])
    (by linarith [show (100 : ℚ) * 2 ^ 120 ≤ 2 ^ 127 by norm_num])
  have hperc : (F32.percent (F32.fin q)).toF32 = F32.round (100 * q) := rfl
  unfold percent_survives
  rw [hperc, hw]

/-- A `float` written to a settings record as a `double` is read back unchanged. -/
theorem toDbl_roundtrip (d : Dbl) : (d.toF32.toDbl).toF32 = d.toF32 := by
  cases d with
  | nan => rfl
  | pinf => rfl
  | ninf => rfl
  | fin x =>
    simp only [Dbl.toF32]
    rcases round_cases x with hx | hx | ⟨hx, hb1, hb2⟩
    · rw [hx]
      rfl
    · rw [hx]
      rfl
    · rw [hx]
      simp only [F32.toDbl, Dbl.toF32]
      rw [round_eq_fin _ (by rw [roundQ_idem]; exact hb1) (by rw [roundQ_idem]; exact hb2),
        roundQ_idem]

theorem toUInt32_idem (v : ℤ) : toUInt32 ((toUInt32 v : ℕ) : ℤ) = toUInt32 v := by
  unfold toUInt32
  omega

theorem toInt32_idem (v : ℤ) : toInt32 (toInt32 v) = toInt32 v := by
  unfold toInt32
  omega

/-- C3, as stated, fails: with the largest finite `float` as grid opacity input the
stored opacity is `10737418 * 2^98`; written back on the 0-100 scale and configured
again, the stored opacity is `+∞`, because `100` times the stored value exceeds the
range of `float`. -/
theorem idempotence_fails_on_overflow :
    (design_overlay_update zeroState overflowSettings).grid_opacity
      = F32.fin (10737418 * 2 ^ 98) ∧
    (design_overlay_update (design_overlay_update zeroState overflowSettings)
      (settings_of (design_overlay_update zeroState overflowSettings))).grid_opacity
      = F32.pinf := by
  decide!

/-- C3, amended: writing the configuration produced by `design_overlay_update` back as a
settings record and calling `design_overlay_update` on it yields the same state, every
field included, provided no opacity and no custom percent overflows binary32 when it is
re-expressed on the 0-100 scale. -/
theorem update_idempotent (ctx : design_overlay_data) (s : obs_data_t)
    (h : Reexpressible (design_overlay_update ctx s)) :
    design_overlay_update (design_overlay_update ctx s)
      (settings_of (design_overlay_update ctx s)) = design_overlay_update ctx s := by
  obtain ⟨h1, h2, h3, h4⟩ := h
  obtain ⟨⟨hW1, hW2⟩, ⟨hH1, hH2⟩, ⟨hG1, hG2⟩, ⟨hC1, hC2⟩⟩ := update_validated ctx s
  apply design_overlay_data.ext
  · rfl
  · rfl
  · rfl
  · rfl
  · rfl
  · rfl
  · rfl
  · rfl
  · rfl
  · exact percent_roundtrip (obs_data_get_double s "grid_opacity") h1
  · exact percent_roundtrip (obs_data_get_double s "safe_zone_opacity") h2
  · exact percent_roundtrip (obs_data_get_double s "crosshair_opacity") h3
  · exact toUInt32_idem _
  · exact toUInt32_idem _
  · exact toUInt32_idem _
  · rw [update_canvas_width]
    have hg : obs_data_get_int (settings_of (design_overlay_update ctx s)) "canvas_width"
        = ((design_overlay_update ctx s).canvas_width : ℤ) := rfl
    rw [hg]
    unfold toUInt32
    split_ifs <;> omega
  · rw [update_canvas_height]
    have hg : obs_data_get_int (settings_of (design_overlay_update ctx s)) "canvas_height"
        = ((design_overlay_update ctx s).canvas_height : ℤ) := rfl
    rw [hg]
    unfold toUInt32
    split_ifs <;> omega
  · rw [update_material_grid_size]
    have hg : obs_data_get_int (settings_of (design_overlay_update ctx s))
        "material_grid_size" = (design_overlay_update ctx s).material_grid_size := rfl
    rw [hg]
    unfold spec_grid_size toInt32
    split_ifs <;> omega
  · rw [update_bootstrap_columns]
    have hg : obs_data_get_int (settings_of (design_overlay_update ctx s))
        "bootstrap_columns" = (design_overlay_update ctx s).bootstrap_columns := rfl
    rw [hg]
    unfold toInt32
    split_ifs <;> omega
  · exact toDbl_roundtrip (obs_data_get_double s "bootstrap_gutter")
  · exact toInt32_idem _
  · exact percent_roundtrip (obs_data_get_double s "custom_safe_zone_percent") h4
  · rfl
  · rfl

theorem reexpressible_default :
    Reexpressible (design_overlay_update zeroState defaultSettings) := by
  unfold Reexpressible
  decide!

theorem update_idempotent_witness :
    Reexpressible (design_overlay_update zeroState defaultSettings) ∧
    design_overlay_update (design_overlay_update zeroState defaultSettings)
      (settings_of (design_overlay_update zeroState defaultSettings))
      = design_overlay_update zeroState defaultSettings :=
  ⟨reexpressible_default, update_idempotent zeroState defaultSettings reexpressible_default⟩

/-! ## Opacity scaling and the shader colour -/

theorem f32_one : f32 1 = F32.fin 1 := by
  simpa [pix] using f32_pix 1 (by norm_num) (by norm_num)

/-- An input between `0` and `100` percent is stored as a fraction between `0` and `1`. -/
theorem percent_in_unit (x : ℚ) (h0 : 0 ≤ x) (h1 : x ≤ 100) :
    ∃ q, (Dbl.fin x).toF32 / f32 100 = F32.fin q ∧ 0 ≤ q ∧ q ≤ 1 := by
  have hx : |x| < (2 : ℚ) ^ ((0 : ℤ) + 24) := by
    rw [abs_of_nonneg h0]
    norm_num
    linarith
  have hu : ulpExp x ≤ 0 := ulpExp_le x 0 (by norm_num) hx
  have hl : 0 ≤ roundQ x := by
    have := le_roundQ x 0 0 hu (by simpa using h0)
    simpa using this
  have hr : roundQ x ≤ 100 := by
    have := roundQ_le x 100 0 hu (by simpa using h1)
    simpa using this
  have hd : (Dbl.fin x).toF32 = F32.fin (roundQ x) :=
    round_eq_fin x (by norm_num; linarith) (by norm_num; linarith)
  have hy0 : 0 ≤ roundQ x / 100 := by positivity
  have hy1 : roundQ x / 100 ≤ 1 := by linarith
  have hy : |roundQ x / 100| < (2 : ℚ) ^ ((0 : ℤ) + 24) := by
    rw [abs_of_nonneg hy0]
    norm_num
    linarith
  have hu2 : ulpExp (roundQ x / 100) ≤ 0 := ulpExp_le _ 0 (by norm_num) hy
  have hl2 : 0 ≤ roundQ (roundQ x / 100) := by
    have := le_roundQ _ 0 0 hu2 (by simpa using hy0)
    simpa using this
  have hr2 : roundQ (roundQ x / 100) ≤ 1 := by
    have := roundQ_le _ 1 0 hu2 (by simpa using hy1)
    simpa using this
  refine ⟨roundQ (roundQ x / 100), ?_, hl2, hr2⟩
  rw [hd, f32_hundred, div_fin _ _ (by norm_num)]
  exact round_eq_fin _ (by norm_num; linarith) (by norm_num; linarith)

/-- C11, as stated, fails: a grid opacity input of `200` percent is stored as `2.0`,
which is above `1`; the update does not clamp opacities. -/
theorem opacity_above_one :
    obs_data_get_double doubleOpacitySettings "grid_opacity" = Dbl.fin 200 ∧
    (design_overlay_update zeroState doubleOpacitySettings).grid_opacity = F32.fin 2 ∧
    ¬ ((2 : ℚ) ≤ 1) := by
  decide!

/-- C11, amended: when the three opacity inputs of a settings record lie between `0` and
`100` percent, each opacity stored by `design_overlay_update` lies in `[0,1]`. -/
theorem update_opacity_in_unit (ctx : design_overlay_data) (s : obs_data_t)
    (x1 x2 x3 : ℚ)
    (h1 : obs_data_get_double s "grid_opacity" = Dbl.fin x1) (b1 : 0 ≤ x1 ∧ x1 ≤ 100)
    (h2 : obs_data_get_double s "safe_zone_opacity" = Dbl.fin x2) (b2 : 0 ≤ x2 ∧ x2 ≤ 100)
    (h3 : obs_data_get_double s "crosshair_opacity" = Dbl.fin x3) (b3 : 0 ≤ x3 ∧ x3 ≤ 100) :
    ∃ q1 q2 q3 : ℚ,
      (design_overlay_update ctx s).grid_opacity = F32.fin q1 ∧ (0 ≤ q1 ∧ q1 ≤ 1) ∧
      (design_overlay_update ctx s).safe_zone_opacity = F32.fin q2 ∧ (0 ≤ q2 ∧ q2 ≤ 1) ∧
      (design_overlay_update ctx s).crosshair_opacity = F32.fin q3 ∧ (0 ≤ q3 ∧ q3 ≤ 1) := by
  obtain ⟨q1, e1, l1, u1⟩ := percent_in_unit x1 b1.1 b1.2
  obtain ⟨q2, e2, l2, u2⟩ := percent_in_unit x2 b2.1 b2.2
  obtain ⟨q3, e3, l3, u3⟩ := percent_in_unit x3 b3.1 b3.2
  refine ⟨q1, q2, q3, ?_, ⟨l1, u1⟩, ?_, ⟨l2, u2⟩, ?_, ⟨l3, u3⟩⟩
  · show (obs_data_get_double s "grid_opacity").toF32 / f32 100 = _
    rw [h1, e1]
  · show (obs_data_get_double s "safe_zone_opacity").toF32 / f32 100 = _
    rw [h2, e2]
  · show (obs_data_get_double s "crosshair_opacity").toF32 / f32 100 = _
    rw [h3, e3]

theorem update_opacity_in_unit_witness :
    obs_data_get_double defaultSettings "grid_opacity" = Dbl.fin 30 ∧
    obs_data_get_double defaultSettings "safe_zone_opacity" = Dbl.fin 70 ∧
    obs_data_get_double defaultSettings "crosshair_opacity" = Dbl.fin 90 ∧
    ∃ q1 q2 q3 : ℚ,
      (design_overlay_update zeroState defaultSettings).grid_opacity = F32.fin q1 ∧
        (0 ≤ q1 ∧ q1 ≤ 1) ∧
      (design_overlay_update zeroState defaultSettings).safe_zone_opacity = F32.fin q2 ∧
        (0 ≤ q2 ∧ q2 ≤ 1) ∧
      (design_overlay_update zeroState defaultSettings).crosshair_opacity = F32.fin q3 ∧
        (0 ≤ q3 ∧ q3 ≤ 1) :=
  ⟨rfl, rfl, rfl,
    update_opacity_in_unit zeroState defaultSettings 30 70 90 rfl (by norm_num) rfl
      (by norm_num) rfl (by norm_num)⟩

/-- The clamp `fmaxf(0.0f, fminf(1.0f, x))` of a finite value. -/
theorem clamp_unit_fin (x : ℚ) :
    F32.fmaxf (F32.fin 0) (F32.fminf (F32.fin 1) (F32.fin x)) = F32.fin (max 0 (min 1 x)) := by
  by_cases h1 : x < 1
  · by_cases h2 : 0 < x
    · simp [F32.fminf, F32.fmaxf, F32.lt, h1, h2, h1.le, h2.le]
    · have h3 : x ≤ 0 := not_lt.mp h2
      simp [F32.fminf, F32.fmaxf, F32.lt, h1, h2, h1.le, h3]
  · have h3 : 1 ≤ x := not_lt.mp h1
    simp [F32.fminf, F32.fmaxf, F32.lt, h1, h3]

/-- C12: each of the three opacity fields is stored as the input divided by `100.0f`, so
`100` is stored as `1.0` and `0` as `0.0`; and for every colour `c` and opacity `o` the
vector that `set_shader_color` hands to the host has as alpha the product of the alpha
byte over `255.0f` with `o`, clamped by `fmaxf(0, fminf(1, ·))`, a finite value in
`[0,1]`, and as red, green and blue the bytes of `c` over `255.0f`, whatever `o` is. -/
theorem opacity_scaling_and_alpha (ctx : design_overlay_data) (s : obs_data_t)
    (c : ℕ) (o : F32) :
    (design_overlay_update ctx s).grid_opacity
      = (obs_data_get_double s "grid_opacity").toF32 / f32 100 ∧
    (design_overlay_update ctx s).safe_zone_opacity
      = (obs_data_get_double s "safe_zone_opacity").toF32 / f32 100 ∧
    (design_overlay_update ctx s).crosshair_opacity
      = (obs_data_get_double s "crosshair_opacity").toF32 / f32 100 ∧
    (Dbl.fin 100).toF32 / f32 100 = F32.fin 1 ∧
    (Dbl.fin 0).toF32 / f32 100 = F32.fin 0 ∧
    (∃ q : ℚ,
      set_shader_color true c o =
        some ⟨F32.ofNat ((c >>> 16) &&& 0xFF) / f32 255,
          F32.ofNat ((c >>> 8) &&& 0xFF) / f32 255,
          F32.ofNat (c &&& 0xFF) / f32 255, F32.fin q⟩ ∧
      F32.fin q = F32.fmaxf (f32 0) (F32.fminf (f32 1)
        (F32.ofNat ((c >>> 24) &&& 0xFF) / f32 255 * o)) ∧
      0 ≤ q ∧ q ≤ 1 ∧
      ∀ x : ℚ, F32.ofNat ((c >>> 24) &&& 0xFF) / f32 255 * o = F32.fin x →
        q = max 0 (min 1 x)) ∧
    (∀ o2 : F32,
      (set_shader_color true c o).map (fun v => (v.x, v.y, v.z))
        = (set_shader_color true c o2).map (fun v => (v.x, v.y, v.z))) := by
  refine ⟨rfl, rfl, rfl, by decide!, by decide!, ?_, ?_⟩
  · obtain ⟨q, hq, h0, h1⟩ := clamp_finite 0 1 (by norm_num)
      (F32.ofNat ((c >>> 24) &&& 0xFF) / f32 255 * o)
    refine ⟨q, ?_, ?_, h0, h1, ?_⟩
    · simp only [set_shader_color, f32_zero, f32_one, hq]
      rfl
    · rw [f32_zero, f32_one, hq]
    · intro x hx
      rw [hx, clamp_unit_fin] at hq
      exact (F32.fin.inj hq).symm
  · intro o2
    simp [set_shader_color]

/-! ## Safe-zone selection -/

/-- C13: `render_safe_zones` selects percent and colour by `safe_zone_type` before
clamping: `0` gives `0.8f` and safe-orange, `1` gives `0.9f` and safe-green, `2` gives
`0.93f` and safe-orange, `3` gives the configured custom percent and colour, every other
integer gives `0.9f` and safe-green; the clamp leaves the three fixed percents as they
are; and each of the 12 draw calls carries the selected colour. -/
theorem safe_zone_selection (ctx : design_overlay_data) :
    (ctx.safe_zone_type = 0 → safe_zone_select ctx = (f32 (8 / 10), COLOR_SAFE_ORANGE)) ∧
    (ctx.safe_zone_type = 1 → safe_zone_select ctx = (f32 (9 / 10), COLOR_SAFE_GREEN)) ∧
    (ctx.safe_zone_type = 2 → safe_zone_select ctx = (f32 (93 / 100), COLOR_SAFE_ORANGE)) ∧
    (ctx.safe_zone_type = 3 →
      safe_zone_select ctx = (ctx.custom_safe_zone_percent, ctx.safe_zone_color)) ∧
    ((ctx.safe_zone_type ≠ 0 ∧ ctx.safe_zone_type ≠ 1 ∧ ctx.safe_zone_type ≠ 2 ∧
        ctx.safe_zone_type ≠ 3) →
      safe_zone_select ctx = (f32 (9 / 10), COLOR_SAFE_GREEN)) ∧
    safe_zone_percent ctx
      = F32.fmaxf (f32 (1 / 10)) (F32.fminf (f32 (99 / 100)) (safe_zone_select ctx).1) ∧
    (ctx.safe_zone_type ≠ 3 → safe_zone_percent ctx = (safe_zone_select ctx).1) ∧
    (render_safe_zones ctx true true).length = 12 ∧
    (∀ c ∈ render_safe_zones ctx true true, c.color = (safe_zone_select ctx).2) := by
  have c8 : F32.fmaxf (f32 (1 / 10)) (F32.fminf (f32 (99 / 100)) (f32 (8 / 10)))
      = f32 (8 / 10) := by decide!
  have c9 : F32.fmaxf (f32 (1 / 10)) (F32.fminf (f32 (99 / 100)) (f32 (9 / 10)))
      = f32 (9 / 10) := by decide!
  have c93 : F32.fmaxf (f32 (1 / 10)) (F32.fminf (f32 (99 / 100)) (f32 (93 / 100)))
      = f32 (93 / 100) := by decide!
  refine ⟨?_, ?_, ?_, ?_, ?_, rfl, ?_, ?_, ?_⟩
  · intro h
    simp [safe_zone_select, h]
  · intro h
    simp [safe_zone_select, h]
  · intro h
    simp [safe_zone_select, h]
  · intro h
    simp [safe_zone_select, h]
  · rintro ⟨h0, h1, h2, h3⟩
    simp [safe_zone_select, h0, h1, h2, h3]
  · intro h3
    unfold safe_zone_percent safe_zone_select
    split_ifs
    · exact c8
    · exact c9
    · exact c93
    · exact c9
  · simp [render_safe_zones, draw_simple_line]
  · intro c hc
    simp only [render_safe_zones, draw_simple_line_ready, List.singleton_append,
      List.cons_append, List.nil_append, List.mem_cons, List.mem_singleton,
      List.not_mem_nil, or_false] at hc
    rcases hc with h | h | h | h | h | h | h | h | h | h | h | h <;> subst h <;> rfl

/-! ## Alignment grid -/

/-- A rounded value within fifteen sixteenths above an integer has that integer as
floor. -/
theorem floorf_round_fine (q : ℚ) (n : ℤ) (h0 : 0 ≤ n) (hb : n < 524288)
    (h1 : (n : ℚ) ≤ q) (h2 : q ≤ (n : ℚ) + 15 / 16) :
    F32.floorf (F32.round q) = pix n := by
  have hnq : (n : ℚ) < 524288 := by exact_mod_cast hb
  have hn0 : (0 : ℚ) ≤ n := by exact_mod_cast h0
  have habs : |q| < (2 : ℚ) ^ ((-4 : ℤ) + 24) := by
    rw [abs_of_nonneg (by linarith)]
    norm_num
    linarith
  have hu : ulpExp q ≤ -4 := ulpExp_le q (-4) (by norm_num) habs
  have hl : (n : ℚ) ≤ roundQ q := by
    have := le_roundQ q (16 * n) (-4) hu (by
      rw [show (2 : ℚ) ^ (-4 : ℤ) = 1 / 16 by norm_num]
      push_cast
      linarith)
    rw [show (2 : ℚ) ^ (-4 : ℤ) = 1 / 16 by norm_num] at this
    push_cast at this
    linarith
  have hr : roundQ q ≤ (n : ℚ) + 15 / 16 := by
    have := roundQ_le q (16 * n + 15) (-4) hu (by
      rw [show (2 : ℚ) ^ (-4 : ℤ) = 1 / 16 by norm_num]
      push_cast
      linarith)
    rw [show (2 : ℚ) ^ (-4 : ℤ) = 1 / 16 by norm_num] at this
    push_cast at this
    linarith
  rw [round_eq_fin q (by norm_num; linarith) (by norm_num; linarith)]
  unfold F32.floorf pix
  simp only
  congr 2
  rw [Int.floor_eq_iff]
  constructor
  · exact hl
  · linarith

theorem f32_nine_tenths : f32 (9 / 10) = F32.fin (7549747 / 8388608) := by decide!

/-- A positive rational below `2^24` that lies less than a `2^-25` part of itself under
an integer rounds to that integer. -/
theorem roundQ_up_to_int (q : ℚ) (m : ℤ) (hq : 0 < q) (hlt : q < 16777216)
    (h1 : q ≤ m) (h2 : (m : ℚ) - q ≤ q / 33554432) : roundQ q = m := by
  have hu := two_zpow_pos (ulpExp q)
  obtain ⟨n, _, _, _, _, hshape, _⟩ := roundQ_shape q hq
  have habs : |q| < (2 : ℚ) ^ ((0 : ℤ) + 24) := by
    rw [abs_of_pos hq]
    norm_num
    linarith
  have he : ulpExp q ≤ 0 := ulpExp_le q 0 (by norm_num) habs
  obtain ⟨k, hk⟩ : ∃ k : ℕ, ulpExp q + k = 0 := ⟨(-ulpExp q).toNat, by omega⟩
  have hpow : (2 : ℚ) ^ ulpExp q * 2 ^ k = 1 := by
    rw [← two_zpow_add_nat, hk]
    simp
  have hm : (m : ℚ) = ((m * 2 ^ k : ℤ) : ℚ) * 2 ^ ulpExp q := by
    push_cast
    rw [mul_assoc, mul_comm ((2 : ℚ) ^ k), hpow, mul_one]
  have := roundQ_eq_of_near q (m * 2 ^ k) (by
    rw [← hm, abs_lt]
    constructor
    · linarith
    · have : q / 33554432 < 2 ^ ulpExp q / 2 := by linarith
      linarith)
  rw [this, ← hm]

/-- The container width `floorf((float)W * 0.9f)` is the integer `floor(9 W / 10)`. -/
theorem container_width (W : ℕ) (h1 : 100 ≤ W) (h2 : W ≤ 7680) :
    F32.floorf (pix W * f32 (9 / 10)) = pix (9 * (W : ℤ) / 10) := by
  rw [f32_nine_tenths]
  unfold pix
  rw [mul_fin]
  have hWq1 : (100 : ℚ) ≤ ((W : ℤ) : ℚ) := by exact_mod_cast h1
  have hWq2 : ((W : ℤ) : ℚ) ≤ 7680 := by exact_mod_cast h2
  have hmod := Int.emod_add_ediv (9 * (W : ℤ)) 10
  have hr0 := Int.emod_nonneg (9 * (W : ℤ)) (by norm_num : (10 : ℤ) ≠ 0)
  have hr1 := Int.emod_lt_of_pos (9 * (W : ℤ)) (by norm_num : (0 : ℤ) < 10)
  have hmodq : (9 : ℚ) * ((W : ℤ) : ℚ)
      = ((9 * (W : ℤ) % 10 : ℤ) : ℚ) + 10 * ((9 * (W : ℤ) / 10 : ℤ) : ℚ) := by
    exact_mod_cast hmod.symm
  have hm0 : 0 ≤ 9 * (W : ℤ) / 10 := by omega
  have hm1 : 9 * (W : ℤ) / 10 < 524288 := by omega
  have hmq : ((9 * (W : ℤ) / 10 : ℤ) : ℚ) ≤ 6912 := by
    have : 9 * (W : ℤ) / 10 ≤ 6912 := by omega
    exact_mod_cast this
  by_cases hr : 9 * (W : ℤ) % 10 = 0
  · -- nine tenths of the width is an integer, just above the binary32 product
    rw [hr] at hmodq
    have hq : roundQ (((W : ℤ) : ℚ) * (7549747 / 8388608)) = ((9 * (W : ℤ) / 10 : ℤ) : ℚ) := by
      apply roundQ_up_to_int
      · positivity
      · linarith
      · push_cast at hmodq ⊢
        linarith
      · push_cast at hmodq ⊢
        linarith
    rw [round_eq_fin _ (by rw [hq]; norm_num; linarith) (by rw [hq]; norm_num; linarith), hq]
    simp [F32.floorf]
  · have hrq : (1 : ℚ) ≤ ((9 * (W : ℤ) % 10 : ℤ) : ℚ) := by
      have : 1 ≤ 9 * (W : ℤ) % 10 := by omega
      exact_mod_cast this
    have hrq2 : ((9 * (W : ℤ) % 10 : ℤ) : ℚ) ≤ 9 := by
      have : 9 * (W : ℤ) % 10 ≤ 9 := by omega
      exact_mod_cast this
    apply floorf_round_fine _ _ hm0 hm1
    · linarith
    · linarith

/-- The loop variable of the divider loop runs through `k, k + 1, ..` below the column
count. -/
theorem column_steps_eq (cols : ℕ) :
    ∀ (m k : ℕ), k + m = cols →
      column_steps (cols : ℤ) (k : ℤ) = (List.range m).map (fun j => (((k + j : ℕ)) : ℤ)) := by
  intro m
  induction m with
  | zero =>
    intro k hk
    rw [column_steps, if_neg (by omega)]
    rfl
  | succ m ih =>
    intro k hk
    rw [column_steps, if_pos (by omega)]
    have h2 : (k : ℤ) + 1 = ((k + 1 : ℕ) : ℤ) := by push_cast; ring
    rw [h2, ih (k + 1) (by omega)]
    rw [List.range_succ_eq_map, List.map_cons, List.map_map]
    congr 1
    apply List.map_congr_left
    intro j _
    simp only [Function.comp, Nat.succ_eq_add_one]
    rw [show k + 1 + j = k + (j + 1) by omega]

theorem ofInt_pix (n : ℤ) (h1 : -16777216 < n) (h2 : n < 16777216) : F32.ofInt n = pix n :=
  round_pix n h1 h2

/-- The draw calls of the divider loop over a list of small loop indices. -/
theorem divider_lines_eq (sx cg y1 y2 : F32) (color : ℕ) (opacity : F32) (l : List ℕ)
    (hl : ∀ n ∈ l, n ≤ 7680) :
    (l.map (fun n : ℕ => (n : ℤ))).flatMap (fun i =>
      draw_simple_line (sx + (F32.ofInt i * cg)) y1 (sx + (F32.ofInt i * cg)) y2
        color opacity true true)
      = l.map (fun n : ℕ => (⟨sx + pix (n : ℤ) * cg, y1, sx + pix (n : ℤ) * cg, y2,
          color, opacity⟩ : DrawCmd)) := by
  induction l with
  | nil => rfl
  | cons n l ih =>
    have hn : n ≤ 7680 := hl n (List.mem_cons_self _ _)
    rw [List.map_cons, List.flatMap_cons, ih (fun m hm => hl m (List.mem_cons_of_mem _ hm)),
      draw_simple_line_ready, ofInt_pix _ (by omega) (by omega)]
    rfl

/-- On a validated configuration the alignment-grid layer is the list
`bootstrap_segments`. -/
theorem bootstrap_grid_spec (ctx : design_overlay_data) (hv : Validated ctx) :
    render_bootstrap_grid ctx true true = bootstrap_segments ctx := by
  obtain ⟨⟨hW1, hW2⟩, ⟨hH1, hH2⟩, _, ⟨hC1, hC2⟩⟩ := hv
  have hW : F32.ofNat ctx.canvas_width = pix (ctx.canvas_width : ℤ) := ofNat_pix _ (by omega)
  have hH : F32.ofNat ctx.canvas_height = pix (ctx.canvas_height : ℤ) := ofNat_pix _ (by omega)
  have hcw := container_width ctx.canvas_width hW1 hW2
  obtain ⟨n, hn⟩ : ∃ n : ℕ, ctx.bootstrap_columns = (n : ℤ) :=
    ⟨ctx.bootstrap_columns.toNat, by omega⟩
  have hn1 : 1 ≤ n := by omega
  have hsteps := column_steps_eq n (n - 1) 1 (by omega)
  have hone : ((1 : ℕ) : ℤ) = 1 := rfl
  rw [hone] at hsteps
  have hbound : ∀ k ∈ (List.range (n - 1)).map (fun j => 1 + j), k ≤ 7680 := by
    intro k hk
    obtain ⟨j, hj, rfl⟩ := List.mem_map.mp hk
    have := List.mem_range.mp hj
    omega
  have hsteps2 : column_steps (n : ℤ) 1
      = ((List.range (n - 1)).map (fun j => 1 + j)).map (fun k : ℕ => (k : ℤ)) := by
    rw [hsteps, List.map_map]
    rfl
  unfold render_bootstrap_grid bootstrap_segments
  simp only
  rw [if_neg (by omega), hn, hsteps2, divider_lines_eq _ _ _ _ _ _ _ hbound]
  simp only [draw_simple_line_ready, f32_zero_pix, f32_two, hW, hH, hcw,
    ofInt_pix (n : ℤ) (by omega) (by omega), ofInt_pix ((n : ℤ) - 1) (by omega) (by omega)]
  simp (disch := omega) only [pix_add, pix_sub, floorf_half_pix]
  simp only [seg, List.singleton_append, List.cons_append, List.nil_append, List.map_map,
    Int.toNat_ofNat]
  have hnat : ((n : ℤ) - 1).toNat = n - 1 := by omega
  rw [hnat]
  congr 2
  apply List.map_congr_left
  intro j _
  simp only [Function.comp]
  have : ((1 + j : ℕ) : ℤ) = (j : ℤ) + 1 := by push_cast; ring
  rw [this]

theorem validated_bootstrapOnly : Validated bootstrapOnly := by
  unfold Validated bootstrapOnly zeroState
  simp

/-! ## Column count and size of the material grid -/

/-- C15, as stated, fails: the column input `4294967301` exceeds `24`, yet the stored
count is `5` and not `24`, because the input is converted to `int` before it is
compared. -/
theorem columns_rule_fails_beyond_int :
    obs_data_get_int
      (setValue emptySettings "bootstrap_columns" (Value.int 4294967301))
      "bootstrap_columns" = 4294967301 ∧
    (design_overlay_update zeroState
      (setValue emptySettings "bootstrap_columns" (Value.int 4294967301))).bootstrap_columns
      = 5 ∧
    spec_columns 4294967301 = 24 := by
  decide!

/-- C15, amended: the stored column count lies in `[1,24]`, and it follows the rule of the
specification applied to the input converted to `int` (32-bit two's complement): `12`
below `1`, `24` above `24`, the value itself otherwise. -/
theorem update_columns_rule_int (ctx : design_overlay_data) (s : obs_data_t) :
    (design_overlay_update ctx s).bootstrap_columns =
      spec_columns (toInt32 (obs_data_get_int s "bootstrap_columns")) ∧
    1 ≤ (design_overlay_update ctx s).bootstrap_columns ∧
    (design_overlay_update ctx s).bootstrap_columns ≤ 24 := by
  rw [update_bootstrap_columns]
  unfold spec_columns
  refine ⟨?_, ?_, ?_⟩ <;> split_ifs <;> omega

/-- The number of draw calls of the material grid layer on a validated configuration. -/
theorem material_grid_length (ctx : design_overlay_data) (hv : Validated ctx) :
    (render_material_grid ctx true true).length =
      (ctx.canvas_width / ctx.material_grid_size.toNat + 1) +
      (ctx.canvas_height / ctx.material_grid_size.toNat + 1) := by
  rw [render_material_grid_eq ctx hv]
  simp [spec_grid_vertical, spec_grid_horizontal]

theorem validated_denseGrid : Validated denseGrid := by
  unfold Validated denseGrid materialOnly zeroState
  simp

/-- C16, as stated, fails: on the validated canvas 1920x1080 with cell size 4 the material
grid layer makes `481 + 271 = 752` draw calls, more than `1920/4 + 1080/4 = 750`: each
loop also draws the line at `0`. -/
theorem grid_bound_fails_at_cell_four :
    Validated denseGrid ∧
    (render_material_grid denseGrid true true).length = 752 ∧
    denseGrid.canvas_width / 4 + denseGrid.canvas_height / 4 = 750 := by
  refine ⟨validated_denseGrid, ?_, rfl⟩
  rw [material_grid_length denseGrid validated_denseGrid]
  rfl

/-- C16, amended: on a validated configuration the material grid layer makes at most
`floor(W/4) + floor(H/4) + 2` draw calls. -/
theorem material_grid_bound (ctx : design_overlay_data) (hv : Validated ctx) :
    (render_material_grid ctx true true).length
      ≤ ctx.canvas_width / 4 + ctx.canvas_height / 4 + 2 := by
  rw [material_grid_length ctx hv]
  obtain ⟨_, _, ⟨hs1, _⟩, _⟩ := hv
  have hg : 4 ≤ ctx.material_grid_size.toNat := by omega
  have h1 : ctx.canvas_width / ctx.material_grid_size.toNat ≤ ctx.canvas_width / 4 :=
    Nat.div_le_div_left hg (by norm_num)
  have h2 : ctx.canvas_height / ctx.material_grid_size.toNat ≤ ctx.canvas_height / 4 :=
    Nat.div_le_div_left hg (by norm_num)
  omega

theorem material_grid_bound_witness :
    Validated denseGrid ∧
    (render_material_grid denseGrid true true).length
      ≤ denseGrid.canvas_width / 4 + denseGrid.canvas_height / 4 + 2 :=
  ⟨validated_denseGrid, material_grid_bound denseGrid validated_denseGrid⟩

/-! ## Missing host resources, empty settings, the dirty flag -/

/-- C17: when the host lacks the solid effect, its colour parameter or its `Solid`
technique, `design_overlay_video_render` returns the state unchanged and makes no draw
call, for every configuration; and `draw_simple_line` itself draws nothing without the
effect or without the colour parameter. -/
theorem render_without_host_resources (host : Host) (ctx : design_overlay_data)
    (h : host.solid_effect = false ∨ host.color_param = false ∨ host.tech = false) :
    design_overlay_video_render host ctx = (ctx, []) ∧
    (∀ (x1 y1 x2 y2 : F32) (color : ℕ) (opacity : F32) (color_param : Bool),
      draw_simple_line x1 y1 x2 y2 color opacity false color_param = []) ∧
    (∀ (x1 y1 x2 y2 : F32) (color : ℕ) (opacity : F32) (effect : Bool),
      draw_simple_line x1 y1 x2 y2 color opacity effect false = []) := by
  refine ⟨?_, ?_, ?_⟩
  · unfold design_overlay_video_render
    rcases h with h | h | h <;> simp [h]
  · intros
    simp [draw_simple_line]
  · intros
    simp [draw_simple_line]

theorem render_without_host_resources_witness :
    (noTechniqueHost.solid_effect = false ∨ noTechniqueHost.color_param = false ∨
      noTechniqueHost.tech = false) ∧
    enabledAllLayers.enabled = true ∧
    design_overlay_video_render noTechniqueHost enabledAllLayers = (enabledAllLayers, []) :=
  ⟨Or.inr (Or.inr rfl), rfl,
    (render_without_host_resources noTechniqueHost enabledAllLayers (Or.inr (Or.inr rfl))).1⟩

/-- C18: on the empty settings record `design_overlay_update` yields `enabled = false`,
every layer toggle false, all opacities, the gutter and the custom percent `0.0`, all
colours `0` and safe-zone type `0`, with canvas 1920x1080, material grid size 8 and column
count 12 substituted by the validation; a render of the resulting state makes no draw
call.  (The update is a total function of the state and the settings record.) -/
theorem update_empty_settings (host : Host) (ctx : design_overlay_data) :
    design_overlay_update ctx emptySettings =
      { source := ctx.source
        enabled := false
        show_material_grid := false
        show_bootstrap_grid := false
        show_safe_zones := false
        show_crosshair := false
        show_rule_of_thirds := false
        show_center_guides := false
        show_branding := false
        grid_opacity := F32.fin 0
        safe_zone_opacity := F32.fin 0
        crosshair_opacity := F32.fin 0
        grid_color := 0
        safe_zone_color := 0
        crosshair_color := 0
        canvas_width := 1920
        canvas_height := 1080
        material_grid_size := 8
        bootstrap_columns := 12
        bootstrap_gutter := F32.fin 0
        safe_zone_type := 0
        custom_safe_zone_percent := F32.fin 0
        needs_redraw := true
        last_render_time := ctx.last_render_time } ∧
    (design_overlay_video_render host (design_overlay_update ctx emptySettings)).2 = [] := by
  have hz : (Dbl.fin 0).toF32 / f32 100 = F32.fin 0 := by decide!
  have hg : (Dbl.fin 0).toF32 = F32.fin 0 := by decide!
  constructor
  · apply design_overlay_data.ext <;> first | rfl | exact hz | exact hg
  · simp [design_overlay_video_render, design_overlay_update, obs_data_get_bool,
      emptySettings]

/-- A completed render leaves every field but `needs_redraw` as it was. -/
theorem render_state (host : Host) (ctx : design_overlay_data) :
    ((ctx.enabled = true ∧ host.solid_effect = true ∧ host.color_param = true ∧
        host.tech = true) ∧
      (design_overlay_video_render host ctx).1 = { ctx with needs_redraw := false }) ∨
    (¬(ctx.enabled = true ∧ host.solid_effect = true ∧ host.color_param = true ∧
        host.tech = true) ∧
      (design_overlay_video_render host ctx).1 = ctx) := by
  rcases host with ⟨a, b, c⟩
  cases he : ctx.enabled <;> cases a <;> cases b <;> cases c <;>
    simp [design_overlay_video_render, he]

/-- C19, as stated, fails: after a render of an enabled state on a host with all
resources the flag `needs_redraw` is `false`, although it was `true` before. -/
theorem needs_redraw_false_after_render :
    enabledAllLayers.needs_redraw = true ∧
    (design_overlay_video_render readyHost enabledAllLayers).1.needs_redraw = false := by
  constructor
  · rfl
  · simp [design_overlay_video_render, enabledAllLayers, disabledAllLayers, readyHost]

/-- C19, amended: `needs_redraw` is `true` after every `design_overlay_update`; after a
`design_overlay_video_render` that passes its guards (state enabled, solid effect, colour
parameter and technique present) it is `false`, and a render that returns at a guard
leaves the state, the flag included, unchanged. -/
theorem needs_redraw_rule (host : Host) (ctx : design_overlay_data) (s : obs_data_t) :
    (design_overlay_update ctx s).needs_redraw = true ∧
    ((ctx.enabled = true ∧ host.solid_effect = true ∧ host.color_param = true ∧
        host.tech = true) →
      (design_overlay_video_render host ctx).1.needs_redraw = false) ∧
    (¬(ctx.enabled = true ∧ host.solid_effect = true ∧ host.color_param = true ∧
        host.tech = true) →
      (design_overlay_video_render host ctx).1 = ctx) := by
  refine ⟨rfl, ?_, ?_⟩
  · intro h
    rcases render_state host ctx with ⟨_, h2⟩ | ⟨h1, _⟩
    · rw [h2]
    · exact absurd h h1
  · intro h
    rcases render_state host ctx with ⟨h1, _⟩ | ⟨_, h2⟩
    · exact absurd h1 h
    · exact h2

/-- C20: `design_overlay_video_render` leaves every configuration field as it was: the
eight toggles, the three opacities, the three colours, canvas width and height, grid
size, column count, gutter, safe-zone type and custom percent (and also the source handle
and the render time stamp). -/
theorem render_keeps_configuration (host : Host) (ctx : design_overlay_data) :
    (design_overlay_video_render host ctx).1.enabled = ctx.enabled ∧
    (design_overlay_video_render host ctx).1.show_material_grid = ctx.show_material_grid ∧
    (design_overlay_video_render host ctx).1.show_bootstrap_grid = ctx.show_bootstrap_grid ∧
    (design_overlay_video_render host ctx).1.show_safe_zones = ctx.show_safe_zones ∧
    (design_overlay_video_render host ctx).1.show_crosshair = ctx.show_crosshair ∧
    (design_overlay_video_render host ctx).1.show_rule_of_thirds = ctx.show_rule_of_thirds ∧
    (design_overlay_video_render host ctx).1.show_center_guides = ctx.show_center_guides ∧
    (design_overlay_video_render host ctx).1.show_branding = ctx.show_branding ∧
    (design_overlay_video_render host ctx).1.grid_opacity = ctx.grid_opacity ∧
    (design_overlay_video_render host ctx).1.safe_zone_opacity = ctx.safe_zone_opacity ∧
    (design_overlay_video_render host ctx).1.crosshair_opacity = ctx.crosshair_opacity ∧
    (design_overlay_video_render host ctx).1.grid_color = ctx.grid_color ∧
    (design_overlay_video_render host ctx).1.safe_zone_color = ctx.safe_zone_color ∧
    (design_overlay_video_render host ctx).1.crosshair_color = ctx.crosshair_color ∧
    (design_overlay_video_render host ctx).1.canvas_width = ctx.canvas_width ∧
    (design_overlay_video_render host ctx).1.canvas_height = ctx.canvas_height ∧
    (design_overlay_video_render host ctx).1.material_grid_size = ctx.material_grid_size ∧
    (design_overlay_video_render host ctx).1.bootstrap_columns = ctx.bootstrap_columns ∧
    (design_overlay_video_render host ctx).1.bootstrap_gutter = ctx.bootstrap_gutter ∧
    (design_overlay_video_render host ctx).1.safe_zone_type = ctx.safe_zone_type ∧
    (design_overlay_video_render host ctx).1.custom_safe_zone_percent
      = ctx.custom_safe_zone_percent ∧
    (design_overlay_video_render host ctx).1.source = ctx.source ∧
    (design_overlay_video_render host ctx).1.last_render_time = ctx.last_render_time := by
  rcases render_state host ctx with ⟨_, h⟩ | ⟨_, h⟩ <;> rw [h] <;> simp

/-! ## Columns of the alignment grid against its container -/

/-- The draw calls of `render_bootstrap_grid` in terms of its three locals. -/
theorem render_bootstrap_grid_locals (ctx : design_overlay_data) (effect color_param : Bool) :
    render_bootstrap_grid ctx effect color_param =
      if ctx.bootstrap_columns ≤ 0 then []
      else
        draw_simple_line (start_x ctx) (f32 0) (start_x ctx) (F32.ofNat ctx.canvas_height)
            COLOR_BOOTSTRAP_PINK (ctx.grid_opacity * f32 (1 / 2)) effect color_param
          ++ draw_simple_line (start_x ctx + container_w ctx) (f32 0)
              (start_x ctx + container_w ctx) (F32.ofNat ctx.canvas_height)
              COLOR_BOOTSTRAP_PINK (ctx.grid_opacity * f32 (1 / 2)) effect color_param
          ++ (column_steps ctx.bootstrap_columns 1).flatMap (fun i =>
              draw_simple_line (start_x ctx + (F32.ofInt i * (col_w ctx + ctx.bootstrap_gutter)))
                (f32 0) (start_x ctx + (F32.ofInt i * (col_w ctx + ctx.bootstrap_gutter)))
                (F32.ofNat ctx.canvas_height) COLOR_BOOTSTRAP_PINK ctx.grid_opacity
                effect color_param) :=
  rfl

/-- A rounded value within thirty-one thirty-seconds above an integer, of either sign, has
that integer as floor. -/
theorem floorf_round_signed (q : ℚ) (n : ℤ) (h0 : -524287 ≤ n) (hb : n ≤ 524286)
    (h1 : (n : ℚ) ≤ q) (h2 : q ≤ (n : ℚ) + 31 / 32) :
    F32.floorf (F32.round q) = pix n := by
  have hnq : (n : ℚ) ≤ 524286 := by exact_mod_cast hb
  have hn0 : (-524287 : ℚ) ≤ n := by exact_mod_cast h0
  have habs : |q| < (2 : ℚ) ^ ((-5 : ℤ) + 24) := by
    rw [abs_lt]
    norm_num
    constructor <;> linarith
  have hu : ulpExp q ≤ -5 := ulpExp_le q (-5) (by norm_num) habs
  have hl : (n : ℚ) ≤ roundQ q := by
    have := le_roundQ q (32 * n) (-5) hu (by
      rw [show (2 : ℚ) ^ (-5 : ℤ) = 1 / 32 by norm_num]
      push_cast
      linarith)
    rw [show (2 : ℚ) ^ (-5 : ℤ) = 1 / 32 by norm_num] at this
    push_cast at this
    linarith
  have hr : roundQ q ≤ (n : ℚ) + 31 / 32 := by
    have := roundQ_le q (32 * n + 31) (-5) hu (by
      rw [show (2 : ℚ) ^ (-5 : ℤ) = 1 / 32 by norm_num]
      push_cast
      linarith)
    rw [show (2 : ℚ) ^ (-5 : ℤ) = 1 / 32 by norm_num] at this
    push_cast at this
    linarith
  rw [round_eq_fin q (by norm_num; linarith) (by norm_num; linarith)]
  unfold F32.floorf pix
  simp only
  congr 2
  rw [Int.floor_eq_iff]
  constructor
  · exact hl
  · linarith

/-- The floor of the binary32 quotient of an integer by a column count is the integer
quotient rounded down. -/
theorem floorf_div_cols (a d : ℤ) (h0 : -524287 ≤ a) (hb : a ≤ 524286)
    (hd1 : 1 ≤ d) (hd2 : d ≤ 24) :
    F32.floorf (pix a / pix d) = pix (a / d) := by
  have hdpos : 0 < d := by omega
  have hdq : (0 : ℚ) < d := by exact_mod_cast hdpos
  have hdq2 : (d : ℚ) ≤ 24 := by exact_mod_cast hd2
  unfold pix
  rw [div_fin _ _ (ne_of_gt hdq)]
  have hmod := Int.emod_add_ediv a d
  have hr0 := Int.emod_nonneg a (ne_of_gt hdpos)
  have hr1 := Int.emod_lt_of_pos a hdpos
  have hmodq : (a : ℚ) = (a % d : ℤ) + d * (a / d : ℤ) := by exact_mod_cast hmod.symm
  have hr0q : (0 : ℚ) ≤ (a % d : ℤ) := by exact_mod_cast hr0
  have hr1q : ((a % d : ℤ) : ℚ) ≤ d - 1 := by
    have : a % d ≤ d - 1 := by omega
    exact_mod_cast this
  have hlo : -524287 ≤ a / d := by
    have : -524287 * d ≤ a := by nlinarith
    exact (Int.le_ediv_iff_mul_le hdpos).mpr this
  have hhi : a / d ≤ 524286 := by
    have : a / d * d ≤ a := Int.ediv_mul_le a (ne_of_gt hdpos)
    nlinarith
  apply floorf_round_signed _ _ hlo hhi
  · rw [le_div_iff₀ hdq, hmodq]
    nlinarith
  · rw [div_le_iff₀ hdq, hmodq]
    nlinarith

/-- On a validated configuration whose gutter is a whole number `g` of pixels with
`|g| <= 20000`, the three locals of `render_bootstrap_grid` are the integers
`container = floor(9 W / 10)`, `colW = floor((container - (n-1) g) / n)` and
`margin = floor((W - container) / 2)`. -/
theorem bootstrap_locals_whole (ctx : design_overlay_data) (hv : Validated ctx) (g : ℤ)
    (hg : ctx.bootstrap_gutter = pix g) (h1 : -20000 ≤ g) (h2 : g ≤ 20000) :
    container_w ctx = pix (9 * (ctx.canvas_width : ℤ) / 10) ∧
    col_w ctx = pix ((9 * (ctx.canvas_width : ℤ) / 10 - (ctx.bootstrap_columns - 1) * g)
      / ctx.bootstrap_columns) ∧
    start_x ctx = pix (((ctx.canvas_width : ℤ) - 9 * (ctx.canvas_width : ℤ) / 10) / 2) := by
  obtain ⟨⟨hW1, hW2⟩, _, _, ⟨hC1, hC2⟩⟩ := hv
  have hW : F32.ofNat ctx.canvas_width = pix (ctx.canvas_width : ℤ) := ofNat_pix _ (by omega)
  have hcw : container_w ctx = pix (9 * (ctx.canvas_width : ℤ) / 10) := by
    unfold container_w
    rw [hW]
    exact container_width ctx.canvas_width hW1 hW2
  have hprod1 : -460000 ≤ (ctx.bootstrap_columns - 1) * g := by nlinarith
  have hprod2 : (ctx.bootstrap_columns - 1) * g ≤ 460000 := by nlinarith
  refine ⟨hcw, ?_, ?_⟩
  · unfold col_w
    rw [hcw, hg, ofInt_pix _ (by omega) (by omega), ofInt_pix _ (by omega) (by omega),
      pix_mul _ _ (by omega) (by omega), pix_sub _ _ (by omega) (by omega)]
    exact floorf_div_cols _ _ (by omega) (by omega) hC1 hC2
  · unfold start_x
    rw [hcw, hW, f32_two, pix_sub _ _ (by omega) (by omega)]
    exact floorf_half_pix _ (by omega) (by omega)

/-- On a validated configuration whose gutter is a whole number of pixels of magnitude at
most `20000`, the columns fit the container. -/
theorem columns_fit_of_whole (ctx : design_overlay_data) (hv : Validated ctx) (g : ℤ)
    (hg : ctx.bootstrap_gutter = pix g) (h1 : -20000 ≤ g) (h2 : g ≤ 20000) :
    columns_fit ctx := by
  obtain ⟨hcw, hcol, hsx⟩ := bootstrap_locals_whole ctx hv g hg h1 h2
  obtain ⟨_, _, _, ⟨hC1, hC2⟩⟩ := hv
  have hpos : 0 < ctx.bootstrap_columns := by omega
  have hmod := Int.emod_add_ediv
    (9 * (ctx.canvas_width : ℤ) / 10 - (ctx.bootstrap_columns - 1) * g) ctx.bootstrap_columns
  have hr0 := Int.emod_nonneg
    (9 * (ctx.canvas_width : ℤ) / 10 - (ctx.bootstrap_columns - 1) * g) (ne_of_gt hpos)
  have hr1 := Int.emod_lt_of_pos
    (9 * (ctx.canvas_width : ℤ) / 10 - (ctx.bootstrap_columns - 1) * g) hpos
  unfold columns_fit columns_fit_within
  rw [hcw, hcol, hsx, hg]
  simp only [pix, add_zero]
  generalize (9 * (ctx.canvas_width : ℤ) / 10 - (ctx.bootstrap_columns - 1) * g)
    / ctx.bootstrap_columns = c at hmod ⊢
  generalize (9 * (ctx.canvas_width : ℤ) / 10 - (ctx.bootstrap_columns - 1) * g)
    % ctx.bootstrap_columns = r at hmod hr0 hr1
  have key1 : ctx.bootstrap_columns * c + (ctx.bootstrap_columns - 1) * g
      ≤ 9 * (ctx.canvas_width : ℤ) / 10 := by linarith
  have key2 : 9 * (ctx.canvas_width : ℤ) / 10
      - (ctx.bootstrap_columns * c + (ctx.bootstrap_columns - 1) * g)
      < ctx.bootstrap_columns := by linarith
  have k1 : (ctx.bootstrap_columns : ℚ) * c + ((ctx.bootstrap_columns : ℚ) - 1) * g
      ≤ ((9 * (ctx.canvas_width : ℤ) / 10 : ℤ) : ℚ) := by exact_mod_cast key1
  have k2 : ((9 * (ctx.canvas_width : ℤ) / 10 : ℤ) : ℚ)
      - ((ctx.bootstrap_columns : ℚ) * c + ((ctx.bootstrap_columns : ℚ) - 1) * g)
      < ctx.bootstrap_columns := by exact_mod_cast key2
  refine ⟨k1, ?_, ?_⟩ <;> linarith

/-- Rounding a rational of magnitude below `2^19` to binary32 moves it by at most
`1/64`. -/
theorem round_near (q : ℚ) (h1 : -524288 < q) (h2 : q < 524288) :
    ∃ r : ℚ, F32.round q = F32.fin r ∧ |r - q| ≤ 1 / 64 := by
  have habs : |q| < (2 : ℚ) ^ ((-5 : ℤ) + 24) := by
    rw [abs_lt]
    norm_num
    constructor <;> linarith
  have hu : ulpExp q ≤ -5 := ulpExp_le q (-5) (by norm_num) habs
  have hpow : (2 : ℚ) ^ ulpExp q ≤ 1 / 32 := by
    have := zpow_le_zpow_right₀ (by norm_num : (1 : ℚ) ≤ 2) hu
    rw [show (2 : ℚ) ^ (-5 : ℤ) = 1 / 32 by norm_num] at this
    exact this
  have herr : |roundQ q - q| ≤ 1 / 64 := le_trans (roundQ_abs_sub_le q) (by linarith)
  have hb := abs_le.mp herr
  refine ⟨roundQ q, round_eq_fin q ?_ ?_, herr⟩
  · norm_num
    linarith [hb.2]
  · norm_num
    linarith [hb.1]

/-- On a validated configuration with a finite gutter `g` of magnitude at most `20000`
the column width is an integer and the columns fit the container to within half a
pixel. -/
theorem columns_fit_within_half (ctx : design_overlay_data) (hv : Validated ctx) (g : ℚ)
    (hg : ctx.bootstrap_gutter = F32.fin g) (h1 : -20000 ≤ g) (h2 : g ≤ 20000) :
    columns_fit_within (1 / 2) ctx := by
  obtain ⟨⟨hW1, hW2⟩, hH, hS, ⟨hC1, hC2⟩⟩ := hv
  have hW : F32.ofNat ctx.canvas_width = pix (ctx.canvas_width : ℤ) := ofNat_pix _ (by omega)
  have hcw : container_w ctx = pix (9 * (ctx.canvas_width : ℤ) / 10) := by
    unfold container_w
    rw [hW]
    exact container_width ctx.canvas_width hW1 hW2
  have hsx : start_x ctx
      = pix (((ctx.canvas_width : ℤ) - 9 * (ctx.canvas_width : ℤ) / 10) / 2) := by
    unfold start_x
    rw [hcw, hW, f32_two, pix_sub _ _ (by omega) (by omega)]
    exact floorf_half_pix _ (by omega) (by omega)
  have hC0 : (0 : ℚ) ≤ ((9 * (ctx.canvas_width : ℤ) / 10 : ℤ) : ℚ) := by
    have : 0 ≤ 9 * (ctx.canvas_width : ℤ) / 10 := by omega
    exact_mod_cast this
  have hC6 : ((9 * (ctx.canvas_width : ℤ) / 10 : ℤ) : ℚ) ≤ 6912 := by
    have : 9 * (ctx.canvas_width : ℤ) / 10 ≤ 6912 := by omega
    exact_mod_cast this
  have hn1 : (1 : ℚ) ≤ (ctx.bootstrap_columns : ℚ) := by exact_mod_cast hC1
  have hn2 : (ctx.bootstrap_columns : ℚ) ≤ 24 := by exact_mod_cast hC2
  have hnpos : (0 : ℚ) < (ctx.bootstrap_columns : ℚ) := by linarith
  -- the product `(cols - 1) * gutter`
  have hm0 : (0 : ℚ) ≤ (ctx.bootstrap_columns : ℚ) - 1 := by linarith
  have hp1 : -460000 ≤ ((ctx.bootstrap_columns : ℚ) - 1) * g := by
    have := mul_le_mul_of_nonneg_left h1 hm0
    linarith
  have hp2 : ((ctx.bootstrap_columns : ℚ) - 1) * g ≤ 460000 := by
    have := mul_le_mul_of_nonneg_left h2 hm0
    linarith
  obtain ⟨t, ht, hterr⟩ := round_near (((ctx.bootstrap_columns : ℚ) - 1) * g)
    (by linarith) (by linarith)
  have hte := abs_le.mp hterr
  -- the difference `container_w - (cols - 1) * gutter`
  obtain ⟨u, hu, huerr⟩ := round_near (((9 * (ctx.canvas_width : ℤ) / 10 : ℤ) : ℚ) + -t)
    (by linarith) (by linarith)
  have hue := abs_le.mp huerr
  -- the quotient by `cols`
  have hq1 : -524288 < u / (ctx.bootstrap_columns : ℚ) := by
    rw [lt_div_iff₀ hnpos]
    linarith
  have hq2 : u / (ctx.bootstrap_columns : ℚ) < 524288 := by
    rw [div_lt_iff₀ hnpos]
    linarith
  obtain ⟨v, hv, hverr⟩ := round_near (u / (ctx.bootstrap_columns : ℚ)) hq1 hq2
  have hve := abs_le.mp hverr
  have hdiv : u / (ctx.bootstrap_columns : ℚ) * (ctx.bootstrap_columns : ℚ) = u :=
    div_mul_cancel₀ u (ne_of_gt hnpos)
  have hcol : col_w ctx = F32.fin ((⌊v⌋ : ℤ) : ℚ) := by
    unfold col_w
    rw [hcw, hg, ofInt_pix _ (by omega) (by omega), ofInt_pix _ (by omega) (by omega)]
    unfold pix
    rw [mul_fin, Int.cast_sub, Int.cast_one, ht, sub_fin, hu, div_fin _ _ (ne_of_gt hnpos), hv]
    rfl
  have hf1 : ((⌊v⌋ : ℤ) : ℚ) ≤ v := Int.floor_le v
  have hf2 : v < ((⌊v⌋ : ℤ) : ℚ) + 1 := Int.lt_floor_add_one v
  -- `cols * col_w` against `u`
  have hup : (ctx.bootstrap_columns : ℚ) * ((⌊v⌋ : ℤ) : ℚ)
      ≤ u + (ctx.bootstrap_columns : ℚ) / 64 := by
    have h : ((⌊v⌋ : ℤ) : ℚ) ≤ u / (ctx.bootstrap_columns : ℚ) + 1 / 64 := by linarith
    have := mul_le_mul_of_nonneg_left h hnpos.le
    rw [mul_add, mul_comm (ctx.bootstrap_columns : ℚ) (u / (ctx.bootstrap_columns : ℚ)),
      hdiv] at this
    linarith
  have hlo : u - (ctx.bootstrap_columns : ℚ) / 64 - (ctx.bootstrap_columns : ℚ)
      < (ctx.bootstrap_columns : ℚ) * ((⌊v⌋ : ℤ) : ℚ) := by
    have h : u / (ctx.bootstrap_columns : ℚ) - 1 / 64 - 1 < ((⌊v⌋ : ℤ) : ℚ) := by linarith
    have := mul_lt_mul_of_pos_left h hnpos
    rw [mul_sub, mul_sub, mul_comm (ctx.bootstrap_columns : ℚ) (u / (ctx.bootstrap_columns : ℚ)),
      hdiv] at this
    linarith
  unfold columns_fit_within
  rw [hcw, hcol, hsx, hg]
  simp only [pix]
  refine ⟨?_, ?_, ?_⟩ <;> linarith

theorem fractional_gutter_state :
    (design_overlay_update zeroState fractionalGutterSettings).canvas_width = 1920 ∧
    (design_overlay_update zeroState fractionalGutterSettings).bootstrap_columns = 2 ∧
    (design_overlay_update zeroState fractionalGutterSettings).bootstrap_gutter
      = F32.fin (-16383999 / 1024) ∧
    container_w (design_overlay_update zeroState fractionalGutterSettings) = pix 1728 ∧
    col_w (design_overlay_update zeroState fractionalGutterSettings) = pix 8864 ∧
    start_x (design_overlay_update zeroState fractionalGutterSettings) = pix 96 := by
  decide!

/-- C21, as stated, fails: with the default canvas width `1920`, two columns and the
fractional gutter `-(16000 - 1/1024)` the update stores exactly these values, the
container is `1728` wide, and `1728 - g = 17728 - 1/1024` rounds to `17728` in binary32,
so `col_w = 8864`.  Then `2 * col_w + g = 1728 + 1/1024` exceeds the container, on the
exact values and also when the sum is evaluated in binary32. -/
theorem columns_overrun_fractional_gutter :
    (design_overlay_update zeroState fractionalGutterSettings).canvas_width = 1920 ∧
    (design_overlay_update zeroState fractionalGutterSettings).bootstrap_columns = 2 ∧
    (design_overlay_update zeroState fractionalGutterSettings).bootstrap_gutter
      = F32.fin (-16383999 / 1024) ∧
    container_w (design_overlay_update zeroState fractionalGutterSettings) = F32.fin 1728 ∧
    col_w (design_overlay_update zeroState fractionalGutterSettings) = F32.fin 8864 ∧
    (1728 : ℚ) < 2 * 8864 + (2 - 1) * (-16383999 / 1024) ∧
    F32.lt (container_w (design_overlay_update zeroState fractionalGutterSettings))
      (F32.ofInt 2 * col_w (design_overlay_update zeroState fractionalGutterSettings)
        + F32.ofInt (2 - 1)
          * (design_overlay_update zeroState fractionalGutterSettings).bootstrap_gutter)
      = true ∧
    ¬ columns_fit (design_overlay_update zeroState fractionalGutterSettings) := by
  obtain ⟨hW, hn, hg, hc, hw, hs⟩ := fractional_gutter_state
  refine ⟨hW, hn, hg, ?_, ?_, by norm_num, by decide!, ?_⟩
  · rw [hc]
    decide!
  · rw [hw]
    decide!
  · unfold columns_fit columns_fit_within
    rw [hc, hw, hs, hg, hn]
    simp only [pix]
    norm_num

/-- C21, amended: for every configuration produced by `design_overlay_update` whose
gutter `g` is finite with `-20000 <= g <= 20000`, the columns fit the container to within
half a pixel, the tolerance covering the rounding of the three binary32 operations behind
`col_w`: `n*colW + (n-1)*g <= container + 1/2`, the right edge of the last column is at
most half a pixel beyond the right boundary `margin + container`, and falls short of it by
less than `n + 1/2`.  When `g` is moreover a whole number of pixels, the column width is
the integer `floor((container - (n-1)*g) / n)` with `container = floor(9 W / 10)` and the
claim holds exactly: `n*colW + (n-1)*g <= container`, and the shortfall is less than
`n`. -/
theorem columns_fit_bounded_gutter (ctx : design_overlay_data) (settings : obs_data_t)
    (g : ℚ) (hg : (design_overlay_update ctx settings).bootstrap_gutter = F32.fin g)
    (h1 : -20000 ≤ g) (h2 : g ≤ 20000) :
    columns_fit_within (1 / 2) (design_overlay_update ctx settings) ∧
    ∀ k : ℤ, g = (k : ℚ) →
      col_w (design_overlay_update ctx settings)
        = pix ((9 * ((design_overlay_update ctx settings).canvas_width : ℤ) / 10
            - ((design_overlay_update ctx settings).bootstrap_columns - 1) * k)
          / (design_overlay_update ctx settings).bootstrap_columns) ∧
      columns_fit (design_overlay_update ctx settings) := by
  refine ⟨columns_fit_within_half _ (update_validated ctx settings) g hg h1 h2, ?_⟩
  intro k hk
  subst hk
  have hk1 : -20000 ≤ k := by exact_mod_cast h1
  have hk2 : k ≤ 20000 := by exact_mod_cast h2
  exact ⟨(bootstrap_locals_whole _ (update_validated ctx settings) k hg hk1 hk2).2.1,
    columns_fit_of_whole _ (update_validated ctx settings) k hg hk1 hk2⟩

theorem columns_fit_bounded_gutter_witness :
    (design_overlay_update zeroState defaultSettings).bootstrap_gutter = F32.fin 30 ∧
    (design_overlay_update zeroState defaultSettings).canvas_width = 1920 ∧
    (design_overlay_update zeroState defaultSettings).bootstrap_columns = 12 ∧
    columns_fit_within (1 / 2) (design_overlay_update zeroState defaultSettings) ∧
    col_w (design_overlay_update zeroState defaultSettings) = pix 116 ∧
    columns_fit (design_overlay_update zeroState defaultSettings) :=
  have h := columns_fit_bounded_gutter zeroState defaultSettings 30 (by decide!)
    (by norm_num) (by norm_num)
  ⟨by decide!, by decide!, by decide!, h.1, ((h.2 30 (by norm_num)).1).trans (by decide!),
    (h.2 30 (by norm_num)).2⟩

/-! ## The alignment grid in exact arithmetic -/

/-- The exact column width for a whole-number gutter is an integer quotient. -/
theorem spec_col_w_whole (container n k : ℤ) (hn : 1 ≤ n) :
    spec_col_w container n (k : ℚ) = (container - (n - 1) * k) / n := by
  have hnpos : 0 < n := by omega
  have hnq : (0 : ℚ) < n := by exact_mod_cast hnpos
  have hmod := Int.emod_add_ediv (container - (n - 1) * k) n
  have hr0 := Int.emod_nonneg (container - (n - 1) * k) (ne_of_gt hnpos)
  have hr1 := Int.emod_lt_of_pos (container - (n - 1) * k) hnpos
  unfold spec_col_w
  rw [Int.floor_eq_iff]
  generalize (container - (n - 1) * k) / n = c at hmod ⊢
  generalize (container - (n - 1) * k) % n = r at hmod hr0 hr1
  have hm : (container : ℚ) - ((n : ℚ) - 1) * k = r + n * c := by
    have : container - (n - 1) * k = r + n * c := hmod.symm
    exact_mod_cast this
  have hr0q : (0 : ℚ) ≤ r := by exact_mod_cast hr0
  have hr1q : (r : ℚ) < n := by exact_mod_cast hr1
  rw [hm]
  constructor
  · rw [le_div_iff₀ hnq]
    linarith
  · rw [div_lt_iff₀ hnq]
    linarith

/-- Bounds on a product with a loop index of the divider loop. -/
theorem index_mul_bounds (a x B : ℤ) (ha0 : 0 ≤ a) (ha : a ≤ 23) (hx1 : -B ≤ x) (hx2 : x ≤ B) :
    -(23 * B) ≤ a * x ∧ a * x ≤ 23 * B := by
  constructor <;> nlinarith

/-- Bounds on an integer quotient by a positive divisor. -/
theorem ediv_bounds (a d B : ℤ) (hd : 1 ≤ d) (hB : 0 ≤ B) (h1 : -B ≤ a) (h2 : a ≤ B) :
    -B ≤ a / d ∧ a / d ≤ B := by
  have hdpos : 0 < d := by omega
  constructor
  · have : -B * d ≤ a := by nlinarith
    exact (Int.le_ediv_iff_mul_le hdpos).mpr this
  · have : a / d * d ≤ a := Int.ediv_mul_le a (ne_of_gt hdpos)
    nlinarith

/-- On a validated configuration whose gutter is a whole number `k` of pixels with
`|k| <= 20000`, the draw calls of the code are those of the specification in exact
arithmetic. -/
theorem bootstrap_segments_whole (ctx : design_overlay_data) (hv : Validated ctx) (k : ℤ)
    (hg : ctx.bootstrap_gutter = pix k) (h1 : -20000 ≤ k) (h2 : k ≤ 20000) :
    bootstrap_segments ctx = spec_bootstrap_exact ctx (k : ℚ) := by
  obtain ⟨⟨hW1, hW2⟩, _, _, ⟨hC1, hC2⟩⟩ := hv
  obtain ⟨p1, p2⟩ := index_mul_bounds (ctx.bootstrap_columns - 1) k 20000 (by omega) (by omega)
    h1 h2
  obtain ⟨c1, c2⟩ := ediv_bounds
    (9 * (ctx.canvas_width : ℤ) / 10 - (ctx.bootstrap_columns - 1) * k) ctx.bootstrap_columns
    466912 hC1 (by norm_num) (by omega) (by omega)
  have hcol : F32.floorf ((pix (9 * (ctx.canvas_width : ℤ) / 10)
        - pix (ctx.bootstrap_columns - 1) * pix k) / pix ctx.bootstrap_columns)
      = pix ((9 * (ctx.canvas_width : ℤ) / 10 - (ctx.bootstrap_columns - 1) * k)
          / ctx.bootstrap_columns) := by
    rw [pix_mul _ _ (by omega) (by omega), pix_sub _ _ (by omega) (by omega)]
    exact floorf_div_cols _ _ (by omega) (by omega) hC1 hC2
  unfold bootstrap_segments spec_bootstrap_exact
  simp only
  rw [hg, hcol, spec_col_w_whole _ _ _ hC1]
  congr 1
  apply List.map_congr_left
  intro i hi
  have hi2 : (i : ℤ) + 1 ≤ 23 := by
    have := List.mem_range.mp hi
    omega
  generalize (9 * (ctx.canvas_width : ℤ) / 10 - (ctx.bootstrap_columns - 1) * k)
    / ctx.bootstrap_columns = c at c1 c2 ⊢
  obtain ⟨q1, q2⟩ := index_mul_bounds ((i : ℤ) + 1) (c + k) 486912 (by omega) hi2 (by omega)
    (by omega)
  have hx : pix (((ctx.canvas_width : ℤ) - 9 * (ctx.canvas_width : ℤ) / 10) / 2)
        + pix ((i : ℤ) + 1) * (pix c + pix k)
      = F32.fin (((((ctx.canvas_width : ℤ) - 9 * (ctx.canvas_width : ℤ) / 10) / 2 : ℤ) : ℚ)
          + ((i : ℚ) + 1) * ((c : ℚ) + (k : ℚ))) := by
    rw [pix_add c k (by omega) (by omega), pix_mul _ _ (by omega) (by omega),
      pix_add _ _ (by omega) (by omega)]
    unfold pix
    congr 1
    push_cast
    ring
  rw [hx]

theorem near_thirty_gutter_state :
    (design_overlay_update zeroState nearThirtyGutterSettings).canvas_width = 1920 ∧
    (design_overlay_update zeroState nearThirtyGutterSettings).canvas_height = 1080 ∧
    (design_overlay_update zeroState nearThirtyGutterSettings).bootstrap_columns = 2 ∧
    (design_overlay_update zeroState nearThirtyGutterSettings).bootstrap_gutter
      = F32.fin (15728641 / 524288) ∧
    container_w (design_overlay_update zeroState nearThirtyGutterSettings) = pix 1728 ∧
    col_w (design_overlay_update zeroState nearThirtyGutterSettings) = pix 849 ∧
    start_x (design_overlay_update zeroState nearThirtyGutterSettings) = pix 96 ∧
    spec_col_w 1728 2 (15728641 / 524288) = 848 := by
  decide!

/-- C14, as stated, fails.  With the default canvas width `1920` (container `1728`, margin
`96`), two columns and the gutter `30 + 2^-19`, `floor((1728 - g) / 2) = 848`, but in
binary32 `1728 - g` rounds to `1698`, so the code has `col_w = 849`; its one divider is
drawn at `x = 975`, while `margin + 1 * (colW + g)` is `974 + 2^-19` with the exact column
width.  The draw calls are not those of the specification in exact arithmetic. -/
theorem column_width_not_exact_floor :
    (design_overlay_update zeroState nearThirtyGutterSettings).canvas_width = 1920 ∧
    (design_overlay_update zeroState nearThirtyGutterSettings).bootstrap_columns = 2 ∧
    (design_overlay_update zeroState nearThirtyGutterSettings).bootstrap_gutter
      = F32.fin (15728641 / 524288) ∧
    container_w (design_overlay_update zeroState nearThirtyGutterSettings) = pix 1728 ∧
    col_w (design_overlay_update zeroState nearThirtyGutterSettings) = pix 849 ∧
    spec_col_w 1728 2 (15728641 / 524288) = 848 ∧
    (render_bootstrap_grid (design_overlay_update zeroState nearThirtyGutterSettings)
        true true).map DrawCmd.x1 = [pix 96, pix 1824, pix 975] ∧
    (spec_bootstrap_exact (design_overlay_update zeroState nearThirtyGutterSettings)
        (15728641 / 524288)).map DrawCmd.x1
      = [pix 96, pix 1824, F32.fin (974 + 1 / 524288)] ∧
    render_bootstrap_grid (design_overlay_update zeroState nearThirtyGutterSettings) true true
      ≠ spec_bootstrap_exact (design_overlay_update zeroState nearThirtyGutterSettings)
          (15728641 / 524288) := by
  obtain ⟨hW, hH, hn, hg, hc, hw, hs, he⟩ := near_thirty_gutter_state
  have h1 : (render_bootstrap_grid (design_overlay_update zeroState nearThirtyGutterSettings)
      true true).map DrawCmd.x1 = [pix 96, pix 1824, pix 975] := by
    rw [bootstrap_grid_spec _ (update_validated zeroState nearThirtyGutterSettings)]
    unfold bootstrap_segments
    rw [hW, hH, hn, hg]
    decide!
  have h2 : (spec_bootstrap_exact (design_overlay_update zeroState nearThirtyGutterSettings)
      (15728641 / 524288)).map DrawCmd.x1
      = [pix 96, pix 1824, F32.fin (974 + 1 / 524288)] := by
    unfold spec_bootstrap_exact
    rw [hW, hH, hn]
    decide!
  refine ⟨hW, hn, hg, hc, hw, he, h1, h2, ?_⟩
  intro h
  rw [h, h2] at h1
  revert h1
  decide!

/-- C14, amended: on a validated configuration with canvas width `W`, column count `n` and
gutter `g`, `render_bootstrap_grid` makes exactly `n + 1` draw calls, all full-height
vertical segments in the fixed pink: with `container = floor(9 W / 10)` (the value of
`floorf((float)W * 0.9f)`) and `margin = floor((W - container) / 2)`, first the boundary
lines at `x = margin` and `x = margin + container` at half the grid opacity, then the
`n - 1` dividers at full grid opacity.  When `g` is a whole number of pixels with
`-20000 <= g <= 20000`, `colW = floor((container - (n-1)*g) / n)` and divider `i` is at
`x = margin + i * (colW + g)` exactly.  For any other gutter the column width and the
divider positions are the binary32 values of these expressions, every operation rounded to
the nearest binary32 value. -/
theorem render_bootstrap_grid_rounded (ctx : design_overlay_data) (hv : Validated ctx) :
    ((render_bootstrap_grid ctx true true).length : ℤ) = ctx.bootstrap_columns + 1 ∧
    (∀ c ∈ render_bootstrap_grid ctx true true,
      c.color = COLOR_BOOTSTRAP_PINK ∧ c.x1 = c.x2 ∧ c.y1 = pix 0 ∧
        c.y2 = pix (ctx.canvas_height : ℤ)) ∧
    container_w ctx = pix (9 * (ctx.canvas_width : ℤ) / 10) ∧
    start_x ctx = pix (((ctx.canvas_width : ℤ) - 9 * (ctx.canvas_width : ℤ) / 10) / 2) ∧
    (render_bootstrap_grid ctx true true).take 2 =
      [ seg (((ctx.canvas_width : ℤ) - 9 * (ctx.canvas_width : ℤ) / 10) / 2) 0
          (((ctx.canvas_width : ℤ) - 9 * (ctx.canvas_width : ℤ) / 10) / 2)
          ctx.canvas_height COLOR_BOOTSTRAP_PINK (ctx.grid_opacity * f32 (1 / 2)),
        seg (((ctx.canvas_width : ℤ) - 9 * (ctx.canvas_width : ℤ) / 10) / 2
            + 9 * (ctx.canvas_width : ℤ) / 10) 0
          (((ctx.canvas_width : ℤ) - 9 * (ctx.canvas_width : ℤ) / 10) / 2
            + 9 * (ctx.canvas_width : ℤ) / 10)
          ctx.canvas_height COLOR_BOOTSTRAP_PINK (ctx.grid_opacity * f32 (1 / 2)) ] ∧
    (∀ c ∈ (render_bootstrap_grid ctx true true).drop 2, c.opacity = ctx.grid_opacity) ∧
    (∀ k : ℤ, ctx.bootstrap_gutter = pix k → -20000 ≤ k → k ≤ 20000 →
      col_w ctx = pix (spec_col_w (9 * (ctx.canvas_width : ℤ) / 10) ctx.bootstrap_columns k) ∧
      render_bootstrap_grid ctx true true = spec_bootstrap_exact ctx k) ∧
    render_bootstrap_grid ctx true true = bootstrap_segments ctx := by
  have key := bootstrap_grid_spec ctx hv
  have hv2 := hv
  obtain ⟨⟨hW1, hW2⟩, _, _, ⟨hC1, hC2⟩⟩ := hv
  have hW : F32.ofNat ctx.canvas_width = pix (ctx.canvas_width : ℤ) := ofNat_pix _ (by omega)
  have hcw : container_w ctx = pix (9 * (ctx.canvas_width : ℤ) / 10) := by
    unfold container_w
    rw [hW]
    exact container_width ctx.canvas_width hW1 hW2
  have hsx : start_x ctx
      = pix (((ctx.canvas_width : ℤ) - 9 * (ctx.canvas_width : ℤ) / 10) / 2) := by
    unfold start_x
    rw [hcw, hW, f32_two, pix_sub _ _ (by omega) (by omega)]
    exact floorf_half_pix _ (by omega) (by omega)
  refine ⟨?_, ?_, hcw, hsx, ?_, ?_, ?_, key⟩
  · rw [key]
    simp only [bootstrap_segments, List.length_append, List.length_cons, List.length_nil,
      List.length_map, List.length_range]
    omega
  · rw [key]
    intro c hc
    simp only [bootstrap_segments, List.mem_append, List.mem_cons, List.mem_singleton,
      List.not_mem_nil, or_false, List.mem_map, List.mem_range] at hc
    rcases hc with (h | h) | ⟨i, _, h⟩
    · subst h
      exact ⟨rfl, rfl, rfl, rfl⟩
    · subst h
      exact ⟨rfl, rfl, rfl, rfl⟩
    · subst h
      exact ⟨rfl, rfl, rfl, rfl⟩
  · rw [key]
    rfl
  · rw [key]
    intro c hc
    have hd : (bootstrap_segments ctx).drop 2
        = (List.range (ctx.bootstrap_columns - 1).toNat).map (fun (i : ℕ) =>
          (⟨pix (((ctx.canvas_width : ℤ) - 9 * (ctx.canvas_width : ℤ) / 10) / 2)
              + pix ((i : ℤ) + 1)
                * (F32.floorf ((pix (9 * (ctx.canvas_width : ℤ) / 10)
                    - pix (ctx.bootstrap_columns - 1) * ctx.bootstrap_gutter)
                    / pix ctx.bootstrap_columns) + ctx.bootstrap_gutter), pix 0,
            pix (((ctx.canvas_width : ℤ) - 9 * (ctx.canvas_width : ℤ) / 10) / 2)
              + pix ((i : ℤ) + 1)
                * (F32.floorf ((pix (9 * (ctx.canvas_width : ℤ) / 10)
                    - pix (ctx.bootstrap_columns - 1) * ctx.bootstrap_gutter)
                    / pix ctx.bootstrap_columns) + ctx.bootstrap_gutter),
            pix (ctx.canvas_height : ℤ), COLOR_BOOTSTRAP_PINK, ctx.grid_opacity⟩ : DrawCmd)) :=
      rfl
    rw [hd] at hc
    obtain ⟨i, _, h⟩ := List.mem_map.mp hc
    subst h
    rfl
  · intro k hg h1 h2
    refine ⟨?_, ?_⟩
    · rw [spec_col_w_whole _ _ _ hC1]
      exact (bootstrap_locals_whole ctx hv2 k hg h1 h2).2.1
    · rw [key]
      exact bootstrap_segments_whole ctx hv2 k hg h1 h2

theorem render_bootstrap_grid_rounded_witness :
    Validated bootstrapOnly ∧
    bootstrapOnly.canvas_width = 1920 ∧ bootstrapOnly.bootstrap_columns = 12 ∧
    bootstrapOnly.bootstrap_gutter = pix 30 ∧
    col_w bootstrapOnly = pix 116 ∧
    render_bootstrap_grid bootstrapOnly true true =
      [ seg 96 0 96 1080 COLOR_BOOTSTRAP_PINK (bootstrapOnly.grid_opacity * f32 (1 / 2)),
        seg 1824 0 1824 1080 COLOR_BOOTSTRAP_PINK (bootstrapOnly.grid_opacity * f32 (1 / 2)),
        seg 242 0 242 1080 COLOR_BOOTSTRAP_PINK bootstrapOnly.grid_opacity,
        seg 388 0 388 1080 COLOR_BOOTSTRAP_PINK bootstrapOnly.grid_opacity,
        seg 534 0 534 1080 COLOR_BOOTSTRAP_PINK bootstrapOnly.grid_opacity,
        seg 680 0 680 1080 COLOR_BOOTSTRAP_PINK bootstrapOnly.grid_opacity,
        seg 826 0 826 1080 COLOR_BOOTSTRAP_PINK bootstrapOnly.grid_opacity,
        seg 972 0 972 1080 COLOR_BOOTSTRAP_PINK bootstrapOnly.grid_opacity,
        seg 1118 0 1118 1080 COLOR_BOOTSTRAP_PINK bootstrapOnly.grid_opacity,
        seg 1264 0 1264 1080 COLOR_BOOTSTRAP_PINK bootstrapOnly.grid_opacity,
        seg 1410 0 1410 1080 COLOR_BOOTSTRAP_PINK bootstrapOnly.grid_opacity,
        seg 1556 0 1556 1080 COLOR_BOOTSTRAP_PINK bootstrapOnly.grid_opacity,
        seg 1702 0 1702 1080 COLOR_BOOTSTRAP_PINK bootstrapOnly.grid_opacity ] :=
  have h := (render_bootstrap_grid_rounded bootstrapOnly validated_bootstrapOnly).2.2.2.2.2.2.1
    30 rfl (by norm_num) (by norm_num)
  ⟨validated_bootstrapOnly, rfl, rfl, rfl, h.1.trans (by decide!), h.2.trans (by decide!)⟩

/-! ## The safe rectangle inside the canvas -/

/-- The four edges drawn by `render_safe_zones` in terms of its locals. -/
theorem render_safe_zones_edges (ctx : design_overlay_data) :
    (render_safe_zones ctx true true).take 4 =
      [ ⟨margin_x ctx, margin_y ctx, margin_x ctx + safe_w ctx, margin_y ctx,
          (safe_zone_select ctx).2, ctx.safe_zone_opacity⟩,
        ⟨margin_x ctx + safe_w ctx, margin_y ctx, margin_x ctx + safe_w ctx,
          margin_y ctx + safe_h ctx, (safe_zone_select ctx).2, ctx.safe_zone_opacity⟩,
        ⟨margin_x ctx + safe_w ctx, margin_y ctx + safe_h ctx, margin_x ctx,
          margin_y ctx + safe_h ctx, (safe_zone_select ctx).2, ctx.safe_zone_opacity⟩,
        ⟨margin_x ctx, margin_y ctx + safe_h ctx, margin_x ctx, margin_y ctx,
          (safe_zone_select ctx).2, ctx.safe_zone_opacity⟩ ] :=
  rfl

/-- On a validated configuration the locals of `render_safe_zones` are integers that form
a rectangle inside the canvas, centred to within one pixel. -/
theorem safe_rectangle_of_validated (ctx : design_overlay_data) (hv : Validated ctx) :
    ∃ sw sh mx my : ℤ,
      safe_w ctx = pix sw ∧ safe_h ctx = pix sh ∧
      margin_x ctx = pix mx ∧ margin_y ctx = pix my ∧
      margin_x ctx + safe_w ctx = pix (mx + sw) ∧ margin_y ctx + safe_h ctx = pix (my + sh) ∧
      safe_rectangle_centred ctx.canvas_width ctx.canvas_height sw sh mx my := by
  obtain ⟨⟨hW1, hW2⟩, ⟨hH1, hH2⟩, _, _⟩ := hv
  have hW : F32.ofNat ctx.canvas_width = pix (ctx.canvas_width : ℤ) := ofNat_pix _ (by omega)
  have hH : F32.ofNat ctx.canvas_height = pix (ctx.canvas_height : ℤ) := ofNat_pix _ (by omega)
  obtain ⟨hsw, hsw0, hsw1⟩ := safe_extent_spec ctx ctx.canvas_width hW2
  obtain ⟨hsh, hsh0, hsh1⟩ := safe_extent_spec ctx ctx.canvas_height (by omega)
  have h1 : safe_w ctx = pix (safe_extent ctx ctx.canvas_width) := by
    unfold safe_w
    rw [hW]
    exact hsw
  have h2 : safe_h ctx = pix (safe_extent ctx ctx.canvas_height) := by
    unfold safe_h
    rw [hH]
    exact hsh
  have h3 : margin_x ctx
      = pix (((ctx.canvas_width : ℤ) - safe_extent ctx ctx.canvas_width) / 2) := by
    unfold margin_x
    rw [h1, hW, f32_two, pix_sub _ _ (by omega) (by omega)]
    exact floorf_half_pix _ (by omega) (by omega)
  have h4 : margin_y ctx
      = pix (((ctx.canvas_height : ℤ) - safe_extent ctx ctx.canvas_height) / 2) := by
    unfold margin_y
    rw [h2, hH, f32_two, pix_sub _ _ (by omega) (by omega)]
    exact floorf_half_pix _ (by omega) (by omega)
  refine ⟨_, _, _, _, h1, h2, h3, h4, ?_, ?_, ?_⟩
  · rw [h3, h1]
    exact pix_add _ _ (by omega) (by omega)
  · rw [h4, h2]
    exact pix_add _ _ (by omega) (by omega)
  · unfold safe_rectangle_centred
    omega

/-- C22: for every configuration produced by `design_overlay_update`, with every
safe-zone type and every custom percent (also NaN or infinite) put in its place, the locals
`safe_w`, `safe_h`, `margin_x`, `margin_y` of `render_safe_zones` are integers, the
corners `margin_x + safe_w` and `margin_y + safe_h` are computed exactly, and the safe
rectangle lies inside the canvas and is centred to within one pixel:
`0 <= margin_x`, `margin_x + safe_w <= canvas_width`, `0 <= margin_y`,
`margin_y + safe_h <= canvas_height`, and the right margin
`canvas_width - safe_w - margin_x` exceeds the left margin `margin_x` by 0 or 1, likewise
the bottom margin the top margin. -/
theorem safe_rectangle_inside_canvas (ctx : design_overlay_data) (settings : obs_data_t)
    (zone : ℤ) (percent : F32) :
    ∃ sw sh mx my : ℤ,
      safe_w (with_safe_zone (design_overlay_update ctx settings) zone percent) = pix sw ∧
      safe_h (with_safe_zone (design_overlay_update ctx settings) zone percent) = pix sh ∧
      margin_x (with_safe_zone (design_overlay_update ctx settings) zone percent) = pix mx ∧
      margin_y (with_safe_zone (design_overlay_update ctx settings) zone percent) = pix my ∧
      margin_x (with_safe_zone (design_overlay_update ctx settings) zone percent)
        + safe_w (with_safe_zone (design_overlay_update ctx settings) zone percent)
        = pix (mx + sw) ∧
      margin_y (with_safe_zone (design_overlay_update ctx settings) zone percent)
        + safe_h (with_safe_zone (design_overlay_update ctx settings) zone percent)
        = pix (my + sh) ∧
      (0 ≤ mx ∧ mx + sw ≤ (design_overlay_update ctx settings).canvas_width) ∧
      (0 ≤ my ∧ my + sh ≤ (design_overlay_update ctx settings).canvas_height) ∧
      ((design_overlay_update ctx settings).canvas_width - sw - mx = mx ∨
        (design_overlay_update ctx settings).canvas_width - sw - mx = mx + 1) ∧
      ((design_overlay_update ctx settings).canvas_height - sh - my = my ∨
        (design_overlay_update ctx settings).canvas_height - sh - my = my + 1) := by
  have hv : Validated (with_safe_zone (design_overlay_update ctx settings) zone percent) :=
    update_validated ctx settings
  obtain ⟨sw, sh, mx, my, h1, h2, h3, h4, h5, h6, h7⟩ := safe_rectangle_of_validated _ hv
  exact ⟨sw, sh, mx, my, h1, h2, h3, h4, h5, h6, h7⟩

/-! ## The tools colour -/

/-- Replacing the stored tools colour leaves the draw calls of a frame unchanged. -/
theorem render_ignores_crosshair_color (host : Host) (ctx : design_overlay_data) (color : ℕ) :
    (design_overlay_video_render host { ctx with crosshair_color := color }).2
      = (design_overlay_video_render host ctx).2 := by
  rcases host with ⟨a, b, c⟩
  cases he : ctx.enabled <;> cases a <;> cases b <;> cases c <;>
    simp [design_overlay_video_render, he]
  rfl

theorem update_setValue_crosshair_color (ctx : design_overlay_data) (settings : obs_data_t)
    (v : Value) :
    design_overlay_update ctx (setValue settings "crosshair_color" v)
      = { design_overlay_update ctx settings with
          crosshair_color :=
            toUInt32 (obs_data_get_int (setValue settings "crosshair_color" v)
              "crosshair_color") } := by
  simp [design_overlay_update, obs_data_get_bool, obs_data_get_int, obs_data_get_double,
    setValue]

/-- C23: the configured tools colour has no effect on the output.  Two configurations
that differ only in `crosshair_color` give the same sequence of draw calls (end points,
colours and opacities) in `design_overlay_video_render`, on every host; in particular
the draw calls after `design_overlay_update` do not depend on the value stored under the
key `crosshair_color`, although the update stores it. -/
theorem crosshair_color_no_effect (host : Host) (ctx : design_overlay_data) (color : ℕ)
    (settings : obs_data_t) (v : Value) :
    (design_overlay_video_render host { ctx with crosshair_color := color }).2
      = (design_overlay_video_render host ctx).2 ∧
    (design_overlay_update ctx (setValue settings "crosshair_color" v)).crosshair_color
      = toUInt32 (obs_data_get_int (setValue settings "crosshair_color" v) "crosshair_color") ∧
    (design_overlay_video_render host
        (design_overlay_update ctx (setValue settings "crosshair_color" v))).2
      = (design_overlay_video_render host (design_overlay_update ctx settings)).2 := by
  refine ⟨render_ignores_crosshair_color host ctx color, rfl, ?_⟩
  rw [update_setValue_crosshair_color]
  exact render_ignores_crosshair_color host _ _

/-! ## Number of draw calls of a frame -/

theorem center_guides_length (ctx : design_overlay_data) :
    (render_center_guides ctx true true).length = 2 := rfl

theorem rule_of_thirds_length (ctx : design_overlay_data) :
    (render_rule_of_thirds ctx true true).length = 12 := rfl

theorem safe_zones_length (ctx : design_overlay_data) :
    (render_safe_zones ctx true true).length = 12 := rfl

theorem crosshair_length (ctx : design_overlay_data) :
    (render_crosshair ctx true true).length = 8 := rfl

theorem branding_length (ctx : design_overlay_data) :
    (render_branding ctx true true).length = if ctx.show_branding then 5 else 0 := by
  cases h : ctx.show_branding <;> simp [render_branding, h, draw_simple_line]

theorem bootstrap_grid_length (ctx : design_overlay_data) (hv : Validated ctx) :
    (render_bootstrap_grid ctx true true).length = ctx.bootstrap_columns.toNat + 1 := by
  rw [bootstrap_grid_spec ctx hv]
  obtain ⟨_, _, _, ⟨hC1, hC2⟩⟩ := hv
  simp only [bootstrap_segments, List.length_append, List.length_cons, List.length_nil,
    List.length_map, List.length_range]
  omega

/-- The number of draw calls of a frame on a validated configuration. -/
theorem frame_length (host : Host) (ctx : design_overlay_data) (hv : Validated ctx) :
    (design_overlay_video_render host ctx).2.length =
      if ctx.enabled = true ∧ host.solid_effect = true ∧ host.color_param = true ∧
          host.tech = true then spec_frame_count ctx
      else 0 := by
  rcases host with ⟨a, b, c⟩
  cases he : ctx.enabled <;> cases a <;> cases b <;> cases c <;>
    simp [design_overlay_video_render, he]
  unfold spec_frame_count
  simp only [apply_ite List.length, List.length_nil, center_guides_length,
    rule_of_thirds_length, material_grid_length ctx hv, bootstrap_grid_length ctx hv,
    safe_zones_length, crosshair_length, branding_length]
  cases ctx.show_branding <;> simp <;> omega

/-- The count of the specification is at most 3066 on a validated configuration. -/
theorem spec_frame_count_le (ctx : design_overlay_data) (hv : Validated ctx) :
    spec_frame_count ctx ≤ 3066 := by
  obtain ⟨⟨_, hW⟩, ⟨_, hH⟩, ⟨hs1, _⟩, ⟨hC1, hC2⟩⟩ := hv
  have hg : 4 ≤ ctx.material_grid_size.toNat := by omega
  have h1 : ctx.canvas_width / ctx.material_grid_size.toNat ≤ ctx.canvas_width / 4 :=
    Nat.div_le_div_left hg (by norm_num)
  have h2 : ctx.canvas_height / ctx.material_grid_size.toNat ≤ ctx.canvas_height / 4 :=
    Nat.div_le_div_left hg (by norm_num)
  have hn : ctx.bootstrap_columns.toNat ≤ 24 := by omega
  unfold spec_frame_count
  split_ifs <;> omega

theorem full_state :
    (design_overlay_update zeroState fullSettings).enabled = true ∧
    (design_overlay_update zeroState fullSettings).show_center_guides = true ∧
    (design_overlay_update zeroState fullSettings).show_rule_of_thirds = true ∧
    (design_overlay_update zeroState fullSettings).show_material_grid = true ∧
    (design_overlay_update zeroState fullSettings).show_bootstrap_grid = true ∧
    (design_overlay_update zeroState fullSettings).show_safe_zones = true ∧
    (design_overlay_update zeroState fullSettings).show_crosshair = true ∧
    (design_overlay_update zeroState fullSettings).show_branding = true ∧
    (design_overlay_update zeroState fullSettings).canvas_width = 7680 ∧
    (design_overlay_update zeroState fullSettings).canvas_height = 4320 ∧
    (design_overlay_update zeroState fullSettings).material_grid_size = 4 ∧
    (design_overlay_update zeroState fullSettings).bootstrap_columns = 24 := by
  decide!

theorem full_state_count :
    spec_frame_count (design_overlay_update zeroState fullSettings) = 3066 := by
  decide!

/-- C24: for every configuration produced by `design_overlay_update` and every host, one
call of `design_overlay_video_render` returns (the embedding is a total function, its two
loops being defined by well-founded recursion) and makes at most 3066 draw calls: 2 for
the center guides, 12 for the rule of thirds, at most 3002 for the material grid, at most
25 for the alignment grid, 12 for the safe zones, 8 for the crosshair and at most 5 for the
branding.  The bound is attained on canvas 7680x4320 with grid size 4, 24 columns and
every toggle set. -/
theorem frame_segment_bound (host : Host) (ctx : design_overlay_data)
    (settings : obs_data_t) :
    (design_overlay_video_render host (design_overlay_update ctx settings)).2.length ≤ 3066 ∧
    ((render_center_guides (design_overlay_update ctx settings) true true).length = 2 ∧
      (render_rule_of_thirds (design_overlay_update ctx settings) true true).length = 12 ∧
      (render_material_grid (design_overlay_update ctx settings) true true).length ≤ 3002 ∧
      (render_bootstrap_grid (design_overlay_update ctx settings) true true).length ≤ 25 ∧
      (render_safe_zones (design_overlay_update ctx settings) true true).length = 12 ∧
      (render_crosshair (design_overlay_update ctx settings) true true).length = 8 ∧
      (render_branding (design_overlay_update ctx settings) true true).length ≤ 5) ∧
    ((design_overlay_update zeroState fullSettings).canvas_width = 7680 ∧
      (design_overlay_update zeroState fullSettings).canvas_height = 4320 ∧
      (design_overlay_update zeroState fullSettings).material_grid_size = 4 ∧
      (design_overlay_update zeroState fullSettings).bootstrap_columns = 24 ∧
      (design_overlay_video_render readyHost
        (design_overlay_update zeroState fullSettings)).2.length = 3066) := by
  have hv := update_validated ctx settings
  refine ⟨?_, ⟨rfl, rfl, ?_, ?_, rfl, rfl, ?_⟩, ?_⟩
  · rw [frame_length host _ hv]
    split_ifs
    · exact spec_frame_count_le _ hv
    · omega
  · rw [material_grid_length _ hv]
    obtain ⟨⟨_, hW⟩, ⟨_, hH⟩, ⟨hs1, _⟩, _⟩ := hv
    have hg : 4 ≤ (design_overlay_update ctx settings).material_grid_size.toNat := by omega
    have h1 : (design_overlay_update ctx settings).canvas_width
          / (design_overlay_update ctx settings).material_grid_size.toNat
        ≤ (design_overlay_update ctx settings).canvas_width / 4 :=
      Nat.div_le_div_left hg (by norm_num)
    have h2 : (design_overlay_update ctx settings).canvas_height
          / (design_overlay_update ctx settings).material_grid_size.toNat
        ≤ (design_overlay_update ctx settings).canvas_height / 4 :=
      Nat.div_le_div_left hg (by norm_num)
    omega
  · rw [bootstrap_grid_length _ hv]
    obtain ⟨_, _, _, ⟨hC1, hC2⟩⟩ := hv
    omega
  · rw [branding_length]
    split_ifs <;> omega
  · obtain ⟨he, _, _, _, _, _, _, _, hW, hH, hs, hn⟩ := full_state
    refine ⟨hW, hH, hs, hn, ?_⟩
    rw [frame_length readyHost _ (update_validated zeroState fullSettings),
      if_pos ⟨he, rfl, rfl, rfl⟩]
    exact full_state_count

end DesignOverlay
